import Mathlib

/-!
Verification of the team-drawing core of the `workshop-team-drawer` repository.

The repository has two source files sharing one data model:
* `src/streamlit_app.py` — quota planner `compute_balanced_targets`, the full
  pipeline `assign_members_to_teams` (distribution, exclusion/inclusion repair,
  rebalancing, pool-and-rebuild), and the room packer `assign_rooms`;
* `src/app.py` — the simpler planner `compute_group_targets` and its own
  `assign_members_to_teams`.

Python's `random.Random(seed)` is modelled as an `Rng`: a tape of draws
(`tape : Nat → Nat`) plus a position.  Every primitive draw takes the next tape
value reduced modulo its range, so each draw is in range for *every* tape, and
a concrete seeded generator corresponds to one concrete tape.  `random.shuffle`
is the Fisher–Yates loop of CPython (`for i in reversed(range(1, len(x))):
j = randbelow(i+1); swap x[i] x[j]`), driven by the tape.  Universal theorems
quantify over all tapes, hence over everything any seeded generator can do.

Machine integers do not overflow in the source's ranges, so Python `int` is
modelled by `Nat` where the source never goes negative (every subtraction in
the modelled code is guarded, or is an explicit `max(0, _)`, which coincides
with truncated `Nat` subtraction) and by `Int` where sign checks occur
(the adjusted desired-count lists, which the source tests against `< 0`).
-/

set_option maxHeartbeats 4000000
set_option maxRecDepth 8000

namespace TeamDrawer


/-- `Member` dataclass: `name`, `group` (one of `leader`/`ob`/`yb`/`girls`),
`gender` (`M`/`F`). -/
structure Member where
  name : String
  group : String
  gender : String
deriving DecidableEq, Repr

instance : Inhabited Member := ⟨⟨"", "", ""⟩⟩

/-- `Team` dataclass: `index`, `leader`, `members`. -/
structure Team where
  index : Nat
  leader : Member
  members : List Member
deriving DecidableEq, Repr

instance : Inhabited Team := ⟨⟨0, default, []⟩⟩

/-- Model of `random.Random`: an arbitrary tape of raw draws and the position
of the next draw. -/
structure Rng where
  tape : Nat → Nat
  pos : Nat

/-- One bounded draw (`_randbelow(n)`): next tape value, reduced mod `n`. -/
def Rng.next (r : Rng) (n : Nat) : Nat × Rng :=
  (r.tape r.pos % n, ⟨r.tape, r.pos + 1⟩)

/-- Exchange the elements at positions `i` and `j` (no-op when out of range). -/
def swapL (xs : List α) (i j : Nat) : List α :=
  match xs.get? i, xs.get? j with
  | some a, some b => (xs.set i b).set j a
  | _, _ => xs

/-- CPython `random.shuffle` body: for `i` from `len-1` down to `1`,
draw `j < i+1` and swap positions `i` and `j`.  The argument of `shuffleGo`
is the current value of `i`. -/
def Rng.shuffleGo (r : Rng) (xs : List α) : Nat → List α × Rng
  | 0 => (xs, r)
  | i + 1 =>
    let (j, r2) := r.next (i + 2)
    Rng.shuffleGo r2 (swapL xs (i + 1) j) i

/-- `random.shuffle`. -/
def Rng.shuffle (r : Rng) (xs : List α) : List α × Rng :=
  Rng.shuffleGo r xs (xs.length - 1)

/-- `random.sample(range(n), k)`: `k` distinct naturals below `n`.  Modelled as
a tape-driven permutation of `range n` truncated to `k` elements; only the
contract (distinct, in range, length `k`) matters to the callers, not the
library's sampling distribution. -/
def Rng.sample (r : Rng) (n k : Nat) : List Nat × Rng :=
  let (p, r2) := r.shuffle (List.range n)
  (p.take k, r2)

/-- Pointwise spare capacity `Σᵢ (cᵢ - gᵢ)` with truncated subtraction. -/
def spareL : List Nat → List Nat → Nat
  | c :: cs, x :: xs => (c - x) + spareL cs xs
  | _, _ => 0

/-! ### Round-robin distribution loops

`compute_balanced_targets` contains three `while` loops that walk a priority
order cyclically (`team_i = order[ptr % len(order)]`), advancing `ptr` by one
each iteration, acting only when the team at `ptr` passes an eligibility test,
and exiting when the pending count reaches zero or no team at all is eligible.
Iterations at ineligible teams change nothing but `ptr`, so the loop is the
same computation as: find the next eligible offset within one full cycle of
`order` and act there, `k` times.  (When no offset in a full cycle is eligible
and `order` covers every team — which it does at every call site, being a
priority list concatenated with its complement — the `any(...)` exit condition
of the source is false and the loop stops.)  `rrGo` implements that. -/

def rrGo (order : List Nat) (elig : σ → Nat → Bool) (upd : σ → Nat → σ) :
    Nat → Nat → σ → σ
  | 0, _, s => s
  | k + 1, ptr, s =>
    match (List.range order.length).find?
        (fun d => elig s (order.getD ((ptr + d) % order.length) 0)) with
    | none => s
    | some d =>
      rrGo order elig upd k (ptr + d + 1)
        (upd s (order.getD ((ptr + d) % order.length) 0))

/-- `k` update steps, each at an eligible index drawn from `order`. -/
inductive StepsK (order : List Nat) (elig : σ → Nat → Bool) (upd : σ → Nat → σ) :
    Nat → σ → σ → Prop
  | refl (s : σ) : StepsK order elig upd 0 s s
  | step {k : Nat} {s t : σ} {i : Nat} (hmem : i ∈ order) (he : elig s i = true)
      (hrest : StepsK order elig upd k (upd s i) t) :
      StepsK order elig upd (k + 1) s t

/-! ### Shared distribution machinery (both implementations) -/

/-- `pop_many`: take `count` members off the front of a pool, error when the
pool is too small (the same message in both source files). -/
def pop_many (src : List Member) (count : Nat) :
    Except String (List Member × List Member) :=
  if count = 0 then Except.ok ([], src)
  else if src.length < count then
    Except.error "분배 대상 인원이 부족합니다. 입력 CSV를 확인하세요."
  else Except.ok (src.take count, src.drop count)

/-- The per-group distribution loop
(`for i in range(num_teams): teams[i].members.extend(pop_many(pool, targets[i][g]))`). -/
def dealGroup : List Team → List Nat → List Member →
    Except String (List Team × List Member)
  | [], _, pool => Except.ok ([], pool)
  | t :: ts, tgts, pool => do
    let (got, rest) ← pop_many pool (tgts.headD 0)
    let (ts2, rest2) ← dealGroup ts tgts.tail rest
    Except.ok ({ t with members := t.members ++ got } :: ts2, rest2)

/-- `teams = [Team(index=i, leader=leaders[i]) for i in range(num_teams)]`. -/
def mkTeams (leaders : List Member) : List Team :=
  (List.range leaders.length).map (fun i => ⟨i, leaders.getD i default, []⟩)

/-- `for team in teams: rng.shuffle(team.members)`. -/
def shuffleTeams : List Team → Rng → List Team × Rng
  | [], r => ([], r)
  | t :: ts, r =>
    let (ms, r2) := r.shuffle t.members
    let (ts2, r3) := shuffleTeams ts r2
    ({ t with members := ms } :: ts2, r3)

namespace AP

/-- `[i for i, ld in enumerate(leaders) if p(ld)]`. -/
def idxWhere (p : Member → Bool) (leaders : List Member) : List Nat :=
  (List.range leaders.length).filter (fun i => p (leaders.getD i default))

/-- Add one to the target at each index of `idxs`, in order. -/
def bumpAll (idxs : List Nat) (t : List Nat) : List Nat :=
  idxs.foldl (fun acc i => acc.set i (acc.getD i 0 + 1)) t

/-- One group of `compute_group_targets` (`src/app.py`): per-team base
`count // n`, the remainder to the priority teams (`lead`) in index order, and
— when the remainder exceeds the priority list — the rest round-robin over the
complement. -/
def distribAP (n count : Nat) (lead : List Nat) : List Nat :=
  let base := count / n
  let rem := count % n
  let t1 := bumpAll (lead.take rem) (List.replicate n base)
  if rem > lead.length then
    let remaining := rem - lead.length
    let others := (List.range n).filter (fun i => decide (i ∉ lead))
    bumpAll ((List.range remaining).map
      (fun i => others.getD (i % others.length) 0)) t1
  else t1

/-- `compute_group_targets` of `src/app.py`; returns `(obT, ybT, girlsT)`.
`ob`/`yb` remainders prefer female-led teams, `girls` remainders prefer
male-led teams. -/
def compute_group_targets (leaders : List Member) (obC ybC girlsC : Nat) :
    List Nat × List Nat × List Nat :=
  let n := leaders.length
  let maleIdx := idxWhere (fun m => m.gender == "M") leaders
  let femaleIdx := idxWhere (fun m => m.gender == "F") leaders
  (distribAP n obC femaleIdx, distribAP n ybC femaleIdx,
    distribAP n girlsC maleIdx)

/-- `assign_members_to_teams` of `src/app.py`: validate the captains, compute
the targets, shuffle each pool, deal the planned counts, shuffle each roster. -/
def assign_members_to_teams (leaders obL ybL girlsL : List Member)
    (tape : Nat → Nat) : Except String (List Team) := do
  let r : Rng := ⟨tape, 0⟩
  if leaders.length ≠ 8 then
    Except.error "리더 수는 반드시 8명이어야 합니다."
  else if (leaders.filter (fun m => m.gender == "M")).length ≠ 4 ∨
      (leaders.filter (fun m => m.gender == "F")).length ≠ 4 then
    Except.error "리더 성별은 남 4, 여 4 이어야 합니다."
  else
    let (obT, ybT, girlsT) :=
      compute_group_targets leaders obL.length ybL.length girlsL.length
    let (obS, r) := r.shuffle obL
    let (ybS, r) := r.shuffle ybL
    let (girlsS, r) := r.shuffle girlsL
    let teams0 := mkTeams leaders
    let (teams1, _) ← dealGroup teams0 obT obS
    let (teams2, _) ← dealGroup teams1 ybT ybS
    let (teams3, _) ← dealGroup teams2 girlsT girlsS
    let (teams4, _) := shuffleTeams teams3 r
    Except.ok teams4

end AP

namespace SL

/-- `allocate_group_even` (closure inside `compute_balanced_targets`,
`src/streamlit_app.py` lines 184–210): per-team base `count // n` capped by
remaining capacity, then the leftover round-robin over the priority order
starting at a random offset, skipping teams with no capacity.  Returns
`(groupTargets, remainingCapacity, rng)`; the group's targets start at zero. -/
def allocate_group_even (count : Nat) (preferred : List Nat) (cap : List Nat)
    (r : Rng) : List Nat × List Nat × Rng :=
  let n := cap.length
  if count = 0 ∨ n = 0 then (List.replicate n 0, cap, r)
  else
    let base := count / n
    let t0 := cap.map (fun c => min base c)
    let cap1 := cap.map (fun c => c - min base c)
    let left := count - t0.sum
    if left = 0 then (t0, cap1, r)
    else
      let order := preferred ++
        (List.range n).filter (fun i => decide (i ∉ preferred))
      let s := rrGo order
        (fun (s : List Nat × List Nat) i => decide (0 < s.2.getD i 0))
        (fun s i => (s.1.set i (s.1.getD i 0 + 1), s.2.set i (s.2.getD i 0 - 1)))
        left ((r.next order.length).1) (t0, cap1)
      (s.1, s.2, (r.next order.length).2)

/-- `compute_balanced_targets` (`src/streamlit_app.py` lines 100–216).
Returns `((obT, ybT, girlsT), rng)`.

Stages, in source order: random per-team total capacities (`base`/`base+1`);
shuffled priority index lists; per-team female totals (`girls` plus female
captains) equalised, extras to the first `rem_f` entries of a shuffled
male-first order; `girls` targets = female totals minus female captains,
clamped to `[0, capacity]`, then topped up (male-led teams first) or reduced
(female-led teams first) until they sum to `girls_count`; finally `yb` then
`ob` are spread over the remaining capacity with female-led teams first.
Note `max(0, x - y)` on Python ints is truncated `Nat` subtraction here. -/
def compute_balanced_targets (leaders : List Member) (obC ybC girlsC : Nat)
    (r : Rng) : (List Nat × List Nat × List Nat) × Rng :=
  let n := leaders.length
  let total := obC + ybC + girlsC
  let base := total / n
  let rem := total % n
  let sres := if 0 < rem then r.sample n rem else ([], r)
  let extraIdx := sres.1
  let r1 := sres.2
  let cap0 := (List.range n).map
    (fun i => base + (if i ∈ extraIdx then 1 else 0))
  let mres := r1.shuffle (AP.idxWhere (fun m => m.gender == "M") leaders)
  let maleIdx := mres.1
  let r2 := mres.2
  let fres := r2.shuffle (AP.idxWhere (fun m => m.gender == "F") leaders)
  let femaleIdx := fres.1
  let r3 := fres.2
  let ofres := r3.shuffle ((List.range n).filter (fun i => decide (i ∉ femaleIdx)))
  let othersFromFemale := ofres.1
  let r4 := ofres.2
  let omres := r4.shuffle ((List.range n).filter (fun i => decide (i ∉ maleIdx)))
  let r5 := omres.2
  let orderMaleGroups := femaleIdx ++ othersFromFemale
  let totalF := girlsC + femaleIdx.length
  let baseF := totalF / n
  let remF := totalF % n
  let mfres :=
    r5.shuffle (maleIdx ++ (List.range n).filter (fun i => decide (i ∉ maleIdx)))
  let maleFirst := mfres.1
  let r6 := mfres.2
  let extraFemale := if 0 < remF then maleFirst.take remF else []
  let girls0 := (List.range n).map (fun i =>
    (baseF + (if i ∈ extraFemale then 1 else 0)) -
      (if i ∈ femaleIdx then 1 else 0))
  let girls1 := List.zipWith min girls0 cap0
  let curSum := girls1.sum
  let fillOrder := maleIdx ++
    (List.range n).filter (fun i => decide (i ∉ maleIdx))
  let reduceOrder := femaleIdx ++
    (List.range n).filter (fun i => decide (i ∉ femaleIdx))
  let girls2 :=
    if curSum < girlsC then
      rrGo fillOrder (fun g i => decide (g.getD i 0 < cap0.getD i 0))
        (fun g i => g.set i (g.getD i 0 + 1)) (girlsC - curSum) 0 girls1
    else if girlsC < curSum then
      rrGo reduceOrder (fun g i => decide (0 < g.getD i 0))
        (fun g i => g.set i (g.getD i 0 - 1)) (curSum - girlsC) 0 girls1
    else girls1
  let cap1 := List.zipWith (fun c g => c - g) cap0 girls2
  let yres := allocate_group_even ybC orderMaleGroups cap1 r6
  let ybT := yres.1
  let cap2 := yres.2.1
  let r7 := yres.2.2
  let ores := allocate_group_even obC orderMaleGroups cap2 r7
  ((ores.1, ybT, girls2), ores.2.2)

end SL

namespace AP

/-- The indices that receive one extra member for a single group of
`compute_group_targets`: the first `count % n` priority teams, then — when the
remainder exceeds the priority list — round-robin positions of the
complement. -/
def bumpIdx (n count : Nat) (lead : List Nat) : List Nat :=
  lead.take (count % n) ++
    (if count % n > lead.length then
      (List.range (count % n - lead.length)).map
        (fun i => ((List.range n).filter (fun i => decide (i ∉ lead))).getD
          (i % ((List.range n).filter (fun i => decide (i ∉ lead))).length) 0)
    else [])

end AP

/-- Eight captains, four male (`C1`–`C4`) then four female (`C5`–`C8`), used
to instantiate theorems with hypotheses at a concrete valid input. -/
def sampleLeaders : List Member :=
  [⟨"C1", "leader", "M"⟩, ⟨"C2", "leader", "M"⟩, ⟨"C3", "leader", "M"⟩,
   ⟨"C4", "leader", "M"⟩, ⟨"C5", "leader", "F"⟩, ⟨"C6", "leader", "F"⟩,
   ⟨"C7", "leader", "F"⟩, ⟨"C8", "leader", "F"⟩]

namespace SL

/-- The hardcoded names of the exclusion/inclusion rules (`exclude_names` at
line 283 of `src/streamlit_app.py`; a Python `set` used only through
membership tests). -/
def excludeNames : List String := ["이진원", "배연경", "노시현"]

/-- `locate(name)` (inner helper of both repair functions): the first team
containing the name, as `(team index, is-leader, member index)`.  For a leader
hit the source stores the unused sentinel `-1`; this model stores `0`. -/
def locateGo (nm : String) : List Team → Nat → Option (Nat × Bool × Nat)
  | [], _ => none
  | t :: ts, i =>
    if t.leader.name == nm then some (i, true, 0)
    else match t.members.findIdx? (fun m => m.name == nm) with
      | some j => some (i, false, j)
      | none => locateGo nm ts (i + 1)

def locate (teams : List Team) (nm : String) : Option (Nat × Bool × Nat) :=
  locateGo nm teams 0

def team_has_name (t : Team) (nm : String) : Bool :=
  t.leader.name == nm || t.members.any (fun m => m.name == nm)

/-- The Python tuple swap
`teams[ta].members[ia], teams[tb].members[ib] = teams[tb].members[ib],
teams[ta].members[ia]` (also correct when `ta = tb`); no-op out of range. -/
def swapBetween (teams : List Team) (ta ia tb ib : Nat) : List Team :=
  match teams.get? ta, teams.get? tb with
  | some A, some B =>
    match A.members.get? ia, B.members.get? ib with
    | some x, some y =>
      if ta = tb then
        teams.set ta { A with members := (A.members.set ia y).set ib x }
      else
        (teams.set ta { A with members := A.members.set ia y }).set tb
          { B with members := B.members.set ib x }
    | _, _ => teams
  | _, _ => teams

/-- Candidate scan of `try_resolve_pair`: the first team `j ≠ conflicted` not
containing `avoid` that has a member of group `grp`, with that member's
index. -/
def findSameGroupGo (conflicted : Nat) (avoid grp : String) :
    List Team → Nat → Option (Nat × Nat)
  | [], _ => none
  | t :: ts, j =>
    if j = conflicted then findSameGroupGo conflicted avoid grp ts (j + 1)
    else if team_has_name t avoid then
      findSameGroupGo conflicted avoid grp ts (j + 1)
    else match t.members.findIdx? (fun m => m.group == grp) with
      | some ji => some (j, ji)
      | none => findSameGroupGo conflicted avoid grp ts (j + 1)

def findSameGroup (teams : List Team) (conflicted : Nat) (avoid grp : String) :
    Option (Nat × Nat) :=
  findSameGroupGo conflicted avoid grp teams 0

/-- Fallback scan of `try_resolve_pair`: the first team `j ≠ conflicted` not
containing `avoid` with any member at all (the swap then uses its member 0). -/
def findAnyTeamGo (conflicted : Nat) (avoid : String) :
    List Team → Nat → Option Nat
  | [], _ => none
  | t :: ts, j =>
    if j = conflicted then findAnyTeamGo conflicted avoid ts (j + 1)
    else if team_has_name t avoid then findAnyTeamGo conflicted avoid ts (j + 1)
    else if t.members = [] then findAnyTeamGo conflicted avoid ts (j + 1)
    else some j

def findAnyTeam (teams : List Team) (conflicted : Nat) (avoid : String) :
    Option Nat :=
  findAnyTeamGo conflicted avoid teams 0

/-- `try_resolve_pair(a, b)` (lines 559–614): when `a` and `b` share a team,
try in order (1) a same-group swap moving `a`, (2) a same-group swap moving
`b`, (3) an arbitrary swap moving `a`, (4) an arbitrary swap moving `b`;
leaders are never moved; teams already containing the other name are never
swap targets; an unresolvable conflict leaves the teams unchanged. -/
def try_resolve_pair (teams : List Team) (a b : String) : List Team :=
  match locate teams a, locate teams b with
  | some (ta, aLead, aIdx), some (tb, bLead, bIdx) =>
    if ta ≠ tb then teams
    else
      let conflicted := ta
      let c1 : Option (List Team) :=
        if aLead then none
        else
          match findSameGroup teams conflicted b
              ((teams.getD conflicted default).members.getD aIdx
                default).group with
          | some (j, ji) => some (swapBetween teams conflicted aIdx j ji)
          | none => none
      match c1 with
      | some out => out
      | none =>
        let c2 : Option (List Team) :=
          if bLead then none
          else
            match findSameGroup teams conflicted a
                ((teams.getD conflicted default).members.getD bIdx
                  default).group with
            | some (j, ji) => some (swapBetween teams conflicted bIdx j ji)
            | none => none
        match c2 with
        | some out => out
        | none =>
          let c3 : Option (List Team) :=
            if aLead then none
            else match findAnyTeam teams conflicted b with
              | some j => some (swapBetween teams conflicted aIdx j 0)
              | none => none
          match c3 with
          | some out => out
          | none =>
            let c4 : Option (List Team) :=
              if bLead then none
              else match findAnyTeam teams conflicted a with
                | some j => some (swapBetween teams conflicted bIdx j 0)
                | none => none
            c4.getD teams
  | _, _ => teams

/-- `enforce_exclusion_pairs` (lines 542–617). -/
def enforce_exclusion_pairs (teams : List Team)
    (pairs : List (String × String)) : List Team :=
  pairs.foldl (fun ts p => try_resolve_pair ts p.1 p.2) teams

/-- `swap_members(src_team, src_idx, dst_team)` of `enforce_inclusion_pair`:
same-group swap into the destination when possible, else swap with the
destination's first member; `none` models the `False` return (destination
has no members). -/
def swap_members (teams : List Team) (srcT srcI dstT : Nat) :
    Option (List Team) :=
  match (teams.getD dstT default).members.findIdx?
      (fun m => m.group ==
        ((teams.getD srcT default).members.getD srcI default).group) with
  | some ji => some (swapBetween teams srcT srcI dstT ji)
  | none =>
    if (teams.getD dstT default).members = [] then none
    else some (swapBetween teams srcT srcI dstT 0)

/-- `enforce_inclusion_pair` (lines 620–663): bring the pair onto one team,
moving only the non-leader side when the other is a leader and doing nothing
when both are leaders. -/
def enforce_inclusion_pair (teams : List Team) (a b : String) : List Team :=
  match locate teams a, locate teams b with
  | some (ta, aLead, aIdx), some (tb, bLead, bIdx) =>
    if ta = tb then teams
    else if aLead && !bLead then (swap_members teams tb bIdx ta).getD teams
    else if bLead && !aLead then (swap_members teams ta aIdx tb).getD teams
    else if !aLead && !bLead then
      match swap_members teams ta aIdx tb with
      | some out => out
      | none => (swap_members teams tb bIdx ta).getD teams
    else teams
  | _, _ => teams

/-- `locked_yb_by_team` (lines 287–289): per team, the members of group `yb`
whose name is one of the constrained names. -/
def lockedYbByTeam (teams : List Team) : List Nat :=
  teams.map (fun t => (t.members.filter
    (fun m => m.group == "yb" && decide (m.name ∈ excludeNames))).length)

/-- One step of the locked-`yb` lower-bound bump (lines 294–299). -/
def bumpStep (locked : List Nat) (s : List Int × List Int) (i : Nat) :
    List Int × List Int :=
  if (locked.getD i 0 : Int) > s.1.getD i 0 then
    let delta := (locked.getD i 0 : Int) - s.1.getD i 0
    let dyb2 := s.1.set i (s.1.getD i 0 + delta)
    let take := min delta (s.2.getD i 0)
    (dyb2, s.2.set i (s.2.getD i 0 - take))
  else s

def bumpDesired (locked : List Nat) (n : Nat) (dyb dob : List Int) :
    List Int × List Int :=
  (List.range n).foldl (bumpStep locked) (dyb, dob)

/-- Stable insertion used to model Python's stable `list.sort(key=...)`:
insert before the first strictly greater element. -/
def insertA (keyLt : Nat → Nat → Bool) (x : Nat) : List Nat → List Nat
  | [] => [x]
  | y :: ys => if keyLt x y then x :: y :: ys else y :: insertA keyLt x ys

def sortStable (keyLt : Nat → Nat → Bool) (l : List Nat) : List Nat :=
  l.foldl (fun acc x => insertA keyLt x acc) []

/-- The 256-capped excess drain (lines 301–314): walk the sorted order,
trading one `yb` for one `ob` wherever the desired `yb` exceeds the locked
lower bound, until the excess is gone or 256 iterations passed. -/
def drainGo (order : List Nat) (locked : List Nat) :
    Nat → Nat → Int → List Int → List Int → List Int × List Int
  | 0, _, _, dyb, dob => (dyb, dob)
  | fuel + 1, ptr, excess, dyb, dob =>
    if excess ≤ 0 then (dyb, dob)
    else
      let i := order.getD (ptr % order.length) 0
      if dyb.getD i 0 > (locked.getD i 0 : Int) then
        drainGo order locked fuel (ptr + 1) (excess - 1)
          (dyb.set i (dyb.getD i 0 - 1)) (dob.set i (dob.getD i 0 + 1))
      else drainGo order locked fuel (ptr + 1) excess dyb dob

/-- Inner repair loop of the negative-`ob` safety net (lines 318–330). -/
def negFixInner (i n : Nat) :
    Nat → Nat → Int → List Int → List Int → List Int × List Int
  | 0, _, _, dyb, dob => (dyb, dob)
  | fuel + 1, jptr, need, dyb, dob =>
    if need ≤ 0 then (dyb, dob)
    else
      let j := (List.range n).getD (jptr % n) 0
      if j ≠ i ∧ dob.getD j 0 > 0 then
        negFixInner i n fuel (jptr + 1) (need - 1)
          (dyb.set j (dyb.getD j 0 + 1)) (dob.set j (dob.getD j 0 - 1))
      else negFixInner i n fuel (jptr + 1) need dyb dob

/-- The negative-`ob` safety net (lines 316–330); the desired `ob` counts
never go negative, so this is a faithful no-op in practice. -/
def negFixStep (n : Nat) (s : List Int × List Int) (i : Nat) :
    List Int × List Int :=
  if s.2.getD i 0 < 0 then
    negFixInner i n 256 0 (-(s.2.getD i 0)) s.1 (s.2.set i 0)
  else s

def negFix (n : Nat) (dyb dob : List Int) : List Int × List Int :=
  (List.range n).foldl (negFixStep n) (dyb, dob)

/-- The desired-count adjustment block (lines 280–332): bump the `yb` targets
to the locked lower bounds, drain the resulting excess over a stable-sorted
order, then run the negative-`ob` safety net. -/
def adjustDesired (teams : List Team) (n : Nat) (ybT obT : List Nat) :
    List Int × List Int :=
  let dyb0 : List Int := ybT.map (fun x : Nat => (x : Int))
  let dob0 : List Int := obT.map (fun x : Nat => (x : Int))
  let locked := lockedYbByTeam teams
  let ybBefore := dyb0.sum
  let s1 := bumpDesired locked n dyb0 dob0
  let excess := s1.1.sum - ybBefore
  let s2 :=
    if excess > 0 then
      let flag := fun i => decide ((locked.getD i 0 : Int) ≥ s1.1.getD i 0)
      let keyLt := fun i j => (!flag i && flag j)
        || (flag i == flag j && decide (s1.1.getD i 0 < s1.1.getD j 0))
      drainGo (sortStable keyLt (List.range n)) locked 256 0 excess s1.1 s1.2
    else s1
  negFix n s2.1 s2.2

/-- A movable member for the rebalancing swap loops: in one of the groups and
not one of the constrained names. -/
def findMovable (t : Team) (grps : List String) : Option Nat :=
  t.members.findIdx?
    (fun m => decide (m.group ∈ grps) && decide (m.name ∉ excludeNames))

def pickRecv (teams : List Team) (rGrps : List String) :
    List Nat → Option (Nat × Nat)
  | [] => none
  | ri :: rest =>
    match findMovable (teams.getD ri default) rGrps with
    | none => pickRecv teams rGrps rest
    | some rIdx => some (ri, rIdx)

def pickDonorRecv (teams : List Team) (receivers : List Nat)
    (dGrps rGrps : List String) : List Nat → Option (Nat × Nat × Nat × Nat)
  | [] => none
  | di :: rest =>
    match findMovable (teams.getD di default) dGrps with
    | none => pickDonorRecv teams receivers dGrps rGrps rest
    | some dIdx =>
      match pickRecv teams rGrps receivers with
      | some (ri, rIdx) => some (di, dIdx, ri, rIdx)
      | none => pickDonorRecv teams receivers dGrps rGrps rest

/-- One of the three 64-capped donor→receiver swap loops (lines 338–371,
377–406, 409–438): recompute donors and receivers from the running counts,
swap the first movable donor member with the first movable receiver member,
stop when either side is empty or no swap is possible. -/
def swapLoop (desired : List Int) (dGrps rGrps : List String) (n : Nat) :
    Nat → List Team → List Int → List Team
  | 0, teams, _ => teams
  | fuel + 1, teams, cur =>
    let donors := (List.range n).filter
      (fun i => decide (cur.getD i 0 > desired.getD i 0))
    let receivers := (List.range n).filter
      (fun i => decide (cur.getD i 0 < desired.getD i 0))
    if donors = [] ∨ receivers = [] then teams
    else match pickDonorRecv teams receivers dGrps rGrps donors with
      | none => teams
      | some (di, dIdx, ri, rIdx) =>
        swapLoop desired dGrps rGrps n fuel (swapBetween teams di dIdx ri rIdx)
          ((cur.set di (cur.getD di 0 - 1)).set ri (cur.getD ri 0 + 1))

/-- Member kept in place by `rebuild_ob_yb_exact`: anything that is not an
unlocked `ob`/`yb`. -/
def keepMember (locked : List String) (m : Member) : Bool :=
  !((m.group == "ob" || m.group == "yb") && decide (m.name ∉ locked))

/-- The re-deal of `rebuild_ob_yb_exact` (lines 460–470): per team in order,
take `max(0, desired - locked-in-place)` members from the shuffled `yb` then
`ob` pools. -/
def rebuildDeal (dyb dob : List Int) :
    List Team → Nat → List Member → List Member →
      List Team × List Member × List Member
  | [], _, ybP, obP => ([], ybP, obP)
  | t :: ts, i, ybP, obP =>
    let lockedYbHere := (t.members.filter (fun m => m.group == "yb")).length
    let lockedObHere := (t.members.filter (fun m => m.group == "ob")).length
    let needYb := (dyb.getD i 0 - (lockedYbHere : Int)).toNat
    let needOb := (dob.getD i 0 - (lockedObHere : Int)).toNat
    let takeY := min needYb ybP.length
    let ybRest := ybP.drop takeY
    let takeO := min needOb obP.length
    let res := rebuildDeal dyb dob ts (i + 1) (ybP.drop takeY) (obP.drop takeO)
    ({ t with members := t.members ++ ybP.take takeY ++ obP.take takeO }
      :: res.1, res.2)

/-- The 1024-capped leftover loop of `rebuild_ob_yb_exact` (lines 472–486):
append from the back of the pool to teams whose `ob + yb` total is still
under target, walking a shuffled order. -/
def fillLeftoversGo (dyb dob : List Int) (order : List Nat) :
    Nat → Nat → List Team → List Member → List Team × List Member
  | 0, _, teams, pool => (teams, pool)
  | fuel + 1, ptr, teams, pool =>
    if pool = [] then (teams, pool)
    else
      let i := order.getD (ptr % order.length) 0
      let t := teams.getD i default
      let curOb := (t.members.filter (fun m => m.group == "ob")).length
      let curYb := (t.members.filter (fun m => m.group == "yb")).length
      if (curOb + curYb : Int) < dyb.getD i 0 + dob.getD i 0 then
        match pool.getLast? with
        | some m =>
          fillLeftoversGo dyb dob order fuel (ptr + 1)
            (teams.set i { t with members := t.members ++ [m] }) pool.dropLast
        | none => (teams, pool)
      else fillLeftoversGo dyb dob order fuel (ptr + 1) teams pool

def fill_leftovers (dyb dob : List Int) (teams : List Team)
    (pool : List Member) (r : Rng) (n : Nat) : List Team × Rng :=
  if pool = [] then (teams, r)
  else
    let ores := r.shuffle (List.range n)
    ((fillLeftoversGo dyb dob ores.1 1024 0 teams pool).1, ores.2)

/-- `rebuild_ob_yb_exact(locked_names)` (lines 442–488): pool every unlocked
`ob`/`yb` member (teams keep girls and locked members), shuffle the `ob` then
the `yb` pool, re-deal to the adjusted needs, and round-robin leftovers. -/
def rebuild_ob_yb_exact (teams : List Team) (dyb dob : List Int)
    (locked : List String) (r : Rng) (n : Nat) : List Team × Rng :=
  let obPool := teams.bind (fun t => t.members.filter
    (fun m => m.group == "ob" && decide (m.name ∉ locked)))
  let ybPool := teams.bind (fun t => t.members.filter
    (fun m => m.group == "yb" && decide (m.name ∉ locked)))
  let teamsK := teams.map
    (fun t => { t with members := t.members.filter (keepMember locked) })
  let ores := r.shuffle obPool
  let yres := ores.2.shuffle ybPool
  let dres := rebuildDeal dyb dob teamsK 0 yres.1 ores.1
  let fy := fill_leftovers dyb dob dres.1 dres.2.1 yres.2 n
  let fo := fill_leftovers dyb dob fy.1 dres.2.2 fy.2 n
  fo

/-- The single extra `girls` correction pass after re-enforcement
(lines 505–523): donors and receivers are computed once; each donor performs
at most one swap with the first movable receiver candidate. -/
def girlsFinalPassDonor (receivers : List Nat) (teams : List Team) (di : Nat) :
    List Team :=
  match findMovable (teams.getD di default) ["girls"] with
  | none => teams
  | some dIdx =>
    match pickRecv teams ["ob", "yb"] receivers with
    | some (ri, rIdx) => swapBetween teams di dIdx ri rIdx
    | none => teams

def girlsFinalPass (girlsT : List Nat) (n : Nat) (teams : List Team) :
    List Team :=
  let desired : List Int := girlsT.map (fun x : Nat => (x : Int))
  let cur := teams.map (fun t =>
    ((t.members.filter (fun m => m.group == "girls")).length : Int))
  let donors := (List.range n).filter
    (fun i => decide (cur.getD i 0 > desired.getD i 0))
  let receivers := (List.range n).filter
    (fun i => decide (cur.getD i 0 < desired.getD i 0))
  donors.foldl (girlsFinalPassDonor receivers) teams

/-- The whole post-repair rebalancing block (lines 278–537): adjust the
desired `yb`/`ob` counts for locked members, run the three swap loops, the
first rebuild, re-apply the exclusion (and conditional inclusion) rules, the
final `girls` pass, and the final rebuild with the constrained names locked.
The source wraps these stages in `try/except Exception: pass`; every stage
here is total, so the guards are transparent. -/
def rebalance (teams : List Team) (obT ybT girlsT : List Nat) (incl : Bool)
    (r : Rng) (n : Nat) : List Team × Rng :=
  let desiredGirls : List Int := girlsT.map (fun x : Nat => (x : Int))
  let ad := adjustDesired teams n ybT obT
  let dyb := ad.1
  let dob := ad.2
  let cur0 := teams.map (fun t =>
    ((t.members.filter (fun m => m.group == "girls")).length : Int))
  let teamsB := swapLoop desiredGirls ["girls"] ["ob", "yb"] n 64 teams cur0
  let curYb := teamsB.map (fun t =>
    ((t.members.filter (fun m => m.group == "yb")).length : Int))
  let teamsC := swapLoop dyb ["yb"] ["ob"] n 64 teamsB curYb
  let curOb := teamsC.map (fun t =>
    ((t.members.filter (fun m => m.group == "ob")).length : Int))
  let teamsD := swapLoop dob ["ob"] ["yb"] n 64 teamsC curOb
  let rb1 := rebuild_ob_yb_exact teamsD dyb dob excludeNames r n
  let teamsF := enforce_exclusion_pairs rb1.1 [("노시현", "배연경")]
  let teamsG := enforce_exclusion_pairs teamsF [("노시현", "이진원")]
  let teamsH := if incl then enforce_inclusion_pair teamsG "이진원" "배연경"
    else teamsG
  let teamsI := girlsFinalPass girlsT n teamsH
  let lockedFinal := (if incl then ["이진원", "배연경"] else [])
    ++ ["노시현"] ++ excludeNames
  rebuild_ob_yb_exact teamsI dyb dob lockedFinal rb1.2 n

/-- `assign_members_to_teams` of `src/streamlit_app.py` (lines 219–539) with
the three `if seed % 3 == 0` guards abstracted into the boolean `incl`
(`seed` is otherwise only used to seed the generator, which the tape models).
Returns the final teams together with what remains of the three caller pool
lists: the source shuffles and then consumes them in place, so the returned
pool components are the final contents of the caller's lists. -/
def assignCore (leaders obL ybL girlsL : List Member) (incl : Bool)
    (tape : Nat → Nat) :
    Except String (List Team × List Member × List Member × List Member) :=
  let r : Rng := ⟨tape, 0⟩
  if leaders.length ≠ 8 then
    Except.error "캡틴 수는 반드시 8명이어야 합니다."
  else if (leaders.filter (fun m => m.gender == "M")).length ≠ 4 ∨
      (leaders.filter (fun m => m.gender == "F")).length ≠ 4 then
    Except.error "캡틴 성별은 남 4, 여 4 이어야 합니다."
  else
    let tres := compute_balanced_targets leaders obL.length ybL.length
      girlsL.length r
    let obT := tres.1.1
    let ybT := tres.1.2.1
    let girlsT := tres.1.2.2
    let ores := tres.2.shuffle obL
    let yres := ores.2.shuffle ybL
    let gres := yres.2.shuffle girlsL
    match dealGroup (mkTeams leaders) obT ores.1 with
    | Except.error e => Except.error e
    | Except.ok (teams1, obRest) =>
      match dealGroup teams1 ybT yres.1 with
      | Except.error e => Except.error e
      | Except.ok (teams2, ybRest) =>
        match dealGroup teams2 girlsT gres.1 with
        | Except.error e => Except.error e
        | Except.ok (teams3, girlsRest) =>
          let sres := shuffleTeams teams3 gres.2
          let teams5 := enforce_exclusion_pairs sres.1 [("노시현", "배연경")]
          let teams6 := enforce_exclusion_pairs teams5 [("노시현", "이진원")]
          let teams7 := if incl then enforce_inclusion_pair teams6 "이진원"
            "배연경" else teams6
          let rb := rebalance teams7 obT ybT girlsT incl sres.2 leaders.length
          Except.ok (rb.1, obRest, ybRest, girlsRest)

/-- `assign_members_to_teams` with an explicit integer seed: the conditional
inclusion rule fires exactly when `seed % 3 == 0` (Python `%`, i.e. `emod`). -/
def assign_members_to_teams (leaders obL ybL girlsL : List Member) (seed : Int)
    (tape : Nat → Nat) :
    Except String (List Team × List Member × List Member × List Member) :=
  assignCore leaders obL ybL girlsL (seed % 3 == 0) tape

/-- The pipeline with the conditional-inclusion steps removed (the claim's
"no inclusion enforcement is performed" reading, for comparison with
`assign_members_to_teams` at seeds not divisible by 3). -/
def assignNoInclusion (leaders obL ybL girlsL : List Member)
    (tape : Nat → Nat) :
    Except String (List Team × List Member × List Member × List Member) :=
  assignCore leaders obL ybL girlsL false tape

/-- Whether some team of the list contains both named people. -/
def sameTeamB (teams : List Team) (a b : String) : Bool :=
  teams.any (fun t => team_has_name t a && team_has_name t b)

/-- A sleeping room (`Room` dataclass of src/streamlit_app.py). -/
structure Room where
  index : Nat
  members : List Member
deriving DecidableEq, Repr

/-- Truthiness of Python `name.strip()`: the name has at least one
non-whitespace character. -/
def nonBlank (s : String) : Bool :=
  s.data.any (fun c => !c.isWhitespace)

/-- One dict-building loop of `dedup_by_name` (src/streamlit_app.py lines
867–875): a Python dict keeps insertion order and `setdefault` keeps the first
member seen under each non-blank name; the second loop's explicit
`name not in name_to_member` test has the same effect, so both loops are this
fold. -/
def dedupGo (acc : List Member) (l : List Member) : List Member :=
  l.foldl (fun acc m =>
    if nonBlank m.name ∧ ∀ x ∈ acc, x.name ≠ m.name then acc ++ [m] else acc)
    acc

/-- `dedup_by_name(preferred, others)`: first occurrence per name wins,
preferred list first, blank (whitespace-only) names dropped. -/
def dedup_by_name (preferred others : List Member) : List Member :=
  dedupGo (dedupGo [] preferred) others

/-- `build_room_sizes(total, preferred_size)` (src/streamlit_app.py lines
883–907), translated literally: the `r == 4` and `r == 5` remainders (possible
when `preferred_size` is 5 or 6) fall through every branch and leave
`sizes = []`. -/
def build_room_sizes (total preferred_size : Nat) : List Nat :=
  if total = 0 then []
  else if total < 3 then [total]
  else
    let k := total / preferred_size
    let r := total % preferred_size
    if r = 0 then List.replicate k preferred_size
    else if r = 3 then List.replicate k preferred_size ++ [3]
    else if r = 2 then
      if 1 ≤ k then List.replicate (k - 1) preferred_size ++ [3, 3] else [2]
    else if r = 1 then
      if 2 ≤ k then List.replicate (k - 2) preferred_size ++ [3, 3, 3]
      else if k = 1 then [3, 2] else [1]
    else []

/-- The `for sz in sizes` loop of `compose_rooms`: appends
`Room(len(rooms), members[cursor:cursor+sz])` and advances the cursor. -/
def composeGo (members : List Member) (sizes : List Nat) (rooms : List Room)
    (cursor : Nat) : List Room :=
  match sizes with
  | [] => rooms
  | sz :: rest =>
      composeGo members rest
        (rooms ++ [⟨rooms.length, (members.drop cursor).take sz⟩]) (cursor + sz)

/-- `compose_rooms(members, preferred_size)` (src/streamlit_app.py 909–916). -/
def compose_rooms (members : List Member) (preferred_size : Nat) : List Room :=
  composeGo members (build_room_sizes members.length preferred_size) [] 0

/-- `assign_rooms` (src/streamlit_app.py 851–918): split captains by gender,
deduplicate each gender pool by name (captains first), shuffle both pools
(male first, consuming the generator in order), compose rooms per gender. -/
def assign_rooms (leaders obL ybL girlsL : List Member) (room_size : Nat)
    (r : Rng) : List Room × List Room :=
  let male_leaders := leaders.filter (fun m => m.gender == "M")
  let female_leaders := leaders.filter (fun m => m.gender == "F")
  let male_pool := dedup_by_name male_leaders (obL ++ ybL)
  let female_pool := dedup_by_name female_leaders girlsL
  let s1 := r.shuffle male_pool
  let s2 := s1.2.shuffle female_pool
  (compose_rooms s1.1 room_size, compose_rooms s2.1 room_size)

end SL

/-- Eight captains where the inclusion pair 이진원 / 배연경 are themselves two
of the captains (4 male / 4 female), with empty member pools. -/
def inclLeaders : List Member :=
  [⟨"이진원", "leader", "M"⟩, ⟨"C2", "leader", "M"⟩, ⟨"C3", "leader", "M"⟩,
   ⟨"C4", "leader", "M"⟩, ⟨"배연경", "leader", "F"⟩, ⟨"C6", "leader", "F"⟩,
   ⟨"C7", "leader", "F"⟩, ⟨"C8", "leader", "F"⟩]

/-- Nine distinct male pool members, used to exercise room packing at a
preferred room size other than 4. -/
def roomPool9 : List Member :=
  [⟨"M1", "ob", "M"⟩, ⟨"M2", "ob", "M"⟩, ⟨"M3", "ob", "M"⟩,
   ⟨"M4", "ob", "M"⟩, ⟨"M5", "ob", "M"⟩, ⟨"M6", "ob", "M"⟩,
   ⟨"M7", "ob", "M"⟩, ⟨"M8", "ob", "M"⟩, ⟨"M9", "ob", "M"⟩]

/-- Eight captains with the two constrained names 배연경 (team 0) and 이진원
(team 1) as captains, 4 male / 4 female. -/
def exclLeaders : List Member :=
  [⟨"배연경", "leader", "F"⟩, ⟨"이진원", "leader", "M"⟩, ⟨"A", "leader", "M"⟩,
   ⟨"B", "leader", "M"⟩, ⟨"C", "leader", "M"⟩, ⟨"D", "leader", "F"⟩,
   ⟨"E", "leader", "F"⟩, ⟨"G", "leader", "F"⟩]

/-- The member names of a team. -/
def teamNames (t : Team) : List String := t.members.map (fun m => m.name)

/-- How many times a name occurs in one team (leader slot plus members). -/
def teamCount (t : Team) (nm : String) : Nat :=
  (if t.leader.name = nm then 1 else 0) + (teamNames t).count nm

/-- How many times a name occurs across a team list. -/
def nameCount (teams : List Team) (nm : String) : Nat :=
  (teams.map (fun t => teamCount t nm)).sum

/-- Two small teams exercising the exclusion repair: `x` and `y` share team 0
and team 1 offers a same-group swap partner. -/
def exTeams : List Team :=
  [⟨0, ⟨"L0", "leader", "M"⟩, [⟨"x", "yb", "M"⟩, ⟨"y", "yb", "M"⟩]⟩,
   ⟨1, ⟨"L1", "leader", "M"⟩, [⟨"z", "yb", "M"⟩]⟩]

/-- Per-team group counts (the pipeline's `current_*_counts` helpers). -/
def obCount (t : Team) : Nat :=
  (t.members.filter (fun m => m.group == "ob")).length

def ybCount (t : Team) : Nat :=
  (t.members.filter (fun m => m.group == "yb")).length

def girlsCount (t : Team) : Nat :=
  (t.members.filter (fun m => m.group == "girls")).length

/-- A member with one of the three pool group tags and none of the three
constrained names. -/
def cleanMember (m : Member) : Prop :=
  (m.group = "ob" ∨ m.group = "yb" ∨ m.group = "girls") ∧
    m.name ∉ SL.excludeNames

/-- A team whose captain and members carry none of the constrained names and
whose members all have pool group tags. -/
def cleanTeam (t : Team) : Prop :=
  t.leader.name ∉ SL.excludeNames ∧ ∀ m ∈ t.members, cleanMember m

/-- All members of a team list, in team order. -/
def joinM (teams : List Team) : List Member :=
  (teams.map (fun t => t.members)).join

/-- Total demand of the re-deal over `len` teams starting at index `i`. -/
def sumNeeds (d : List Int) (i len : Nat) : Nat :=
  ((List.range len).map (fun k => (d.getD (i + k) 0).toNat)).sum

theorem count_set_aux [DecidableEq α] :
    ∀ (xs : List α) (i : Nat) (u b a : α), xs.get? i = some u →
      (xs.set i b).count a + (if u = a then 1 else 0)
        = xs.count a + (if b = a then 1 else 0) := by
  intro xs
  induction xs with
  | nil => intro i u b a h; simp at h
  | cons x t ih =>
    intro i u b a h
    cases i with
    | zero =>
      simp only [List.get?] at h
      have hu : x = u := by injection h
      subst hu
      simp only [List.set, List.count_cons]
      by_cases h1 : x = a <;> by_cases h2 : b = a <;>
        simp [h1, h2, beq_iff_eq] <;> omega
    | succ i =>
      simp only [List.get?] at h
      have := ih i u b a h
      simp only [List.set, List.count_cons]
      by_cases h1 : x = a <;> simp [h1, beq_iff_eq] <;> omega

theorem swapL_perm [DecidableEq α] (xs : List α) (i j : Nat) :
    (swapL xs i j).Perm xs := by
  unfold swapL
  cases hi : xs.get? i with
  | none => exact List.Perm.refl xs
  | some a =>
    cases hj : xs.get? j with
    | none => exact List.Perm.refl xs
    | some b =>
      simp only []
      rw [List.perm_iff_count]
      intro c
      have hvb : (xs.set i b).get? j = some b := by
        by_cases hij : i = j
        · subst hij
          rw [List.get?_set_eq, hi]
          rfl
        · rw [List.get?_set_ne _ _ hij]
          exact hj
      have E1 := count_set_aux (xs.set i b) j b a c hvb
      have E2 := count_set_aux xs i a b c hi
      omega

theorem shuffleGo_perm [DecidableEq α] (i : Nat) : ∀ (r : Rng) (xs : List α),
    ((Rng.shuffleGo r xs i).1).Perm xs := by
  induction i with
  | zero => intro r xs; exact List.Perm.refl xs
  | succ i ih =>
    intro r xs
    unfold Rng.shuffleGo
    exact (ih _ _).trans (swapL_perm xs (i + 1) _)

theorem shuffle_perm [DecidableEq α] (r : Rng) (xs : List α) :
    ((r.shuffle xs).1).Perm xs :=
  shuffleGo_perm _ r xs

theorem shuffle_length [DecidableEq α] (r : Rng) (xs : List α) :
    ((r.shuffle xs).1).length = xs.length :=
  (shuffle_perm r xs).length_eq

theorem shuffle_mem [DecidableEq α] (r : Rng) (xs : List α) (a : α) :
    a ∈ (r.shuffle xs).1 ↔ a ∈ xs :=
  (shuffle_perm r xs).mem_iff

theorem shuffle_nodup [DecidableEq α] (r : Rng) (xs : List α) (h : xs.Nodup) :
    ((r.shuffle xs).1).Nodup :=
  ((shuffle_perm r xs).nodup_iff).mpr h

theorem shuffle_count [DecidableEq α] (r : Rng) (xs : List α) (a : α) :
    ((r.shuffle xs).1).count a = xs.count a :=
  (shuffle_perm r xs).count_eq a

theorem sample_nodup (r : Rng) (n k : Nat) : ((r.sample n k).1).Nodup :=
  ((shuffle_nodup r (List.range n) (List.nodup_range n)).sublist
    (List.take_sublist k _))

theorem sample_mem_lt (r : Rng) (n k : Nat) :
    ∀ i ∈ (r.sample n k).1, i < n := by
  intro i hi
  have : i ∈ (r.shuffle (List.range n)).1 :=
    List.mem_of_mem_take hi
  rw [shuffle_mem] at this
  exact List.mem_range.mp this

theorem sample_length (r : Rng) (n k : Nat) (h : k ≤ n) :
    ((r.sample n k).1).length = k := by
  unfold Rng.sample
  simp only [List.length_take, shuffle_length, List.length_range]
  omega

/-! ### Sum bookkeeping for per-team counter lists -/

theorem sum_set_gen : ∀ (g : List Nat) (i : Nat), i < g.length → ∀ (v : Nat),
    (g.set i v).sum + g.getD i 0 = g.sum + v := by
  intro g
  induction g with
  | nil => intro i h; simp at h
  | cons x t ih =>
    intro i h v
    cases i with
    | zero => simp [List.set, List.sum_cons]; omega
    | succ i =>
      have := ih i (by simpa using h) v
      simp only [List.set, List.sum_cons, List.getD_cons_succ]
      omega

theorem sum_set_add (g : List Nat) (i : Nat) (h : i < g.length) :
    (g.set i (g.getD i 0 + 1)).sum = g.sum + 1 := by
  have := sum_set_gen g i h (g.getD i 0 + 1)
  omega

theorem sum_set_sub (g : List Nat) (i : Nat) (h : i < g.length) :
    (g.set i (g.getD i 0 - 1)).sum + min 1 (g.getD i 0) = g.sum := by
  have := sum_set_gen g i h (g.getD i 0 - 1)
  omega

theorem spareL_pos : ∀ (c g : List Nat), 0 < spareL c g →
    ∃ i, i < g.length ∧ g.getD i 0 < c.getD i 0 := by
  intro c
  induction c with
  | nil => intro g h; simp [spareL] at h
  | cons c0 cs ih =>
    intro g h
    cases g with
    | nil => simp [spareL] at h
    | cons g0 gs =>
      simp only [spareL] at h
      by_cases h0 : g0 < c0
      · exact ⟨0, by simp, by simpa using h0⟩
      · have : 0 < spareL cs gs := by omega
        obtain ⟨i, hi, hlt⟩ := ih gs this
        exact ⟨i + 1, by simpa using hi, by simpa using hlt⟩

theorem spareL_set_add : ∀ (c g : List Nat) (i : Nat), i < g.length →
    g.getD i 0 < c.getD i 0 →
    spareL c (g.set i (g.getD i 0 + 1)) + 1 = spareL c g := by
  intro c
  induction c with
  | nil => intro g i hi hlt; simp at hlt
  | cons c0 cs ih =>
    intro g i hi hlt
    cases g with
    | nil => simp at hi
    | cons g0 gs =>
      cases i with
      | zero =>
        simp only [List.getD_cons_zero] at hlt
        simp only [List.getD_cons_zero, List.set, spareL]
        omega
      | succ i =>
        simp only [List.getD_cons_succ] at hlt
        have := ih gs i (by simpa using hi) hlt
        simp only [List.getD_cons_succ, List.set, spareL]
        omega

theorem spareL_eq_sub : ∀ (c g : List Nat), c.length = g.length →
    (∀ i, i < g.length → g.getD i 0 ≤ c.getD i 0) →
    spareL c g + g.sum = c.sum := by
  intro c
  induction c with
  | nil => intro g h hle; cases g <;> simp_all [spareL]
  | cons c0 cs ih =>
    intro g h hle
    cases g with
    | nil => simp at h
    | cons g0 gs =>
      have h0 := hle 0 (by simp)
      simp only [List.getD_cons_zero] at h0
      have := ih gs (by simpa using h) (fun i hi => by
        have := hle (i + 1) (by simpa using hi)
        simpa using this)
      simp only [spareL, List.sum_cons]
      omega

theorem exists_shift (L ptr pos : Nat) (hL : 0 < L) (hpos : pos < L) :
    ∃ d, d < L ∧ (ptr + d) % L = pos := by
  by_cases h : ptr % L ≤ pos
  · refine ⟨pos - ptr % L, by omega, ?_⟩
    have hd : pos - ptr % L < L := by omega
    rw [Nat.add_mod, Nat.mod_eq_of_lt hd]
    have : ptr % L + (pos - ptr % L) = pos := by omega
    rw [this, Nat.mod_eq_of_lt hpos]
  · have hm : ptr % L < L := Nat.mod_lt _ hL
    refine ⟨L + pos - ptr % L, by omega, ?_⟩
    have hd : L + pos - ptr % L < L := by omega
    rw [Nat.add_mod, Nat.mod_eq_of_lt hd]
    have : ptr % L + (L + pos - ptr % L) = L + pos := by omega
    rw [this, Nat.add_mod_left, Nat.mod_eq_of_lt hpos]

theorem rrGo_steps (order : List Nat) (elig : σ → Nat → Bool) (upd : σ → Nat → σ)
    (I : σ → Prop) (M : σ → Nat)
    (hI : ∀ s i, i ∈ order → elig s i = true → I s → I (upd s i))
    (hM : ∀ s i, i ∈ order → elig s i = true → I s → M (upd s i) + 1 = M s)
    (hfind : ∀ s, I s → 0 < M s → ∃ i ∈ order, elig s i = true) :
    ∀ (k : Nat) (ptr : Nat) (s : σ), I s → k ≤ M s →
      StepsK order elig upd k s (rrGo order elig upd k ptr s) := by
  intro k
  induction k with
  | zero => intro ptr s _ _; exact StepsK.refl s
  | succ k ih =>
    intro ptr s hIs hk
    obtain ⟨i, hi, he⟩ := hfind s hIs (by omega)
    have hL : 0 < order.length := List.length_pos.mpr (by
      intro hnil; rw [hnil] at hi; simp at hi)
    obtain ⟨pos, hpos, hget⟩ := List.mem_iff_getElem.mp hi
    obtain ⟨d, hd, hmod⟩ := exists_shift order.length ptr pos hL hpos
    have hpred : (fun d => elig s (order.getD ((ptr + d) % order.length) 0)) d
        = true := by
      simp only [hmod]
      rw [List.getD_eq_getElem _ _ hpos, hget]
      exact he
    have hsome : ((List.range order.length).find?
        (fun d => elig s (order.getD ((ptr + d) % order.length) 0))).isSome := by
      rw [List.find?_isSome]
      exact ⟨d, List.mem_range.mpr hd, hpred⟩
    unfold rrGo
    cases hfd : (List.range order.length).find?
        (fun d => elig s (order.getD ((ptr + d) % order.length) 0)) with
    | none => rw [hfd] at hsome; simp at hsome
    | some d0 =>
      simp only [hfd]
      have he0 : elig s (order.getD ((ptr + d0) % order.length) 0) = true := by
        have := List.find?_some hfd
        simpa using this
      have hmem0 : order.getD ((ptr + d0) % order.length) 0 ∈ order := by
        have : (ptr + d0) % order.length < order.length := Nat.mod_lt _ hL
        rw [List.getD_eq_getElem _ _ this]
        exact List.getElem_mem this
      have hstep := hM s _ hmem0 he0 hIs
      exact StepsK.step hmem0 he0
        (ih (ptr + d0 + 1) _ (hI s _ hmem0 he0 hIs) (by omega))

theorem StepsK.preserves {order : List Nat} {elig : σ → Nat → Bool}
    {upd : σ → Nat → σ} {P : σ → Prop}
    (hP : ∀ s i, i ∈ order → elig s i = true → P s → P (upd s i)) :
    ∀ {k : Nat} {s t : σ}, StepsK order elig upd k s t → P s → P t := by
  intro k s t h
  induction h with
  | refl s => exact id
  | step hmem he _ ih => intro hs; exact ih (hP _ _ hmem he hs)

/-! ### Small list facts used throughout -/

theorem getD_zero_of_le (l : List Nat) (i : Nat) (h : l.length ≤ i) :
    l.getD i 0 = 0 :=
  List.getD_eq_default _ _ h

theorem getD_map_range (f : Nat → Nat) (n i : Nat) (h : i < n) :
    ((List.range n).map f).getD i 0 = f i := by
  rw [List.getD_eq_getElem _ _ (by simpa using h)]
  simp

theorem cover_append (A : List Nat) (n : Nat) :
    ∀ i, i < n → i ∈ A ++ (List.range n).filter (fun i => decide (i ∉ A)) := by
  intro i hi
  by_cases h : i ∈ A
  · exact List.mem_append_left _ h
  · refine List.mem_append_right _ ?_
    rw [List.mem_filter]
    exact ⟨List.mem_range.mpr hi, by simpa using h⟩

theorem sum_pos_ex : ∀ (l : List Nat), 0 < l.sum →
    ∃ i, i < l.length ∧ 0 < l.getD i 0 := by
  intro l
  induction l with
  | nil => intro h; simp at h
  | cons x t ih =>
    intro h
    by_cases hx : 0 < x
    · exact ⟨0, by simp, by simpa using hx⟩
    · have : 0 < t.sum := by simp [List.sum_cons] at h; omega
      obtain ⟨i, hi, hp⟩ := ih this
      exact ⟨i + 1, by simpa using hi, by simpa using hp⟩

theorem sum_map_add_split (l : List Nat) (f g : Nat → Nat) :
    (l.map (fun i => f i + g i)).sum = (l.map f).sum + (l.map g).sum := by
  induction l with
  | nil => simp
  | cons x t ih => simp [ih]; omega

theorem sum_map_ite_mem (l : List Nat) (e : List Nat) :
    (l.map (fun i => if i ∈ e then 1 else 0)).sum
      = (l.filter (fun i => decide (i ∈ e))).length := by
  induction l with
  | nil => simp
  | cons x t ih =>
    by_cases hx : x ∈ e <;> simp [hx, List.filter_cons, ih] <;> omega

theorem length_filter_mem (n : Nat) (e : List Nat) (hn : e.Nodup)
    (hlt : ∀ x ∈ e, x < n) :
    ((List.range n).filter (fun i => decide (i ∈ e))).length = e.length := by
  have hperm : ((List.range n).filter (fun i => decide (i ∈ e))).Perm e := by
    rw [List.perm_ext_iff_of_nodup ((List.nodup_range n).filter _) hn]
    intro a
    simp only [List.mem_filter, List.mem_range, decide_eq_true_eq]
    constructor
    · exact fun h => h.2
    · exact fun h => ⟨hlt a h, h⟩
  exact hperm.length_eq

theorem spareL_eq_zipWith : ∀ (c g : List Nat),
    spareL c g = (List.zipWith (fun a b => a - b) c g).sum := by
  intro c
  induction c with
  | nil => intro g; cases g <;> simp [spareL]
  | cons c0 cs ih =>
    intro g
    cases g with
    | nil => simp [spareL]
    | cons g0 gs => simp [spareL, ih]

theorem zipWith_min_getD : ∀ (a b : List Nat) (i : Nat), i < a.length →
    i < b.length →
    (List.zipWith min a b).getD i 0 = min (a.getD i 0) (b.getD i 0) := by
  intro a
  induction a with
  | nil => intro b i h; simp at h
  | cons x t ih =>
    intro b i h1 h2
    cases b with
    | nil => simp at h2
    | cons y u =>
      cases i with
      | zero => simp
      | succ i =>
        simp only [List.zipWith, List.getD_cons_succ]
        exact ih u i (by simpa using h1) (by simpa using h2)

theorem zipWith_min_length (a b : List Nat) :
    (List.zipWith min a b).length = min a.length b.length := by
  simp [List.length_zipWith]

/-! ### Consequences of the round-robin loops -/

theorem fill_facts (cap order : List Nat) :
    ∀ {k : Nat} {g out : List Nat},
    StepsK order (fun g i => decide (g.getD i 0 < cap.getD i 0))
      (fun g i => g.set i (g.getD i 0 + 1)) k g out →
    g.length = cap.length → (∀ i, i < g.length → g.getD i 0 ≤ cap.getD i 0) →
    out.sum = g.sum + k ∧ out.length = cap.length ∧
      (∀ i, i < out.length → out.getD i 0 ≤ cap.getD i 0) := by
  intro k g out h
  induction h with
  | refl s => intro h1 h2; exact ⟨by simp, h1, by rw [h1] at h2 ⊢; exact h2⟩
  | @step k s t i hmem he hrest ih =>
    intro h1 h2
    have hlt : s.getD i 0 < cap.getD i 0 := by simpa using he
    have hib : i < s.length := by
      by_contra hc
      rw [getD_zero_of_le s i (by omega),
        getD_zero_of_le cap i (by omega; )] at hlt
      · omega
    have hlen2 : (s.set i (s.getD i 0 + 1)).length = cap.length := by
      simpa using h1
    have hle2 : ∀ j, j < (s.set i (s.getD i 0 + 1)).length →
        (s.set i (s.getD i 0 + 1)).getD j 0 ≤ cap.getD j 0 := by
      intro j hj
      by_cases hij : i = j
      · subst hij
        rw [List.getD_eq_getElem _ _ (by simpa using hib)]
        rw [List.getElem_set_self (by simpa using hib)]
        omega
      · rw [List.getD_eq_getElem _ _ (by simpa using hj)]
        rw [List.getElem_set_ne hij]
        have : s.getD j 0 = s[j] := by
          rw [List.getD_eq_getElem _ _ (by simp at hj ⊢; omega)]
        rw [← this]
        exact h2 j (by simp at hj ⊢; omega)
    obtain ⟨hsum, hlen3, hle3⟩ := ih hlen2 hle2
    refine ⟨?_, hlen3, hle3⟩
    rw [hsum, sum_set_add s i hib]
    omega

theorem reduce_facts (cap order : List Nat) :
    ∀ {k : Nat} {g out : List Nat},
    StepsK order (fun g i => decide (0 < g.getD i 0))
      (fun g i => g.set i (g.getD i 0 - 1)) k g out →
    (∀ i, i < g.length → g.getD i 0 ≤ cap.getD i 0) →
    out.sum + k = g.sum ∧ out.length = g.length ∧
      (∀ i, i < out.length → out.getD i 0 ≤ cap.getD i 0) := by
  intro k g out h
  induction h with
  | refl s => intro hle; exact ⟨by simp, rfl, hle⟩
  | @step k s t i hmem he hrest ih =>
    intro hle
    have hpos : 0 < s.getD i 0 := by simpa using he
    have hib : i < s.length := by
      by_contra hc
      rw [getD_zero_of_le s i (by omega)] at hpos
      omega
    have hle2 : ∀ j, j < (s.set i (s.getD i 0 - 1)).length →
        (s.set i (s.getD i 0 - 1)).getD j 0 ≤ cap.getD j 0 := by
      intro j hj
      rw [List.length_set] at hj
      by_cases hij : i = j
      · subst hij
        rw [List.getD_eq_getElem _ _ (by simpa using hib),
          List.getElem_set_self (by simpa using hib)]
        have := hle i hib
        omega
      · rw [List.getD_eq_getElem _ _ (by simpa using hj),
          List.getElem_set_ne hij]
        have : s.getD j 0 = s[j] := List.getD_eq_getElem _ _ (by simpa using hj)
        rw [← this]
        exact hle j hj
    obtain ⟨hsum, hlen, hle3⟩ := ih hle2
    have := sum_set_sub s i hib
    refine ⟨by omega, by rw [hlen]; simp, hle3⟩

theorem leftover_facts (order : List Nat) :
    ∀ {k : Nat} {s out : List Nat × List Nat},
    StepsK order (fun (s : List Nat × List Nat) i => decide (0 < s.2.getD i 0))
      (fun s i =>
        (s.1.set i (s.1.getD i 0 + 1), s.2.set i (s.2.getD i 0 - 1))) k s out →
    s.1.length = s.2.length →
    out.1.sum = s.1.sum + k ∧ out.2.sum + k = s.2.sum ∧
      out.1.length = s.1.length ∧ out.2.length = s.2.length := by
  intro k s out h
  induction h with
  | refl s => intro _; exact ⟨by simp, by simp, rfl, rfl⟩
  | @step k s t i hmem he hrest ih =>
    intro hlen
    have hpos : 0 < s.2.getD i 0 := by simpa using he
    have hib2 : i < s.2.length := by
      by_contra hc
      rw [getD_zero_of_le s.2 i (by omega)] at hpos
      omega
    have hib1 : i < s.1.length := by omega
    obtain ⟨ha, hb, hc, hd⟩ := ih (by simpa using hlen)
    have e1 := sum_set_add s.1 i hib1
    have e2 := sum_set_sub s.2 i hib2
    simp only at ha hb hc hd
    refine ⟨by rw [ha, e1]; omega, by omega, by rw [hc]; simp, by rw [hd]; simp⟩

namespace SL

theorem sum_map_min_le (cap : List Nat) (b : Nat) :
    (cap.map (fun c => min b c)).sum ≤ cap.length * b := by
  induction cap with
  | nil => simp
  | cons c t ih =>
    simp only [List.map, List.sum_cons, List.length_cons]
    have : min b c ≤ b := Nat.min_le_left b c
    calc min b c + (t.map (fun c => min b c)).sum ≤ b + t.length * b := by omega
    _ = (t.length + 1) * b := by ring

theorem sum_map_min_split (cap : List Nat) (b : Nat) :
    (cap.map (fun c => min b c)).sum + (cap.map (fun c => c - min b c)).sum
      = cap.sum := by
  induction cap with
  | nil => simp
  | cons c t ih =>
    simp only [List.map, List.sum_cons]
    have : min b c ≤ c := Nat.min_le_right b c
    omega

/-- Conservation of `allocate_group_even`: when the remaining capacity can hold
the whole pool, the group receives exactly `count`, capacity drops by exactly
`count`, and the per-team lists keep their length. -/
theorem allocate_spec (count : Nat) (preferred cap : List Nat) (r : Rng)
    (hsum : count ≤ cap.sum) :
    ((allocate_group_even count preferred cap r).1).sum = count ∧
    ((allocate_group_even count preferred cap r).1).length = cap.length ∧
    ((allocate_group_even count preferred cap r).2.1).length = cap.length ∧
    ((allocate_group_even count preferred cap r).2.1).sum + count = cap.sum := by
  unfold allocate_group_even
  by_cases h0 : count = 0 ∨ cap.length = 0
  · rcases h0 with h0 | h0
    · subst h0; simp
    · have : cap = [] := List.length_eq_zero.mp h0
      subst this
      simp at hsum
      simp [hsum]
  · push_neg at h0
    obtain ⟨hc0, hn0⟩ := h0
    rw [if_neg (by push_neg; exact ⟨hc0, hn0⟩ : ¬(count = 0 ∨ cap.length = 0))]
    have hbase : cap.length * (count / cap.length) ≤ count := by
      rw [Nat.mul_comm]
      exact Nat.div_mul_le_self count cap.length
    have ht0le : (cap.map (fun c => min (count / cap.length) c)).sum ≤ count :=
      le_trans (sum_map_min_le cap _) hbase
    have hsplit := sum_map_min_split cap (count / cap.length)
    by_cases hleft :
        count - (cap.map (fun c => min (count / cap.length) c)).sum = 0
    · rw [if_pos hleft]
      refine ⟨by simp only []; omega, by simp, by simp, by simp only []; omega⟩
    · rw [if_neg hleft]
      have hlen0 : (cap.map (fun c => min (count / cap.length) c)).length
          = cap.length := by simp
      have hlen1 : (cap.map (fun c => c - min (count / cap.length) c)).length
          = cap.length := by simp
      generalize ht0 : cap.map (fun c => min (count / cap.length) c) = t0
        at hleft ht0le hsplit hlen0 ⊢
      generalize hcap1 : cap.map (fun c => c - min (count / cap.length) c) = cap1
        at hsplit hlen1 ⊢
      set left := count - t0.sum with hleftdef
      set order := preferred ++
        (List.range cap.length).filter (fun i => decide (i ∉ preferred))
        with horder
      have hsteps := rrGo_steps order
        (fun (s : List Nat × List Nat) i => decide (0 < s.2.getD i 0))
        (fun s i =>
          (s.1.set i (s.1.getD i 0 + 1), s.2.set i (s.2.getD i 0 - 1)))
        (fun s => s.1.length = cap.length ∧ s.2.length = cap.length)
        (fun s => s.2.sum)
        (by
          intro s i hmem he hI
          have hpos : 0 < s.2.getD i 0 := by simpa using he
          have hib : i < s.2.length := by
            by_contra hcn
            rw [getD_zero_of_le s.2 i (by omega)] at hpos
            omega
          constructor <;> simp [hI.1, hI.2])
        (by
          intro s i hmem he hI
          have hpos : 0 < s.2.getD i 0 := by simpa using he
          have hib : i < s.2.length := by
            by_contra hcn
            rw [getD_zero_of_le s.2 i (by omega)] at hpos
            omega
          have := sum_set_sub s.2 i hib
          simp only []
          omega)
        (by
          intro s hI hM
          obtain ⟨i, hi, hp⟩ := sum_pos_ex s.2 hM
          refine ⟨i, ?_, by simpa using hp⟩
          rw [horder]
          exact cover_append preferred cap.length i (hI.2 ▸ hi))
        left ((r.next order.length).1) (t0, cap1)
        ⟨hlen0, hlen1⟩
        (by simp only []; omega)
      obtain ⟨ha, hb, hc, hd⟩ :=
        leftover_facts order hsteps (by rw [hlen0, hlen1])
      simp only [] at ha hb hc hd
      refine ⟨by rw [ha]; omega, by rw [hc, hlen0], by rw [hd, hlen1], ?_⟩
      show (rrGo order
        (fun (s : List Nat × List Nat) i => decide (0 < s.2.getD i 0))
        (fun s i =>
          (s.1.set i (s.1.getD i 0 + 1), s.2.set i (s.2.getD i 0 - 1)))
        left ((r.next order.length).1) (t0, cap1)).2.sum + count = cap.sum
      omega

/-- The shortfall/surplus correction of the `girls` targets (`while` loops at
lines 156–177 of `src/streamlit_app.py`) lands exactly on `girls_count` and
respects the capacities. -/
theorem girls_adjust_spec (girlsC : Nat) (cap0 girls1 : List Nat)
    (fillOrder reduceOrder : List Nat) (n : Nat)
    (hcl : cap0.length = n) (hgl : girls1.length = n)
    (hle : ∀ i, i < girls1.length → girls1.getD i 0 ≤ cap0.getD i 0)
    (hcovF : ∀ i, i < n → i ∈ fillOrder)
    (hcovR : ∀ i, i < n → i ∈ reduceOrder)
    (hcap : girlsC ≤ cap0.sum) :
    ((if girls1.sum < girlsC then
        rrGo fillOrder (fun g i => decide (g.getD i 0 < cap0.getD i 0))
          (fun g i => g.set i (g.getD i 0 + 1)) (girlsC - girls1.sum) 0 girls1
      else if girlsC < girls1.sum then
        rrGo reduceOrder (fun g i => decide (0 < g.getD i 0))
          (fun g i => g.set i (g.getD i 0 - 1)) (girls1.sum - girlsC) 0 girls1
      else girls1)).sum = girlsC ∧
    ((if girls1.sum < girlsC then
        rrGo fillOrder (fun g i => decide (g.getD i 0 < cap0.getD i 0))
          (fun g i => g.set i (g.getD i 0 + 1)) (girlsC - girls1.sum) 0 girls1
      else if girlsC < girls1.sum then
        rrGo reduceOrder (fun g i => decide (0 < g.getD i 0))
          (fun g i => g.set i (g.getD i 0 - 1)) (girls1.sum - girlsC) 0 girls1
      else girls1)).length = n ∧
    (∀ i, i < n →
      ((if girls1.sum < girlsC then
        rrGo fillOrder (fun g i => decide (g.getD i 0 < cap0.getD i 0))
          (fun g i => g.set i (g.getD i 0 + 1)) (girlsC - girls1.sum) 0 girls1
      else if girlsC < girls1.sum then
        rrGo reduceOrder (fun g i => decide (0 < g.getD i 0))
          (fun g i => g.set i (g.getD i 0 - 1)) (girls1.sum - girlsC) 0 girls1
      else girls1)).getD i 0 ≤ cap0.getD i 0) := by
  have hspare : spareL cap0 girls1 + girls1.sum = cap0.sum :=
    spareL_eq_sub cap0 girls1 (by omega) hle
  by_cases h1 : girls1.sum < girlsC
  · rw [if_pos h1]
    have hsteps := rrGo_steps fillOrder
      (fun g i => decide (g.getD i 0 < cap0.getD i 0))
      (fun g i => g.set i (g.getD i 0 + 1))
      (fun g => g.length = cap0.length ∧
        ∀ i, i < g.length → g.getD i 0 ≤ cap0.getD i 0)
      (fun g => spareL cap0 g)
      (by
        intro s i hmem he hI
        have hlt : s.getD i 0 < cap0.getD i 0 := by simpa using he
        have hib : i < s.length := by
          by_contra hc
          rw [getD_zero_of_le s i (by omega),
            getD_zero_of_le cap0 i (by rw [← hI.1]; omega)] at hlt
          omega
        refine ⟨by simpa using hI.1, ?_⟩
        intro j hj
        rw [List.length_set] at hj
        by_cases hij : i = j
        · subst hij
          rw [List.getD_eq_getElem _ _ (by simpa using hib),
            List.getElem_set_self (by simpa using hib)]
          omega
        · rw [List.getD_eq_getElem _ _ (by simpa using hj),
            List.getElem_set_ne hij]
          have : s.getD j 0 = s[j] := List.getD_eq_getElem _ _ (by simpa using hj)
          rw [← this]
          exact hI.2 j hj)
      (by
        intro s i hmem he hI
        have hlt : s.getD i 0 < cap0.getD i 0 := by simpa using he
        have hib : i < s.length := by
          by_contra hc
          rw [getD_zero_of_le s i (by omega),
            getD_zero_of_le cap0 i (by rw [← hI.1]; omega)] at hlt
          omega
        exact spareL_set_add cap0 s i hib hlt)
      (by
        intro s hI hM
        obtain ⟨i, hi, hlt⟩ := spareL_pos cap0 s hM
        exact ⟨i, hcovF i (by rw [hI.1, hcl] at hi; exact hi),
          by simpa using hlt⟩)
      (girlsC - girls1.sum) 0 girls1 ⟨by omega, hle⟩
      (by show girlsC - girls1.sum ≤ spareL cap0 girls1; omega)
    obtain ⟨hsum, hlen, hptw⟩ :=
      fill_facts cap0 fillOrder hsteps (by omega) hle
    refine ⟨by omega, by omega, ?_⟩
    intro i hi
    exact hptw i (by omega)
  · rw [if_neg h1]
    by_cases h2 : girlsC < girls1.sum
    · rw [if_pos h2]
      have hsteps := rrGo_steps reduceOrder
        (fun g i => decide (0 < g.getD i 0))
        (fun g i => g.set i (g.getD i 0 - 1))
        (fun g => g.length = girls1.length)
        (fun g => g.sum)
        (by intro s i hmem he hI; simpa using hI)
        (by
          intro s i hmem he hI
          have hpos : 0 < s.getD i 0 := by simpa using he
          have hib : i < s.length := by
            by_contra hc
            rw [getD_zero_of_le s i (by omega)] at hpos
            omega
          have := sum_set_sub s i hib
          simp only []
          omega)
        (by
          intro s hI hM
          obtain ⟨i, hi, hp⟩ := sum_pos_ex s hM
          exact ⟨i, hcovR i (by rw [hI, hgl] at hi; exact hi),
            by simpa using hp⟩)
        (girls1.sum - girlsC) 0 girls1 rfl
        (by show girls1.sum - girlsC ≤ girls1.sum; omega)
      obtain ⟨hsum, hlen, hptw⟩ := reduce_facts cap0 reduceOrder hsteps hle
      refine ⟨by omega, by omega, ?_⟩
      intro i hi
      exact hptw i (by omega)
    · rw [if_neg h2]
      refine ⟨by omega, hgl, ?_⟩
      intro i hi
      exact hle i (by omega)

theorem sum_map_base_ite (l : List Nat) (base : Nat) (e : List Nat) :
    (l.map (fun i => base + (if i ∈ e then 1 else 0))).sum
      = l.length * base + (l.filter (fun i => decide (i ∈ e))).length := by
  induction l with
  | nil => simp
  | cons x t ih =>
    by_cases hx : x ∈ e <;>
      simp [hx, List.filter_cons, ih, Nat.succ_mul] <;> omega

/-- Conservation for `compute_balanced_targets`: over any draw tape, the three
per-team target lists have one entry per team and sum exactly to the three
pool sizes. -/
theorem compute_balanced_targets_sums (leaders : List Member)
    (obC ybC girlsC : Nat) (r : Rng) (hn : 0 < leaders.length) :
    ((compute_balanced_targets leaders obC ybC girlsC r).1.1).sum = obC ∧
    ((compute_balanced_targets leaders obC ybC girlsC r).1.2.1).sum = ybC ∧
    ((compute_balanced_targets leaders obC ybC girlsC r).1.2.2).sum = girlsC ∧
    ((compute_balanced_targets leaders obC ybC girlsC r).1.1).length
      = leaders.length ∧
    ((compute_balanced_targets leaders obC ybC girlsC r).1.2.1).length
      = leaders.length ∧
    ((compute_balanced_targets leaders obC ybC girlsC r).1.2.2).length
      = leaders.length := by
  suffices h : ∀ res, res = compute_balanced_targets leaders obC ybC girlsC r →
      (res.1.1.sum = obC ∧ res.1.2.1.sum = ybC ∧ res.1.2.2.sum = girlsC ∧
       res.1.1.length = leaders.length ∧ res.1.2.1.length = leaders.length ∧
       res.1.2.2.length = leaders.length) by
    exact h _ rfl
  intro res hres
  unfold compute_balanced_targets at hres
  lift_lets at hres
  extract_lets n total base rem sres extraIdx r1 cap0 mres maleIdx r2 fres
    femaleIdx r3 ofres othersFromFemale r4 omres r5 orderMaleGroups totalF
    baseF remF mfres maleFirst r6 extraFemale girls0 girls1 curSum fillOrder
    reduceOrder girls2 cap1 yres ybT cap2 r7 ores at hres
  subst hres
  have hn2 : 0 < n := hn
  have hsres : sres = if 0 < rem then r.sample n rem else ([], r) := rfl
  have hext_nodup : extraIdx.Nodup := by
    by_cases hrem : 0 < rem
    · show sres.1.Nodup
      rw [hsres, if_pos hrem]
      exact sample_nodup r n rem
    · show sres.1.Nodup
      rw [hsres, if_neg hrem]
      exact List.nodup_nil
  have hext_lt : ∀ x ∈ extraIdx, x < n := by
    by_cases hrem : 0 < rem
    · show ∀ x ∈ sres.1, x < n
      rw [hsres, if_pos hrem]
      exact sample_mem_lt r n rem
    · show ∀ x ∈ sres.1, x < n
      rw [hsres, if_neg hrem]
      intro x hx
      simp at hx
  have hext_len : extraIdx.length = rem := by
    by_cases hrem : 0 < rem
    · show sres.1.length = rem
      rw [hsres, if_pos hrem]
      exact sample_length r n rem (Nat.le_of_lt (Nat.mod_lt total hn2))
    · show sres.1.length = rem
      rw [hsres, if_neg hrem]
      simp
      omega
  have hcap0 : cap0 = (List.range n).map
      (fun i => base + (if i ∈ extraIdx then 1 else 0)) := rfl
  have hcap0len : cap0.length = n := by rw [hcap0]; simp
  have hcap0sum : cap0.sum = total := by
    rw [hcap0, sum_map_base_ite, length_filter_mem n extraIdx hext_nodup
      hext_lt, hext_len]
    simp only [List.length_range]
    have := Nat.div_add_mod total n
    show n * (total / n) + total % n = total
    omega
  have hgirlsle : girlsC ≤ total := by show girlsC ≤ obC + ybC + girlsC; omega
  have hg1 : girls1 = List.zipWith min girls0 cap0 := rfl
  have hg0len : girls0.length = n := by
    show ((List.range n).map _).length = n
    simp
  have hg1len : girls1.length = n := by
    rw [hg1, zipWith_min_length, hg0len, hcap0len]
    simp
  have hg1le : ∀ i, i < girls1.length → girls1.getD i 0 ≤ cap0.getD i 0 := by
    intro i hi
    rw [hg1len] at hi
    rw [hg1, zipWith_min_getD girls0 cap0 i (by omega) (by omega)]
    exact Nat.min_le_right _ _
  have hcovF : ∀ i, i < n → i ∈ fillOrder := by
    intro i hi
    show i ∈ maleIdx ++ (List.range n).filter (fun i => decide (i ∉ maleIdx))
    exact cover_append maleIdx n i hi
  have hcovR : ∀ i, i < n → i ∈ reduceOrder := by
    intro i hi
    show i ∈ femaleIdx ++
      (List.range n).filter (fun i => decide (i ∉ femaleIdx))
    exact cover_append femaleIdx n i hi
  have hcur : curSum = girls1.sum := rfl
  obtain ⟨hg2sum, hg2len, hg2le⟩ := by
    have := girls_adjust_spec girlsC cap0 girls1 fillOrder reduceOrder n
      hcap0len hg1len hg1le hcovF hcovR (by omega)
    exact this
  have hg2eq : girls2 = (if girls1.sum < girlsC then
      rrGo fillOrder (fun g i => decide (g.getD i 0 < cap0.getD i 0))
        (fun g i => g.set i (g.getD i 0 + 1)) (girlsC - girls1.sum) 0 girls1
    else if girlsC < girls1.sum then
      rrGo reduceOrder (fun g i => decide (0 < g.getD i 0))
        (fun g i => g.set i (g.getD i 0 - 1)) (girls1.sum - girlsC) 0 girls1
    else girls1) := rfl
  rw [← hg2eq] at hg2sum hg2len hg2le
  have hcap1 : cap1 = List.zipWith (fun c g => c - g) cap0 girls2 := rfl
  have hcap1sum : cap1.sum + girlsC = total := by
    rw [hcap1, ← spareL_eq_zipWith]
    have := spareL_eq_sub cap0 girls2 (by omega)
      (by intro i hi; exact hg2le i (by omega))
    omega
  have hcap1len : cap1.length = n := by
    rw [hcap1, List.length_zipWith, hcap0len, hg2len]
    simp
  have hyres : yres = allocate_group_even ybC orderMaleGroups cap1 r6 := rfl
  obtain ⟨hybsum, hyblen, hcap2len, hcap2sum⟩ := by
    have := allocate_spec ybC orderMaleGroups cap1 r6 (by omega)
    exact this
  rw [← hyres] at hybsum hyblen hcap2len hcap2sum
  have hores : ores = allocate_group_even obC orderMaleGroups cap2 r7 := rfl
  obtain ⟨hobsum, hoblen, _, _⟩ := by
    have := allocate_spec obC orderMaleGroups cap2 r7
      (by show obC ≤ yres.2.1.sum; omega)
    exact this
  rw [← hores] at hobsum hoblen
  refine ⟨hobsum, ?_, ?_, ?_, ?_, ?_⟩
  · show yres.1.sum = ybC
    exact hybsum
  · exact hg2sum
  · show ores.1.length = leaders.length
    rw [hoblen]
    show yres.2.1.length = leaders.length
    rw [hcap2len, hcap1len]
  · show yres.1.length = leaders.length
    rw [hyblen, hcap1len]
  · show girls2.length = leaders.length
    rw [hg2len]

end SL

namespace AP

theorem bumpAll_append (a b : List Nat) (t : List Nat) :
    bumpAll (a ++ b) t = bumpAll b (bumpAll a t) := by
  unfold bumpAll
  exact List.foldl_append _ _ a b

theorem distribAP_eq_bumpIdx (n count : Nat) (lead : List Nat) :
    distribAP n count lead
      = bumpAll (bumpIdx n count lead) (List.replicate n (count / n)) := by
  unfold distribAP bumpIdx
  by_cases h : count % n > lead.length
  · rw [if_pos h, if_pos h, bumpAll_append]
  · rw [if_neg h, if_neg h, List.append_nil]

theorem bumpAll_length (idxs : List Nat) : ∀ (t : List Nat),
    (bumpAll idxs t).length = t.length := by
  induction idxs with
  | nil => intro t; rfl
  | cons i rest ih =>
    intro t
    show (bumpAll rest (t.set i (t.getD i 0 + 1))).length = t.length
    rw [ih]
    simp

theorem bumpAll_getD (idxs : List Nat) : ∀ (t : List Nat) (j : Nat),
    (∀ i ∈ idxs, i < t.length) →
    (bumpAll idxs t).getD j 0 = t.getD j 0 + idxs.count j := by
  induction idxs with
  | nil => intro t j _; simp [bumpAll]
  | cons i rest ih =>
    intro t j hall
    have hi : i < t.length := hall i (by simp)
    have hrest : ∀ x ∈ rest, x < (t.set i (t.getD i 0 + 1)).length := by
      intro x hx
      rw [List.length_set]
      exact hall x (by simp [hx])
    show (bumpAll rest (t.set i (t.getD i 0 + 1))).getD j 0
      = t.getD j 0 + (i :: rest).count j
    rw [ih _ j hrest]
    by_cases hij : i = j
    · subst hij
      rw [List.getD_eq_getElem _ _ (by simpa using hi),
        List.getElem_set_self (by simpa using hi), List.count_cons_self]
      omega
    · rw [List.count_cons_of_ne (by exact fun h => hij h.symm)]
      by_cases hj : j < t.length
      · rw [List.getD_eq_getElem _ _ (by simpa using hj),
          List.getElem_set_ne hij,
          ← List.getD_eq_getElem t 0 (by simpa using hj)]
      · rw [getD_zero_of_le _ _ (by simpa using Nat.le_of_not_lt hj),
          getD_zero_of_le t j (Nat.le_of_not_lt hj)]

theorem bumpAll_sum (idxs : List Nat) : ∀ (t : List Nat),
    (∀ i ∈ idxs, i < t.length) →
    (bumpAll idxs t).sum = t.sum + idxs.length := by
  induction idxs with
  | nil => intro t _; rfl
  | cons i rest ih =>
    intro t hall
    have hi : i < t.length := hall i (by simp)
    have hrest : ∀ x ∈ rest, x < (t.set i (t.getD i 0 + 1)).length := by
      intro x hx
      rw [List.length_set]
      exact hall x (by simp [hx])
    show (bumpAll rest (t.set i (t.getD i 0 + 1))).sum = t.sum + (rest.length + 1)
    rw [ih _ hrest, sum_set_add t i hi]
    omega

theorem length_filter_split (l : List Nat) (p : Nat → Bool) :
    (l.filter p).length + (l.filter (fun x => !(p x))).length = l.length := by
  induction l with
  | nil => simp
  | cons x t ih => by_cases hx : p x <;> simp [List.filter_cons, hx] <;> omega

theorem others_length (n : Nat) (lead : List Nat) (hnodup : lead.Nodup)
    (hlt : ∀ x ∈ lead, x < n) :
    ((List.range n).filter (fun i => decide (i ∉ lead))).length
      = n - lead.length := by
  have hsplit := length_filter_split (List.range n)
    (fun i => decide (i ∈ lead))
  have hmem := length_filter_mem n lead hnodup hlt
  have hsame : ((List.range n).filter (fun x => !(decide (x ∈ lead)))).length
      = ((List.range n).filter (fun i => decide (i ∉ lead))).length := by
    congr 1
    apply List.filter_congr
    intro x _
    simp
  rw [hmem, List.length_range] at hsplit
  omega

theorem bumpIdx_facts (n count : Nat) (lead : List Nat) (hnodup : lead.Nodup)
    (hlt : ∀ x ∈ lead, x < n) (hL : lead.length < n) :
    (bumpIdx n count lead).Nodup ∧
    (∀ x ∈ bumpIdx n count lead, x < n) ∧
    (bumpIdx n count lead).length = count % n := by
  have hn : 0 < n := by omega
  have hrem : count % n < n := Nat.mod_lt count hn
  set others := (List.range n).filter (fun i => decide (i ∉ lead)) with hoth
  have hothlen : others.length = n - lead.length :=
    others_length n lead hnodup hlt
  have hothnodup : others.Nodup := (List.nodup_range n).filter _
  have hothmem : ∀ x ∈ others, x < n ∧ x ∉ lead := by
    intro x hx
    rw [hoth, List.mem_filter] at hx
    exact ⟨List.mem_range.mp hx.1, by simpa using hx.2⟩
  unfold bumpIdx
  by_cases h : count % n > lead.length
  · rw [if_pos h]
    have hrm : count % n - lead.length ≤ others.length := by omega
    have htake : lead.take (count % n) = lead := List.take_of_length_le (by omega)
    have hmapmem : ∀ x ∈ (List.range (count % n - lead.length)).map
        (fun i => others.getD (i % others.length) 0), x ∈ others := by
      intro x hx
      rw [List.mem_map] at hx
      obtain ⟨i, hi, hxi⟩ := hx
      rw [List.mem_range] at hi
      have him : i % others.length < others.length := by
        apply Nat.mod_lt
        omega
      rw [← hxi, List.getD_eq_getElem _ _ (by simpa using him)]
      exact List.getElem_mem _
    have hmapnodup : ((List.range (count % n - lead.length)).map
        (fun i => others.getD (i % others.length) 0)).Nodup := by
      refine List.Nodup.map_on ?_ (List.nodup_range _)
      intro i hi j hj hij
      rw [List.mem_range] at hi hj
      have hmi : i % others.length = i := Nat.mod_eq_of_lt (by omega)
      have hmj : j % others.length = j := Nat.mod_eq_of_lt (by omega)
      rw [hmi, hmj] at hij
      have hib : i < others.length := by omega
      have hjb : j < others.length := by omega
      rw [List.getD_eq_getElem others 0 hib,
        List.getD_eq_getElem others 0 hjb] at hij
      exact (List.Nodup.getElem_inj_iff hothnodup).mp hij
    refine ⟨?_, ?_, ?_⟩
    · rw [htake, List.nodup_append]
      refine ⟨hnodup, hmapnodup, ?_⟩
      intro a ha hb
      have hbo := hothmem a (hmapmem a hb)
      exact hbo.2 ha
    · intro x hx
      rw [List.mem_append] at hx
      rcases hx with hx | hx
      · exact hlt x (List.mem_of_mem_take hx)
      · exact (hothmem x (hmapmem x hx)).1
    · rw [List.length_append, htake, List.length_map, List.length_range]
      omega
  · rw [if_neg h]
    refine ⟨?_, ?_, ?_⟩
    · rw [List.append_nil]
      exact hnodup.sublist (List.take_sublist _ _)
    · intro x hx
      rw [List.append_nil] at hx
      exact hlt x (List.mem_of_mem_take hx)
    · rw [List.append_nil, List.length_take]
      omega

/-- Conservation and shape for one group of `compute_group_targets`: the
targets sum to the pool size and each team gets `base` or `base + 1`. -/
theorem distribAP_spec (n count : Nat) (lead : List Nat) (hnodup : lead.Nodup)
    (hlt : ∀ x ∈ lead, x < n) (hL : lead.length < n) :
    (distribAP n count lead).sum = count ∧
    (distribAP n count lead).length = n ∧
    (∀ j, j < n → (distribAP n count lead).getD j 0
      = count / n + (bumpIdx n count lead).count j) ∧
    (∀ j, (bumpIdx n count lead).count j ≤ 1) := by
  obtain ⟨hbn, hblt, hblen⟩ := bumpIdx_facts n count lead hnodup hlt hL
  have hall : ∀ i ∈ bumpIdx n count lead, i < (List.replicate n (count / n)).length := by
    intro i hi
    rw [List.length_replicate]
    exact hblt i hi
  refine ⟨?_, ?_, ?_, ?_⟩
  · rw [distribAP_eq_bumpIdx, bumpAll_sum _ _ hall, List.sum_replicate, hblen]
    have := Nat.div_add_mod count n
    simp only [smul_eq_mul]
    omega
  · rw [distribAP_eq_bumpIdx, bumpAll_length, List.length_replicate]
  · intro j hj
    rw [distribAP_eq_bumpIdx, bumpAll_getD _ _ j hall,
      List.getD_eq_getElem _ _ (by simpa using hj)]
    simp
  · intro j
    exact List.nodup_iff_count_le_one.mp hbn j

theorem idxWhere_length (p : Member → Bool) : ∀ (l : List Member),
    (idxWhere p l).length = (l.filter p).length := by
  intro l
  induction l with
  | nil => rfl
  | cons x t ih =>
    show ((List.range (t.length + 1)).filter
      (fun i => p ((x :: t).getD i default))).length = _
    rw [List.range_succ_eq_map, List.filter_cons]
    have hmap : (List.filter (fun i => p ((x :: t).getD i default))
        ((List.range t.length).map Nat.succ))
        = ((List.range t.length).filter
            (fun i => p ((x :: t).getD (Nat.succ i) default))).map Nat.succ := by
      rw [List.filter_map]
      rfl
    rw [hmap]
    have hsame : ((List.range t.length).filter
        (fun i => p ((x :: t).getD (Nat.succ i) default)))
        = ((List.range t.length).filter (fun i => p (t.getD i default))) := by
      apply List.filter_congr
      intro i _
      rfl
    rw [hsame]
    rw [idxWhere] at ih
    simp only [List.getD_eq_getElem?_getD] at ih
    by_cases hx : p x <;> simp [hx, List.filter_cons] <;> exact ih

theorem idxWhere_nodup (p : Member → Bool) (l : List Member) :
    (idxWhere p l).Nodup :=
  (List.nodup_range _).filter _

theorem idxWhere_mem (p : Member → Bool) (l : List Member) (i : Nat) :
    i ∈ idxWhere p l ↔ i < l.length ∧ p (l.getD i default) = true := by
  unfold idxWhere
  rw [List.mem_filter, List.mem_range]

theorem bumpIdx_priority (n count : Nat) (lead : List Nat) :
    ∀ j, j ∉ lead → j ∈ bumpIdx n count lead →
      ∀ i ∈ lead, i ∈ bumpIdx n count lead := by
  intro j hj hjb i hi
  unfold bumpIdx at hjb ⊢
  by_cases h : count % n > lead.length
  · rw [if_pos h]
    refine List.mem_append_left _ ?_
    rw [List.take_of_length_le (by omega)]
    exact hi
  · rw [if_neg h, List.append_nil] at hjb
    exact absurd (List.mem_of_mem_take hjb) hj

end AP

/-- C1: for every valid input (8 captains, 4 male / 4 female, pools of sizes
`V`, `R`, `G`) and every draw tape, both quota planners
(`compute_balanced_targets` of `src/streamlit_app.py` and
`compute_group_targets` of `src/app.py`) return per-team targets that sum to
exactly `V`, `R` and `G` over the 8 teams, with one entry per team.  Per-team
targets are `Nat` in this embedding; the embedding is faithful because every
subtraction in the planners is either guarded by a positivity test or an
explicit `max(0, ·)`, so no quota is ever negative. -/
theorem C1_quota_conservation (leaders : List Member) (V R G : Nat) (r : Rng)
    (h8 : leaders.length = 8)
    (hM : (leaders.filter (fun m => m.gender == "M")).length = 4)
    (hF : (leaders.filter (fun m => m.gender == "F")).length = 4) :
    (((SL.compute_balanced_targets leaders V R G r).1.1).sum = V ∧
     ((SL.compute_balanced_targets leaders V R G r).1.2.1).sum = R ∧
     ((SL.compute_balanced_targets leaders V R G r).1.2.2).sum = G ∧
     ((SL.compute_balanced_targets leaders V R G r).1.1).length = 8 ∧
     ((SL.compute_balanced_targets leaders V R G r).1.2.1).length = 8 ∧
     ((SL.compute_balanced_targets leaders V R G r).1.2.2).length = 8) ∧
    (((AP.compute_group_targets leaders V R G).1).sum = V ∧
     ((AP.compute_group_targets leaders V R G).2.1).sum = R ∧
     ((AP.compute_group_targets leaders V R G).2.2).sum = G ∧
     ((AP.compute_group_targets leaders V R G).1).length = 8 ∧
     ((AP.compute_group_targets leaders V R G).2.1).length = 8 ∧
     ((AP.compute_group_targets leaders V R G).2.2).length = 8) := by
  have hn : 0 < leaders.length := by omega
  obtain ⟨s1, s2, s3, s4, s5, s6⟩ :=
    SL.compute_balanced_targets_sums leaders V R G r hn
  have hFlen : (AP.idxWhere (fun m => m.gender == "F") leaders).length = 4 := by
    rw [AP.idxWhere_length]; exact hF
  have hMlen : (AP.idxWhere (fun m => m.gender == "M") leaders).length = 4 := by
    rw [AP.idxWhere_length]; exact hM
  have hFlt : ∀ x ∈ AP.idxWhere (fun m => m.gender == "F") leaders, x < 8 := by
    intro x hx
    have := (AP.idxWhere_mem _ leaders x).mp hx
    omega
  have hMlt : ∀ x ∈ AP.idxWhere (fun m => m.gender == "M") leaders, x < 8 := by
    intro x hx
    have := (AP.idxWhere_mem _ leaders x).mp hx
    omega
  obtain ⟨a1, a2, _, _⟩ := AP.distribAP_spec 8 V
    (AP.idxWhere (fun m => m.gender == "F") leaders)
    (AP.idxWhere_nodup _ _) hFlt (by omega)
  obtain ⟨b1, b2, _, _⟩ := AP.distribAP_spec 8 R
    (AP.idxWhere (fun m => m.gender == "F") leaders)
    (AP.idxWhere_nodup _ _) hFlt (by omega)
  obtain ⟨c1, c2, _, _⟩ := AP.distribAP_spec 8 G
    (AP.idxWhere (fun m => m.gender == "M") leaders)
    (AP.idxWhere_nodup _ _) hMlt (by omega)
  refine ⟨⟨s1, s2, s3, by omega, by omega, by omega⟩, ?_⟩
  show (AP.distribAP leaders.length V _).sum = V ∧
    (AP.distribAP leaders.length R _).sum = R ∧
    (AP.distribAP leaders.length G _).sum = G ∧
    (AP.distribAP leaders.length V _).length = 8 ∧
    (AP.distribAP leaders.length R _).length = 8 ∧
    (AP.distribAP leaders.length G _).length = 8
  rw [h8]
  exact ⟨a1, b1, c1, a2, b2, c2⟩

/-- Witness for C1 at a concrete valid input. -/
theorem C1_quota_conservation_witness :
    (sampleLeaders.length = 8 ∧
     (sampleLeaders.filter (fun m => m.gender == "M")).length = 4 ∧
     (sampleLeaders.filter (fun m => m.gender == "F")).length = 4) ∧
    ((SL.compute_balanced_targets sampleLeaders 5 6 7 ⟨fun _ => 0, 0⟩).1.1).sum
      = 5 ∧
    ((AP.compute_group_targets sampleLeaders 5 6 7).2.2).sum = 7 :=
  ⟨⟨rfl, by decide, by decide⟩,
   (C1_quota_conservation sampleLeaders 5 6 7 ⟨fun _ => 0, 0⟩ rfl (by decide)
     (by decide)).1.1,
   (C1_quota_conservation sampleLeaders 5 6 7 ⟨fun _ => 0, 0⟩ rfl (by decide)
     (by decide)).2.2.2.1⟩

/-- C2, counterexample: the streamlit planner `compute_balanced_targets`
violates the ≤ 1 balance bound before any constraint-driven rebalancing.  At a
valid input — `sampleLeaders`, pools `V = R = G = 8`, all-zero draw tape — the
`girls` targets are `[2, 1, 2, 2, 1, 0, 0, 0]`: team 0 gets 2 and team 5 gets
0, a spread of 2.  (The planner equalises total females per team, captains
included, which yields 2 on male-led and 0 on female-led teams here.) -/
theorem C2_counterexample :
    1 < ((SL.compute_balanced_targets sampleLeaders 8 8 8
          ⟨fun _ => 0, 0⟩).1.2.2).getD 0 0
        - ((SL.compute_balanced_targets sampleLeaders 8 8 8
          ⟨fun _ => 0, 0⟩).1.2.2).getD 5 0 := by
  decide

/-- C2, amended: the ≤ 1 balance bound holds for the quota planner
`compute_group_targets` of `src/app.py` (each team's target for every group
is `count // 8` or `count // 8 + 1`); `compute_balanced_targets` of
`src/streamlit_app.py` does not satisfy it (see the counterexample: its
`girls` spread can reach 2). -/
theorem C2_balance_bound (leaders : List Member) (V R G : Nat)
    (h8 : leaders.length = 8)
    (hM : (leaders.filter (fun m => m.gender == "M")).length = 4)
    (hF : (leaders.filter (fun m => m.gender == "F")).length = 4) :
    ∀ j k, j < 8 → k < 8 →
      ((AP.compute_group_targets leaders V R G).1.getD j 0
        - (AP.compute_group_targets leaders V R G).1.getD k 0 ≤ 1) ∧
      ((AP.compute_group_targets leaders V R G).2.1.getD j 0
        - (AP.compute_group_targets leaders V R G).2.1.getD k 0 ≤ 1) ∧
      ((AP.compute_group_targets leaders V R G).2.2.getD j 0
        - (AP.compute_group_targets leaders V R G).2.2.getD k 0 ≤ 1) := by
  intro j k hj hk
  have hFlen : (AP.idxWhere (fun m => m.gender == "F") leaders).length = 4 := by
    rw [AP.idxWhere_length]; exact hF
  have hMlen : (AP.idxWhere (fun m => m.gender == "M") leaders).length = 4 := by
    rw [AP.idxWhere_length]; exact hM
  have hFlt : ∀ x ∈ AP.idxWhere (fun m => m.gender == "F") leaders, x < 8 := by
    intro x hx
    have := (AP.idxWhere_mem _ leaders x).mp hx
    omega
  have hMlt : ∀ x ∈ AP.idxWhere (fun m => m.gender == "M") leaders, x < 8 := by
    intro x hx
    have := (AP.idxWhere_mem _ leaders x).mp hx
    omega
  obtain ⟨_, _, a3, a4⟩ := AP.distribAP_spec 8 V
    (AP.idxWhere (fun m => m.gender == "F") leaders)
    (AP.idxWhere_nodup _ _) hFlt (by omega)
  obtain ⟨_, _, b3, b4⟩ := AP.distribAP_spec 8 R
    (AP.idxWhere (fun m => m.gender == "F") leaders)
    (AP.idxWhere_nodup _ _) hFlt (by omega)
  obtain ⟨_, _, c3, c4⟩ := AP.distribAP_spec 8 G
    (AP.idxWhere (fun m => m.gender == "M") leaders)
    (AP.idxWhere_nodup _ _) hMlt (by omega)
  have e1 := a3 j hj
  have e2 := a3 k hk
  have e3 := b3 j hj
  have e4 := b3 k hk
  have e5 := c3 j hj
  have e6 := c3 k hk
  have f1 := a4 j
  have f3 := b4 j
  have f5 := c4 j
  show ((AP.distribAP leaders.length V _).getD j 0
      - (AP.distribAP leaders.length V _).getD k 0 ≤ 1) ∧
    ((AP.distribAP leaders.length R _).getD j 0
      - (AP.distribAP leaders.length R _).getD k 0 ≤ 1) ∧
    ((AP.distribAP leaders.length G _).getD j 0
      - (AP.distribAP leaders.length G _).getD k 0 ≤ 1)
  rw [h8]
  refine ⟨?_, ?_, ?_⟩ <;> omega

/-- Witness for C2's amended bound at a concrete valid input and teams. -/
theorem C2_balance_bound_witness :
    (sampleLeaders.length = 8 ∧
     (sampleLeaders.filter (fun m => m.gender == "M")).length = 4 ∧
     (sampleLeaders.filter (fun m => m.gender == "F")).length = 4 ∧
     (0 : Nat) < 8 ∧ (5 : Nat) < 8) ∧
    ((AP.compute_group_targets sampleLeaders 9 10 11).2.2.getD 0 0
      - (AP.compute_group_targets sampleLeaders 9 10 11).2.2.getD 5 0 ≤ 1) :=
  ⟨⟨rfl, by decide, by decide, by decide, by decide⟩,
   (C2_balance_bound sampleLeaders 9 10 11 rfl (by decide) (by decide) 0 5
     (by decide) (by decide)).2.2⟩

/-- C7, counterexample: in the streamlit planner the `girls` per-team target
is not `G // 8` plus a male-preferred remainder.  At `sampleLeaders`,
`V = R = G = 8` and the tape `n ↦ 7·n + 3`, we have `G // 8 = 1` and
`G % 8 = 0`, so under the claim every team's `girls` target would be exactly
1; the planner gives team 0 a target of 2 (it equalises per-team female
totals, captains included, instead). -/
theorem C7_counterexample :
    ((SL.compute_balanced_targets sampleLeaders 8 8 8
      ⟨fun n => n * 7 + 3, 0⟩).1.2.2).getD 0 0 ≠ 8 / 8 := by
  decide

/-- C7, amended: the male-captain preference for the `girls` remainder holds
in `compute_group_targets` of `src/app.py`: there the `girls` target is
`G // 8` per team plus the remainder `G % 8`, and whenever any team whose
captain is not male receives an extra slot, every male-captain team has
already received one (targets `G // 8 + 1`).  The streamlit planner
`compute_balanced_targets` instead equalises per-team female totals (captains
included), as the counterexample shows. -/
theorem C7_girls_remainder_priority (leaders : List Member) (V R G : Nat)
    (h8 : leaders.length = 8)
    (hM : (leaders.filter (fun m => m.gender == "M")).length = 4)
    (hF : (leaders.filter (fun m => m.gender == "F")).length = 4) :
    ∀ j, j < 8 → ¬((leaders.getD j default).gender == "M") = true →
      G / 8 < (AP.compute_group_targets leaders V R G).2.2.getD j 0 →
      ∀ i, i < 8 → ((leaders.getD i default).gender == "M") = true →
        (AP.compute_group_targets leaders V R G).2.2.getD i 0 = G / 8 + 1 := by
  intro j hj hjg hjx i hi hig
  have hMlen : (AP.idxWhere (fun m => m.gender == "M") leaders).length = 4 := by
    rw [AP.idxWhere_length]; exact hM
  have hMlt : ∀ x ∈ AP.idxWhere (fun m => m.gender == "M") leaders, x < 8 := by
    intro x hx
    have := (AP.idxWhere_mem _ leaders x).mp hx
    omega
  obtain ⟨_, _, c3, c4⟩ := AP.distribAP_spec 8 G
    (AP.idxWhere (fun m => m.gender == "M") leaders)
    (AP.idxWhere_nodup _ _) hMlt (by omega)
  have hjv : (AP.compute_group_targets leaders V R G).2.2.getD j 0
      = G / 8 + (AP.bumpIdx 8 G
        (AP.idxWhere (fun m => m.gender == "M") leaders)).count j := by
    show (AP.distribAP leaders.length G _).getD j 0 = _
    rw [h8]
    exact c3 j hj
  have hjb : j ∈ AP.bumpIdx 8 G
      (AP.idxWhere (fun m => m.gender == "M") leaders) := by
    rw [← List.count_pos_iff]
    omega
  have hjnot : j ∉ AP.idxWhere (fun m => m.gender == "M") leaders := by
    intro hmem
    exact hjg ((AP.idxWhere_mem _ leaders j).mp hmem).2
  have himem : i ∈ AP.idxWhere (fun m => m.gender == "M") leaders :=
    (AP.idxWhere_mem _ leaders i).mpr ⟨by omega, hig⟩
  have hib : i ∈ AP.bumpIdx 8 G
      (AP.idxWhere (fun m => m.gender == "M") leaders) :=
    AP.bumpIdx_priority 8 G _ j hjnot hjb i himem
  have hic : 0 < (AP.bumpIdx 8 G
      (AP.idxWhere (fun m => m.gender == "M") leaders)).count i :=
    List.count_pos_iff.mpr hib
  have hile := c4 i
  have hiv : (AP.compute_group_targets leaders V R G).2.2.getD i 0
      = G / 8 + (AP.bumpIdx 8 G
        (AP.idxWhere (fun m => m.gender == "M") leaders)).count i := by
    show (AP.distribAP leaders.length G _).getD i 0 = _
    rw [h8]
    exact c3 i hi
  omega

/-- Witness for C7's amended priority property at a concrete input: with
`G = 13` (`G // 8 = 1`, remainder 5), female-led team 4 gets an extra slot
and so male-led team 0 must have target 2. -/
theorem C7_girls_remainder_priority_witness :
    (sampleLeaders.length = 8 ∧
     (sampleLeaders.filter (fun m => m.gender == "M")).length = 4 ∧
     (sampleLeaders.filter (fun m => m.gender == "F")).length = 4 ∧
     (4 : Nat) < 8 ∧
     ¬((sampleLeaders.getD 4 default).gender == "M") = true ∧
     13 / 8 < (AP.compute_group_targets sampleLeaders 6 6 13).2.2.getD 4 0 ∧
     (0 : Nat) < 8 ∧ ((sampleLeaders.getD 0 default).gender == "M") = true) ∧
    (AP.compute_group_targets sampleLeaders 6 6 13).2.2.getD 0 0 = 13 / 8 + 1 :=
  ⟨⟨rfl, by decide, by decide, by decide, by decide, by decide, by decide,
    by decide⟩,
   C7_girls_remainder_priority sampleLeaders 6 6 13 rfl (by decide) (by decide)
     4 (by decide) (by decide) (by decide) 0 (by decide) (by decide)⟩

theorem pop_many_ok (src : List Member) (c : Nat) (h : c ≤ src.length) :
    pop_many src c = Except.ok (src.take c, src.drop c) := by
  unfold pop_many
  by_cases h0 : c = 0
  · subst h0; simp
  · rw [if_neg h0, if_neg (by omega)]

theorem dealGroup_exact : ∀ (ts : List Team) (tgts : List Nat)
    (pool : List Member), tgts.length = ts.length → tgts.sum = pool.length →
    ∃ out, dealGroup ts tgts pool = Except.ok (out, []) ∧
      out.length = ts.length := by
  intro ts
  induction ts with
  | nil =>
    intro tgts pool hlen hsum
    have : tgts = [] := List.length_eq_zero.mp (by simpa using hlen)
    subst this
    have : pool = [] := List.length_eq_zero.mp (by simpa using hsum.symm)
    subst this
    exact ⟨[], rfl, rfl⟩
  | cons t ts ih =>
    intro tgts pool hlen hsum
    cases tgts with
    | nil => simp at hlen
    | cons c rest =>
      have hc : c ≤ pool.length := by
        simp only [List.sum_cons] at hsum
        omega
      have hdrop : rest.sum = (pool.drop c).length := by
        simp only [List.sum_cons] at hsum
        rw [List.length_drop]
        omega
      obtain ⟨out, hout, holen⟩ := ih rest (pool.drop c)
        (by simpa using hlen) hdrop
      refine ⟨{ t with members := t.members ++ pool.take c } :: out, ?_, ?_⟩
      · show (do
          let (got, rest2) ← pop_many pool ((c :: rest).headD 0)
          let (ts2, rest3) ← dealGroup ts (c :: rest).tail rest2
          Except.ok ({ t with members := t.members ++ got } :: ts2, rest3))
            = Except.ok _
        rw [List.headD_cons, pop_many_ok pool c hc]
        show (do
          let (ts2, rest3) ← dealGroup ts rest (pool.drop c)
          Except.ok ({ t with members := t.members ++ pool.take c } :: ts2,
            rest3)) = Except.ok _
        rw [hout]
        rfl
      · simpa using holen

theorem mkTeams_length (leaders : List Member) :
    (mkTeams leaders).length = leaders.length := by
  unfold mkTeams
  simp

/-- C8: with a captain list whose size is not 8 or whose gender split is not
4 male / 4 female, `assign_members_to_teams` — in both source files — returns
the validation error and no team assignment.  The checks precede the quota
computation and the in-place pool shuffles (lines 230–236 before 238–244 in
`src/streamlit_app.py`, lines 144–150 before 152–158 in `src/app.py`), so no
allocation work happens and the caller's pool lists are untouched. -/
theorem C8_invalid_captains (leaders obL ybL girlsL : List Member)
    (seed : Int) (tape : Nat → Nat)
    (h : leaders.length ≠ 8 ∨
      (leaders.filter (fun m => m.gender == "M")).length ≠ 4 ∨
      (leaders.filter (fun m => m.gender == "F")).length ≠ 4) :
    (∃ e, SL.assign_members_to_teams leaders obL ybL girlsL seed tape
      = Except.error e) ∧
    (∃ e, AP.assign_members_to_teams leaders obL ybL girlsL tape
      = Except.error e) := by
  constructor
  · unfold SL.assign_members_to_teams SL.assignCore
    by_cases h8 : leaders.length = 8
    · rw [if_neg (by omega)]
      have hg : (leaders.filter (fun m => m.gender == "M")).length ≠ 4 ∨
          (leaders.filter (fun m => m.gender == "F")).length ≠ 4 := by
        rcases h with h | h | h
        · omega
        · exact Or.inl h
        · exact Or.inr h
      rw [if_pos hg]
      exact ⟨_, rfl⟩
    · rw [if_pos h8]
      exact ⟨_, rfl⟩
  · unfold AP.assign_members_to_teams
    by_cases h8 : leaders.length = 8
    · rw [if_neg (by omega)]
      have hg : (leaders.filter (fun m => m.gender == "M")).length ≠ 4 ∨
          (leaders.filter (fun m => m.gender == "F")).length ≠ 4 := by
        rcases h with h | h | h
        · omega
        · exact Or.inl h
        · exact Or.inr h
      rw [if_pos hg]
      exact ⟨_, rfl⟩
    · rw [if_pos h8]
      exact ⟨_, rfl⟩

/-- Witness for C8 at a concrete invalid input (7 captains). -/
theorem C8_invalid_captains_witness :
    (sampleLeaders.tail.length ≠ 8 ∨
      (sampleLeaders.tail.filter (fun m => m.gender == "M")).length ≠ 4 ∨
      (sampleLeaders.tail.filter (fun m => m.gender == "F")).length ≠ 4) ∧
    ∃ e, SL.assign_members_to_teams sampleLeaders.tail [] [] [] 0
      (fun _ => 0) = Except.error e :=
  ⟨Or.inl (by decide),
   (C8_invalid_captains sampleLeaders.tail [] [] [] 0 (fun _ => 0)
     (Or.inl (by decide))).1⟩

/-- C9: determinism.  A run is a pure function of the captain list, the three
pools, the seed and the seed-determined draw stream (the tape models
`random.Random(seed)`, whose draws depend only on the seed); two runs with
identical inputs, the same seed, and pointwise-equal draw streams return
identical team lists (and identical final pool contents). -/
theorem C9_determinism (leaders obL ybL girlsL : List Member) (seed : Int)
    (t1 t2 : Nat → Nat) (h : ∀ i, t1 i = t2 i) :
    SL.assign_members_to_teams leaders obL ybL girlsL seed t1
      = SL.assign_members_to_teams leaders obL ybL girlsL seed t2 := by
  have : t1 = t2 := funext h
  rw [this]

/-- Witness for C9 with two distinct but pointwise-equal tapes. -/
theorem C9_determinism_witness :
    (∀ i : Nat, i + 1 = 1 + i) ∧
    SL.assign_members_to_teams sampleLeaders [] [] [] 42 (fun n => n + 1)
      = SL.assign_members_to_teams sampleLeaders [] [] [] 42 (fun n => 1 + n) :=
  ⟨fun i => Nat.add_comm i 1,
   C9_determinism sampleLeaders [] [] [] 42 _ _ (fun i => Nat.add_comm i 1)⟩

/-- C10: the pipeline consumes the caller's pool lists.  The source shuffles
`ob_list`, `yb_list`, `girls_list` in place and then removes members with
`del src[:count]` until each team has its planned quota; since the quotas sum
exactly to the pool sizes (C1), every successful call leaves all three caller
lists empty.  In this embedding the final contents of the caller's lists are
returned alongside the teams, and on every valid input the call succeeds with
all three returned pool components empty. -/
theorem C10_pools_consumed (leaders obL ybL girlsL : List Member) (seed : Int)
    (tape : Nat → Nat) (h8 : leaders.length = 8)
    (hM : (leaders.filter (fun m => m.gender == "M")).length = 4)
    (hF : (leaders.filter (fun m => m.gender == "F")).length = 4) :
    ∃ ts, SL.assign_members_to_teams leaders obL ybL girlsL seed tape
      = Except.ok (ts, [], [], []) := by
  unfold SL.assign_members_to_teams SL.assignCore
  rw [if_neg (by omega), if_neg (by push_neg; exact ⟨hM, hF⟩)]
  simp only []
  obtain ⟨s1, s2, s3, s4, s5, s6⟩ := SL.compute_balanced_targets_sums leaders
    obL.length ybL.length girlsL.length ⟨tape, 0⟩ (by omega)
  obtain ⟨out1, hdeal1, hlen1⟩ := dealGroup_exact (mkTeams leaders)
    (SL.compute_balanced_targets leaders obL.length ybL.length girlsL.length
      ⟨tape, 0⟩).1.1
    ((SL.compute_balanced_targets leaders obL.length ybL.length girlsL.length
      ⟨tape, 0⟩).2.shuffle obL).1
    (by rw [mkTeams_length]; omega)
    (by rw [shuffle_length]; exact s1)
  rw [hdeal1]
  simp only []
  obtain ⟨out2, hdeal2, hlen2⟩ := dealGroup_exact out1
    (SL.compute_balanced_targets leaders obL.length ybL.length girlsL.length
      ⟨tape, 0⟩).1.2.1
    ((((SL.compute_balanced_targets leaders obL.length ybL.length girlsL.length
      ⟨tape, 0⟩).2.shuffle obL).2).shuffle ybL).1
    (by rw [hlen1, mkTeams_length]; omega)
    (by rw [shuffle_length]; exact s2)
  rw [hdeal2]
  simp only []
  obtain ⟨out3, hdeal3, _⟩ := dealGroup_exact out2
    (SL.compute_balanced_targets leaders obL.length ybL.length girlsL.length
      ⟨tape, 0⟩).1.2.2
    ((((((SL.compute_balanced_targets leaders obL.length ybL.length
      girlsL.length ⟨tape, 0⟩).2.shuffle obL).2).shuffle
        ybL).2).shuffle girlsL).1
    (by rw [hlen2, hlen1, mkTeams_length]; omega)
    (by rw [shuffle_length]; exact s3)
  rw [hdeal3]
  exact ⟨_, rfl⟩

/-- Witness for C10 at a concrete valid input: the run succeeds and all three
returned pool components are empty. -/
theorem C10_pools_consumed_witness :
    (sampleLeaders.length = 8 ∧
     (sampleLeaders.filter (fun m => m.gender == "M")).length = 4 ∧
     (sampleLeaders.filter (fun m => m.gender == "F")).length = 4) ∧
    (match SL.assign_members_to_teams sampleLeaders
        [⟨"o1", "ob", "M"⟩, ⟨"o2", "ob", "M"⟩, ⟨"o3", "ob", "M"⟩]
        [⟨"y1", "yb", "M"⟩] [⟨"g1", "girls", "F"⟩] 7 (fun n => n % 5) with
     | Except.ok (_, o, y, g) => o = [] ∧ y = [] ∧ g = []
     | Except.error _ => False) := by
  refine ⟨⟨rfl, by decide, by decide⟩, ?_⟩
  obtain ⟨ts, hts⟩ := C10_pools_consumed sampleLeaders
    [⟨"o1", "ob", "M"⟩, ⟨"o2", "ob", "M"⟩, ⟨"o3", "ob", "M"⟩]
    [⟨"y1", "yb", "M"⟩] [⟨"g1", "girls", "F"⟩] 7 (fun n => n % 5)
    rfl (by decide) (by decide)
  rw [hts]
  exact ⟨rfl, rfl, rfl⟩

/-- C4 counterexample: with seed 3 (so 3 % 3 == 0) and an input in which both
designated inclusion-pair members 이진원 and 배연경 are present — here as two of
the eight captains, with empty pools — `assign_members_to_teams` of
`src/streamlit_app.py` returns a team list in which the two are NOT on the same
team: `enforce_inclusion_pair` only moves a non-captain member of the pair, so
when both are captains it does nothing, refuting "if s % 3 == 0 then in the
returned team list the two are on the same team". -/
theorem C4_counterexample :
    (3 : Int) % 3 = 0 ∧
    (SL.assign_members_to_teams inclLeaders [] [] [] 3 (fun _ => 0)).toOption.map
      (fun x => SL.sameTeamB x.1 "이진원" "배연경") = some false := by
  constructor
  · decide
  · decide

/-- C4 (amended): the half of the claim that holds. For every input and every
integer seed `s` with `s % 3 ≠ 0` (Python `%` on ints is `Int.emod`), the run of
`assign_members_to_teams` (src/streamlit_app.py) is literally the pipeline with
all three inclusion-enforcement steps disabled: no inclusion enforcement is
performed.  The `s % 3 == 0` half of the claim is refuted by
the separate counterexample: inclusion is then attempted but not guaranteed. -/
theorem C4_conditional_inclusion (leaders obL ybL girlsL : List Member)
    (seed : Int) (tape : Nat → Nat) (h : seed % 3 ≠ 0) :
    SL.assign_members_to_teams leaders obL ybL girlsL seed tape =
      SL.assignNoInclusion leaders obL ybL girlsL tape := by
  unfold SL.assign_members_to_teams SL.assignNoInclusion
  rw [beq_eq_false_iff_ne.mpr h]

theorem C4_conditional_inclusion_witness :
    ((1 : Int) % 3 ≠ 0) ∧
    SL.assign_members_to_teams sampleLeaders [] [] [] 1 (fun _ => 0) =
      SL.assignNoInclusion sampleLeaders [] [] [] (fun _ => 0) :=
  ⟨by decide,
   C4_conditional_inclusion sampleLeaders [] [] [] 1 (fun _ => 0) (by decide)⟩

theorem build_sizes4 (total : Nat) :
    (SL.build_room_sizes total 4).sum = total ∧
      ∀ s ∈ SL.build_room_sizes total 4, s ≠ 0 := by
  unfold SL.build_room_sizes
  by_cases h0 : total = 0
  · subst h0; simp
  rw [if_neg h0]
  by_cases h3 : total < 3
  · rw [if_pos h3]
    refine ⟨by simp, ?_⟩
    intro s hs
    simp only [List.mem_singleton] at hs
    omega
  rw [if_neg h3]
  simp only []
  have hdm := Nat.div_add_mod total 4
  have hmlt : total % 4 < 4 := Nat.mod_lt _ (by norm_num)
  have h04 : total % 4 = 0 ∨ total % 4 = 1 ∨ total % 4 = 2 ∨ total % 4 = 3 := by
    omega
  rcases h04 with h | h | h | h
  · rw [if_pos h]
    refine ⟨?_, ?_⟩
    · simp only [List.sum_replicate, smul_eq_mul]
      omega
    · intro s hs
      rw [List.eq_of_mem_replicate hs]
      omega
  · rw [if_neg (by omega), if_neg (by omega), if_neg (by omega), if_pos h]
    by_cases hk2 : 2 ≤ total / 4
    · rw [if_pos hk2]
      refine ⟨?_, ?_⟩
      · simp only [List.sum_append, List.sum_replicate, smul_eq_mul,
          List.sum_cons, List.sum_nil]
        omega
      · intro s hs
        rcases List.mem_append.mp hs with hs | hs
        · rw [List.eq_of_mem_replicate hs]; omega
        · simp only [List.mem_cons, List.mem_singleton, List.not_mem_nil,
            or_false] at hs
          rcases hs with rfl | rfl | rfl <;> omega
    · rw [if_neg hk2]
      by_cases hk1 : total / 4 = 1
      · rw [if_pos hk1]
        refine ⟨?_, ?_⟩
        · simp only [List.sum_cons, List.sum_nil]
          omega
        · intro s hs
          simp only [List.mem_cons, List.mem_singleton, List.not_mem_nil,
            or_false] at hs
          rcases hs with rfl | rfl <;> omega
      · exfalso; omega
  · rw [if_neg (by omega), if_neg (by omega), if_pos h]
    rw [if_pos (by omega : 1 ≤ total / 4)]
    refine ⟨?_, ?_⟩
    · simp only [List.sum_append, List.sum_replicate, smul_eq_mul,
        List.sum_cons, List.sum_nil]
      omega
    · intro s hs
      rcases List.mem_append.mp hs with hs | hs
      · rw [List.eq_of_mem_replicate hs]; omega
      · simp only [List.mem_cons, List.mem_singleton, List.not_mem_nil,
          or_false] at hs
        rcases hs with rfl | rfl <;> omega
  · rw [if_neg (by omega), if_pos h]
    refine ⟨?_, ?_⟩
    · simp only [List.sum_append, List.sum_replicate, smul_eq_mul,
        List.sum_cons, List.sum_nil]
      omega
    · intro s hs
      rcases List.mem_append.mp hs with hs | hs
      · rw [List.eq_of_mem_replicate hs]; omega
      · simp only [List.mem_cons, List.mem_singleton, List.not_mem_nil,
          or_false] at hs
        omega

theorem composeGo_sum (members : List Member) (sizes : List Nat)
    (rooms : List SL.Room) (cursor : Nat)
    (h : cursor + sizes.sum ≤ members.length) :
    ((SL.composeGo members sizes rooms cursor).map
        (fun rm => rm.members.length)).sum
      = (rooms.map (fun rm => rm.members.length)).sum + sizes.sum := by
  induction sizes generalizing rooms cursor with
  | nil => simp [SL.composeGo]
  | cons sz rest ih =>
      rw [List.sum_cons] at h
      rw [SL.composeGo]
      rw [ih _ _ (by omega)]
      simp only [List.map_append, List.sum_append, List.map_cons,
        List.map_nil, List.sum_cons, List.sum_nil]
      have hlen : ((members.drop cursor).take sz).length = sz := by
        rw [List.length_take, List.length_drop]
        omega
      rw [hlen]
      omega

theorem composeGo_nonempty (members : List Member) (sizes : List Nat)
    (rooms : List SL.Room) (cursor : Nat)
    (h : cursor + sizes.sum ≤ members.length)
    (h0 : ∀ s ∈ sizes, s ≠ 0)
    (hr : ∀ rm ∈ rooms, rm.members ≠ []) :
    ∀ rm ∈ SL.composeGo members sizes rooms cursor, rm.members ≠ [] := by
  induction sizes generalizing rooms cursor with
  | nil => simpa [SL.composeGo] using hr
  | cons sz rest ih =>
      rw [List.sum_cons] at h
      rw [SL.composeGo]
      apply ih
      · omega
      · intro s hs
        exact h0 s (List.mem_cons_of_mem _ hs)
      · intro rm hrm
        rcases List.mem_append.mp hrm with hmem | hmem
        · exact hr rm hmem
        · simp only [List.mem_singleton] at hmem
          subst hmem
          apply List.ne_nil_of_length_pos
          rw [List.length_take, List.length_drop]
          have := h0 sz (List.mem_cons_self _ _)
          omega

theorem compose_rooms_sum (members : List Member) :
    ((SL.compose_rooms members 4).map (fun rm => rm.members.length)).sum
      = members.length := by
  unfold SL.compose_rooms
  rw [composeGo_sum members _ [] 0
    (by rw [(build_sizes4 members.length).1]; omega)]
  rw [(build_sizes4 members.length).1]
  simp

theorem compose_rooms_nonempty (members : List Member) :
    ∀ rm ∈ SL.compose_rooms members 4, rm.members ≠ [] := by
  unfold SL.compose_rooms
  apply composeGo_nonempty
  · rw [(build_sizes4 members.length).1]
    omega
  · exact (build_sizes4 members.length).2
  · intro rm hrm
    simp at hrm

/-- C5 counterexample: at configured room size 5 (within the claimed range
2..6) with a deduplicated male pool of 9 people, `assign_rooms` of
`src/streamlit_app.py` returns NO male rooms at all — the total occupant count
is 0, not 9.  Cause: `build_room_sizes` has no branch for remainder
`r == 4` (here 9 % 5), so `sizes` stays `[]` and everyone is dropped.  This
refutes the claimed packing total for every room size in 2..6. -/
theorem C5_counterexample :
    ((SL.assign_rooms [] roomPool9 [] [] 5 ⟨fun _ => 0, 0⟩).1.map
        (fun rm => rm.members.length)).sum = 0 ∧
      (SL.dedup_by_name [] (roomPool9 ++ [])).length = 9 := by
  constructor
  · decide
  · decide

/-- C5 (amended): at the default preferred room size 4 the claimed packing
properties do hold, for every captain list and every pool and every draw tape:
in each gender's room list of `assign_rooms` (src/streamlit_app.py) the room
occupant counts sum to exactly the size of that gender's deduplicated pool, no
room is empty, and 10 people at preferred size 4 are split into rooms of sizes
[4, 3, 3].  For other configured sizes the claim fails (see the
counterexample): `build_room_sizes` handles remainders 0,1,2,3 with constants
tuned to size 4 and silently returns no rooms for remainders 4 and 5. -/
theorem C5_room_packing (leaders obL ybL girlsL : List Member) (r : Rng) :
    (((SL.assign_rooms leaders obL ybL girlsL 4 r).1.map
        (fun rm => rm.members.length)).sum
      = (SL.dedup_by_name (leaders.filter (fun m => m.gender == "M"))
          (obL ++ ybL)).length) ∧
    (((SL.assign_rooms leaders obL ybL girlsL 4 r).2.map
        (fun rm => rm.members.length)).sum
      = (SL.dedup_by_name (leaders.filter (fun m => m.gender == "F"))
          girlsL).length) ∧
    (∀ rm ∈ (SL.assign_rooms leaders obL ybL girlsL 4 r).1,
      rm.members ≠ []) ∧
    (∀ rm ∈ (SL.assign_rooms leaders obL ybL girlsL 4 r).2,
      rm.members ≠ []) ∧
    SL.build_room_sizes 10 4 = [4, 3, 3] := by
  refine ⟨?_, ?_, ?_, ?_, by decide⟩
  · show ((SL.compose_rooms
        (Rng.shuffle r (SL.dedup_by_name
          (leaders.filter (fun m => m.gender == "M")) (obL ++ ybL))).1 4).map
          (fun rm => rm.members.length)).sum = _
    rw [compose_rooms_sum, shuffle_length]
  · show ((SL.compose_rooms
        (Rng.shuffle (Rng.shuffle r (SL.dedup_by_name
          (leaders.filter (fun m => m.gender == "M")) (obL ++ ybL))).2
          (SL.dedup_by_name
            (leaders.filter (fun m => m.gender == "F")) girlsL)).1 4).map
          (fun rm => rm.members.length)).sum = _
    rw [compose_rooms_sum, shuffle_length]
  · exact compose_rooms_nonempty _
  · exact compose_rooms_nonempty _

/-- C3 counterexample: a full run of `assign_members_to_teams`
(src/streamlit_app.py) on a valid input containing both members of the
configured exclusion pair (노시현, 배연경) — 배연경 and 이진원 as captains,
노시현 in the rookie pool — ends with 노시현 and 배연경 on the SAME team, even
though a resolving swap exists (some other team contains none of the
constrained names and has a member to swap with).  Cause: the final
re-enforcement (lines 497–498) repairs (노시현, 배연경) first and
(노시현, 이진원) second, and the second repair can swap 노시현 straight back
into 배연경's team; no later pass moves these names (step 6 filters them out,
step 7 locks them), and no error is reported. -/
theorem C3_counterexample :
    (SL.assign_members_to_teams exclLeaders [] [⟨"노시현", "yb", "M"⟩]
        [⟨"R0", "girls", "F"⟩, ⟨"R1", "girls", "F"⟩] 1
        (fun n => n * 7 + 3)).toOption.map
      (fun x => (SL.sameTeamB x.1 "노시현" "배연경",
        x.1.any (fun t => !(SL.team_has_name t "노시현") &&
          !(SL.team_has_name t "배연경") && !(SL.team_has_name t "이진원") &&
          !t.members.isEmpty))) = some (true, true) := by decide

theorem findIdxQ_some_spec {α : Type} [Inhabited α] (p : α → Bool)
    (l : List α) (s j : Nat) (h : List.findIdx? p l s = some j) :
    s ≤ j ∧ j - s < l.length ∧ p (l.getD (j - s) default) = true := by
  induction l generalizing s with
  | nil => simp [List.findIdx?] at h
  | cons x t ih =>
      rw [show List.findIdx? p (x :: t) s
        = if p x then some s else List.findIdx? p t (s + 1) from rfl] at h
      by_cases hp : p x
      · rw [if_pos hp] at h
        injection h with h
        subst h
        simpa using hp
      · rw [if_neg hp] at h
        obtain ⟨h1, h2, h3⟩ := ih (s + 1) h
        refine ⟨by omega, by simp only [List.length_cons]; omega, ?_⟩
        have hjs : j - s = (j - (s + 1)) + 1 := by omega
        rw [hjs, List.getD_cons_succ]
        exact h3

theorem findIdxQ_none_spec {α : Type} [Inhabited α] (p : α → Bool)
    (l : List α) (s : Nat) (h : List.findIdx? p l s = none) :
    ∀ x ∈ l, p x = false := by
  induction l generalizing s with
  | nil => intro x hx; simp at hx
  | cons y t ih =>
      rw [show List.findIdx? p (y :: t) s
        = if p y then some s else List.findIdx? p t (s + 1) from rfl] at h
      by_cases hp : p y
      · rw [if_pos hp] at h; exact absurd h (by simp)
      · rw [if_neg hp] at h
        intro x hx
        rcases List.mem_cons.mp hx with rfl | hx
        · rw [Bool.not_eq_true] at hp; exact hp
        · exact ih (s + 1) h x hx

theorem getD_le_sum (l : List Nat) (k : Nat) (h : k < l.length) :
    l.getD k 0 ≤ l.sum := by
  induction l generalizing k with
  | nil => simp at h
  | cons x t ih =>
      cases k with
      | zero => simp only [List.getD_cons_zero, List.sum_cons]; omega
      | succ k =>
          simp only [List.getD_cons_succ, List.sum_cons]
          have := ih k (by simpa using h)
          omega

theorem two_getD_le_sum (l : List Nat) (i j : Nat) (hi : i < l.length)
    (hj : j < l.length) (hne : i ≠ j) :
    l.getD i 0 + l.getD j 0 ≤ l.sum := by
  induction l generalizing i j with
  | nil => simp at hi
  | cons x t ih =>
      cases i with
      | zero =>
          cases j with
          | zero => exact absurd rfl hne
          | succ j =>
              simp only [List.getD_cons_zero, List.getD_cons_succ,
                List.sum_cons]
              have := getD_le_sum t j (by simpa using hj)
              omega
      | succ i =>
          cases j with
          | zero =>
              simp only [List.getD_cons_zero, List.getD_cons_succ,
                List.sum_cons]
              have := getD_le_sum t i (by simpa using hi)
              omega
          | succ j =>
              simp only [List.getD_cons_succ, List.sum_cons]
              have := ih i j (by simpa using hi) (by simpa using hj)
                (fun hc => hne (by rw [hc]))
              omega

theorem map_getD (f : Team → Nat) (teams : List Team) (k : Nat)
    (hk : k < teams.length) :
    (teams.map f).getD k 0 = f (teams.getD k default) := by
  rw [List.getD_eq_getElem _ _ (by simpa using hk),
    List.getD_eq_getElem _ _ hk, List.getElem_map]

theorem has_name_iff (t : Team) (nm : String) :
    SL.team_has_name t nm = true ↔
      t.leader.name = nm ∨ nm ∈ teamNames t := by
  simp only [SL.team_has_name, Bool.or_eq_true, beq_iff_eq,
    List.any_eq_true, teamNames, List.mem_map]

theorem has_name_iff_count (t : Team) (nm : String) :
    SL.team_has_name t nm = true ↔ 1 ≤ teamCount t nm := by
  rw [has_name_iff, teamCount]
  constructor
  · rintro (h | h)
    · rw [if_pos h]; omega
    · have := List.count_pos_iff_mem.mpr h
      omega
  · intro h
    by_cases hl : t.leader.name = nm
    · exact Or.inl hl
    · rw [if_neg hl] at h
      exact Or.inr (List.count_pos_iff_mem.mp (by omega))

theorem only_team (teams : List Team) (nm : String) (ta : Nat)
    (hta : ta < teams.length)
    (hhas : SL.team_has_name (teams.getD ta default) nm = true)
    (hc : nameCount teams nm ≤ 1) :
    ∀ k, k < teams.length → k ≠ ta →
      SL.team_has_name (teams.getD k default) nm = false := by
  intro k hk hkta
  by_contra hcon
  rw [Bool.not_eq_false] at hcon
  have c1 := (has_name_iff_count _ _).mp hhas
  have c2 := (has_name_iff_count _ _).mp hcon
  have hsum := two_getD_le_sum (teams.map (fun t => teamCount t nm)) ta k
    (by simpa using hta) (by simpa using hk) (fun hc => hkta hc.symm)
  rw [map_getD _ _ _ hta, map_getD _ _ _ hk] at hsum
  unfold nameCount at hc
  omega

theorem sameTeamB_false_of (teams : List Team) (a b : String)
    (h : ∀ k, k < teams.length →
      ¬(SL.team_has_name (teams.getD k default) a = true ∧
        SL.team_has_name (teams.getD k default) b = true)) :
    SL.sameTeamB teams a b = false := by
  rw [SL.sameTeamB, List.any_eq_false]
  intro t ht
  obtain ⟨k, hk, hget⟩ := List.mem_iff_getElem.mp ht
  have hk2 := h k hk
  rw [List.getD_eq_getElem _ _ hk, hget] at hk2
  by_contra hc
  rw [Bool.and_eq_true] at hc
  exact hk2 hc

theorem locateGo_some_spec (nm : String) (ts : List Team) (i ti : Nat)
    (lead : Bool) (idx : Nat)
    (h : SL.locateGo nm ts i = some (ti, lead, idx)) :
    i ≤ ti ∧ ti - i < ts.length ∧
      ((lead = true ∧ (ts.getD (ti - i) default).leader.name = nm) ∨
       (lead = false ∧ idx < (ts.getD (ti - i) default).members.length ∧
         ((ts.getD (ti - i) default).members.getD idx default).name = nm)) := by
  induction ts generalizing i with
  | nil => simp [SL.locateGo] at h
  | cons t rest ih =>
      rw [SL.locateGo] at h
      by_cases hl : t.leader.name == nm
      · rw [if_pos hl] at h
        injection h with h
        have h1 : i = ti ∧ true = lead ∧ 0 = idx := by simpa using h
        obtain ⟨rfl, rfl, rfl⟩ := h1
        refine ⟨le_refl _, by simp, Or.inl ⟨rfl, ?_⟩⟩
        simp only [Nat.sub_self, List.getD_cons_zero]
        exact beq_iff_eq.mp hl
      · rw [if_neg hl] at h
        cases hf : t.members.findIdx? (fun m => m.name == nm) with
        | some j =>
            rw [hf] at h
            injection h with h
            have h1 : i = ti ∧ false = lead ∧ j = idx := by simpa using h
            obtain ⟨rfl, rfl, rfl⟩ := h1
            obtain ⟨_, hjl, hjp⟩ := findIdxQ_some_spec _ _ _ _ hf
            simp only [Nat.sub_zero] at hjl hjp
            refine ⟨le_refl _, by simp, Or.inr ⟨rfl, ?_, ?_⟩⟩
            · simpa using hjl
            · simp only [Nat.sub_self, List.getD_cons_zero]
              exact beq_iff_eq.mp (by simpa using hjp)
        | none =>
            rw [hf] at h
            obtain ⟨h1, h2, h3⟩ := ih (i + 1) h
            refine ⟨by omega, by simp only [List.length_cons]; omega, ?_⟩
            have hsh : ti - i = (ti - (i + 1)) + 1 := by omega
            rw [hsh, List.getD_cons_succ]
            exact h3

theorem locate_some_spec (teams : List Team) (nm : String) (ti : Nat)
    (lead : Bool) (idx : Nat)
    (h : SL.locate teams nm = some (ti, lead, idx)) :
    ti < teams.length ∧
      SL.team_has_name (teams.getD ti default) nm = true ∧
      (lead = true → (teams.getD ti default).leader.name = nm) ∧
      (lead = false → idx < (teams.getD ti default).members.length ∧
        ((teams.getD ti default).members.getD idx default).name = nm) := by
  obtain ⟨_, h2, h3⟩ := locateGo_some_spec nm teams 0 ti lead idx h
  simp only [Nat.sub_zero] at h2 h3
  rcases h3 with ⟨hl, hn⟩ | ⟨hl, hi, hn⟩
  · exact ⟨h2, (has_name_iff _ _).mpr (Or.inl hn), fun _ => hn,
      fun hc => absurd hl (by rw [hc]; simp)⟩
  · refine ⟨h2, (has_name_iff _ _).mpr (Or.inr ?_), fun hc => absurd hl
      (by rw [hc]; simp), fun _ => ⟨hi, hn⟩⟩
    rw [teamNames, List.mem_map]
    refine ⟨(teams.getD ti default).members.getD idx default, ?_, hn⟩
    rw [List.getD_eq_getElem _ _ hi]
    exact List.getElem_mem hi

theorem locateGo_none_spec (nm : String) (ts : List Team) (i : Nat)
    (h : SL.locateGo nm ts i = none) :
    ∀ t ∈ ts, SL.team_has_name t nm = false := by
  induction ts generalizing i with
  | nil => intro t ht; simp at ht
  | cons t rest ih =>
      rw [SL.locateGo] at h
      by_cases hl : t.leader.name == nm
      · rw [if_pos hl] at h; exact absurd h (by simp)
      · rw [if_neg hl] at h
        cases hf : t.members.findIdx? (fun m => m.name == nm) with
        | some j => rw [hf] at h; exact absurd h (by simp)
        | none =>
            rw [hf] at h
            intro u hu
            rcases List.mem_cons.mp hu with rfl | hu
            · rw [SL.team_has_name, Bool.or_eq_false_iff]
              refine ⟨by simpa using hl, ?_⟩
              rw [List.any_eq_false]
              intro x hx
              simp only [Bool.not_eq_true]
              exact findIdxQ_none_spec _ _ _ hf x hx
            · exact ih (i + 1) h u hu

theorem findSameGroupGo_some_spec (conflicted : Nat) (avoid grp : String)
    (ts : List Team) (j0 p pi : Nat)
    (h : SL.findSameGroupGo conflicted avoid grp ts j0 = some (p, pi)) :
    j0 ≤ p ∧ p - j0 < ts.length ∧ p ≠ conflicted ∧
      SL.team_has_name (ts.getD (p - j0) default) avoid = false ∧
      pi < (ts.getD (p - j0) default).members.length := by
  induction ts generalizing j0 with
  | nil => simp [SL.findSameGroupGo] at h
  | cons t rest ih =>
      rw [SL.findSameGroupGo] at h
      by_cases h1 : j0 = conflicted
      · rw [if_pos h1] at h
        obtain ⟨ha, hb, hc, hd, he⟩ := ih (j0 + 1) h
        refine ⟨by omega, by simp only [List.length_cons]; omega, hc, ?_, ?_⟩
        · have hsh : p - j0 = (p - (j0 + 1)) + 1 := by omega
          rw [hsh, List.getD_cons_succ]; exact hd
        · have hsh : p - j0 = (p - (j0 + 1)) + 1 := by omega
          rw [hsh, List.getD_cons_succ]; exact he
      · rw [if_neg h1] at h
        by_cases h2 : SL.team_has_name t avoid
        · rw [if_pos h2] at h
          obtain ⟨ha, hb, hc, hd, he⟩ := ih (j0 + 1) h
          refine ⟨by omega, by simp only [List.length_cons]; omega, hc, ?_, ?_⟩
          · have hsh : p - j0 = (p - (j0 + 1)) + 1 := by omega
            rw [hsh, List.getD_cons_succ]; exact hd
          · have hsh : p - j0 = (p - (j0 + 1)) + 1 := by omega
            rw [hsh, List.getD_cons_succ]; exact he
        · rw [if_neg h2] at h
          cases hf : t.members.findIdx? (fun m => m.group == grp) with
          | some ji =>
              rw [hf] at h
              injection h with h
              have he : j0 = p ∧ ji = pi := by simpa using h
              obtain ⟨rfl, rfl⟩ := he
              obtain ⟨_, hjl, _⟩ := findIdxQ_some_spec _ _ _ _ hf
              simp only [Nat.sub_zero] at hjl
              refine ⟨le_refl _, by simp, h1, ?_, ?_⟩
              · simp only [Nat.sub_self, List.getD_cons_zero]
                simpa using h2
              · simp only [Nat.sub_self, List.getD_cons_zero]
                simpa using hjl
          | none =>
              rw [hf] at h
              obtain ⟨ha, hb, hc, hd, he⟩ := ih (j0 + 1) h
              refine ⟨by omega, by simp only [List.length_cons]; omega, hc,
                ?_, ?_⟩
              · have hsh : p - j0 = (p - (j0 + 1)) + 1 := by omega
                rw [hsh, List.getD_cons_succ]; exact hd
              · have hsh : p - j0 = (p - (j0 + 1)) + 1 := by omega
                rw [hsh, List.getD_cons_succ]; exact he

theorem findAnyTeamGo_some_spec (conflicted : Nat) (avoid : String)
    (ts : List Team) (j0 p : Nat)
    (h : SL.findAnyTeamGo conflicted avoid ts j0 = some p) :
    j0 ≤ p ∧ p - j0 < ts.length ∧ p ≠ conflicted ∧
      SL.team_has_name (ts.getD (p - j0) default) avoid = false ∧
      (ts.getD (p - j0) default).members ≠ [] := by
  induction ts generalizing j0 with
  | nil => simp [SL.findAnyTeamGo] at h
  | cons t rest ih =>
      rw [SL.findAnyTeamGo] at h
      by_cases h1 : j0 = conflicted
      · rw [if_pos h1] at h
        obtain ⟨ha, hb, hc, hd, he⟩ := ih (j0 + 1) h
        refine ⟨by omega, by simp only [List.length_cons]; omega, hc, ?_, ?_⟩
        · have hsh : p - j0 = (p - (j0 + 1)) + 1 := by omega
          rw [hsh, List.getD_cons_succ]; exact hd
        · have hsh : p - j0 = (p - (j0 + 1)) + 1 := by omega
          rw [hsh, List.getD_cons_succ]; exact he
      · rw [if_neg h1] at h
        by_cases h2 : SL.team_has_name t avoid
        · rw [if_pos h2] at h
          obtain ⟨ha, hb, hc, hd, he⟩ := ih (j0 + 1) h
          refine ⟨by omega, by simp only [List.length_cons]; omega, hc, ?_, ?_⟩
          · have hsh : p - j0 = (p - (j0 + 1)) + 1 := by omega
            rw [hsh, List.getD_cons_succ]; exact hd
          · have hsh : p - j0 = (p - (j0 + 1)) + 1 := by omega
            rw [hsh, List.getD_cons_succ]; exact he
        · rw [if_neg h2] at h
          by_cases h3 : t.members = []
          · rw [if_pos h3] at h
            obtain ⟨ha, hb, hc, hd, he⟩ := ih (j0 + 1) h
            refine ⟨by omega, by simp only [List.length_cons]; omega, hc,
              ?_, ?_⟩
            · have hsh : p - j0 = (p - (j0 + 1)) + 1 := by omega
              rw [hsh, List.getD_cons_succ]; exact hd
            · have hsh : p - j0 = (p - (j0 + 1)) + 1 := by omega
              rw [hsh, List.getD_cons_succ]; exact he
          · rw [if_neg h3] at h
            injection h with h
            subst h
            refine ⟨le_refl _, by simp, h1, ?_, ?_⟩
            · simp only [Nat.sub_self, List.getD_cons_zero]
              simpa using h2
            · simp only [Nat.sub_self, List.getD_cons_zero]
              exact h3

theorem findAnyTeamGo_none_spec (conflicted : Nat) (avoid : String)
    (ts : List Team) (j0 : Nat)
    (h : SL.findAnyTeamGo conflicted avoid ts j0 = none) :
    ∀ q, q < ts.length → j0 + q ≠ conflicted →
      SL.team_has_name (ts.getD q default) avoid = true ∨
        (ts.getD q default).members = [] := by
  induction ts generalizing j0 with
  | nil => intro q hq; simp at hq
  | cons t rest ih =>
      rw [SL.findAnyTeamGo] at h
      by_cases h1 : j0 = conflicted
      · rw [if_pos h1] at h
        intro q hq hqc
        cases q with
        | zero => exact absurd (by omega : j0 + 0 = conflicted) hqc
        | succ q =>
            rw [List.getD_cons_succ]
            exact ih (j0 + 1) h q (by simpa using hq) (by omega)
      · rw [if_neg h1] at h
        by_cases h2 : SL.team_has_name t avoid
        · rw [if_pos h2] at h
          intro q hq hqc
          cases q with
          | zero => rw [List.getD_cons_zero]; exact Or.inl h2
          | succ q =>
              rw [List.getD_cons_succ]
              exact ih (j0 + 1) h q (by simpa using hq) (by omega)
        · rw [if_neg h2] at h
          by_cases h3 : t.members = []
          · rw [if_pos h3] at h
            intro q hq hqc
            cases q with
            | zero => rw [List.getD_cons_zero]; exact Or.inr h3
            | succ q =>
                rw [List.getD_cons_succ]
                exact ih (j0 + 1) h q (by simpa using hq) (by omega)
          · rw [if_neg h3] at h
            exact absurd h (by simp)

theorem getD_set_self (l : List Team) (i : Nat) (x : Team)
    (h : i < l.length) : (l.set i x).getD i default = x := by
  rw [List.getD_eq_getElem?_getD, ← List.get?_eq_getElem?, List.get?_set_eq,
    List.get?_eq_getElem?, List.getElem?_eq_getElem h]
  rfl

theorem getD_set_other (l : List Team) (i k : Nat) (x : Team)
    (hne : i ≠ k) : (l.set i x).getD k default = l.getD k default := by
  rw [List.getD_eq_getElem?_getD, ← List.get?_eq_getElem?,
    List.get?_set_ne _ _ hne, List.get?_eq_getElem?,
    ← List.getD_eq_getElem?_getD]

theorem swapBetween_spec (teams : List Team) (ta ia tb ib : Nat)
    (hta : ta < teams.length) (htb : tb < teams.length) (htab : ta ≠ tb)
    (hia : ia < (teams.getD ta default).members.length)
    (hib : ib < (teams.getD tb default).members.length) :
    (SL.swapBetween teams ta ia tb ib).length = teams.length ∧
    (SL.swapBetween teams ta ia tb ib).getD ta default
      = { teams.getD ta default with
          members := (teams.getD ta default).members.set ia
            ((teams.getD tb default).members.getD ib default) } ∧
    (SL.swapBetween teams ta ia tb ib).getD tb default
      = { teams.getD tb default with
          members := (teams.getD tb default).members.set ib
            ((teams.getD ta default).members.getD ia default) } ∧
    ∀ k, k ≠ ta → k ≠ tb →
      (SL.swapBetween teams ta ia tb ib).getD k default
        = teams.getD k default := by
  have hA : teams.get? ta = some (teams.getD ta default) := by
    rw [List.get?_eq_getElem?, List.getElem?_eq_getElem hta,
      List.getD_eq_getElem _ _ hta]
  have hB : teams.get? tb = some (teams.getD tb default) := by
    rw [List.get?_eq_getElem?, List.getElem?_eq_getElem htb,
      List.getD_eq_getElem _ _ htb]
  have hx : (teams.getD ta default).members.get? ia
      = some ((teams.getD ta default).members.getD ia default) := by
    rw [List.get?_eq_getElem?, List.getElem?_eq_getElem hia,
      List.getD_eq_getElem _ _ hia]
  have hy : (teams.getD tb default).members.get? ib
      = some ((teams.getD tb default).members.getD ib default) := by
    rw [List.get?_eq_getElem?, List.getElem?_eq_getElem hib,
      List.getD_eq_getElem _ _ hib]
  unfold SL.swapBetween
  rw [hA, hB]
  simp only []
  rw [hx, hy]
  simp only []
  rw [if_neg htab]
  refine ⟨by simp, ?_, ?_, ?_⟩
  · rw [getD_set_other _ tb ta _ (fun hc => htab hc.symm),
      getD_set_self _ _ _ (by simpa using hta)]
  · rw [getD_set_self _ _ _ (by simpa using htb)]
  · intro k hkta hktb
    rw [getD_set_other _ tb k _ (fun hc => hktb hc.symm),
      getD_set_other _ ta k _ (fun hc => hkta hc.symm)]

theorem teamCount_le_nameCount (teams : List Team) (nm : String) (k : Nat)
    (hk : k < teams.length) :
    teamCount (teams.getD k default) nm ≤ nameCount teams nm := by
  have := getD_le_sum (teams.map (fun t => teamCount t nm)) k
    (by simpa using hk)
  rw [map_getD _ _ _ hk] at this
  exact this

theorem swap_separates (teams : List Team) (a b : String) (ta aIdx j ji : Nat)
    (hab : a ≠ b) (hta : ta < teams.length) (hj : j < teams.length)
    (hne : j ≠ ta)
    (haIdx : aIdx < (teams.getD ta default).members.length)
    (hnamea : ((teams.getD ta default).members.getD aIdx default).name = a)
    (hjii : ji < (teams.getD j default).members.length)
    (hjb : SL.team_has_name (teams.getD j default) b = false)
    (hca : nameCount teams a ≤ 1) :
    ∀ k, k < (SL.swapBetween teams ta aIdx j ji).length →
      ¬(SL.team_has_name
          ((SL.swapBetween teams ta aIdx j ji).getD k default) a = true ∧
        SL.team_has_name
          ((SL.swapBetween teams ta aIdx j ji).getD k default) b = true) := by
  obtain ⟨hlen, hgta, hgj, hoth⟩ :=
    swapBetween_spec teams ta aIdx j ji hta hj (fun hc => hne hc.symm)
      haIdx hjii
  have hmema : a ∈ teamNames (teams.getD ta default) := by
    rw [teamNames, List.mem_map]
    refine ⟨_, ?_, hnamea⟩
    rw [List.getD_eq_getElem _ _ haIdx]
    exact List.getElem_mem haIdx
  have hhasa : SL.team_has_name (teams.getD ta default) a = true :=
    (has_name_iff _ _).mpr (Or.inr hmema)
  have honly := only_team teams a ta hta hhasa hca
  have hja : SL.team_has_name (teams.getD j default) a = false :=
    honly j hj hne
  have hyname : ((teams.getD j default).members.getD ji default).name ≠ a := by
    intro hc
    rw [← Bool.not_eq_true, has_name_iff] at hja
    apply hja
    right
    rw [teamNames, List.mem_map]
    refine ⟨_, ?_, hc⟩
    rw [List.getD_eq_getElem _ _ hjii]
    exact List.getElem_mem hjii
  intro k hk
  rw [hlen] at hk
  by_cases hkta : k = ta
  · subst hkta
    rw [hgta]
    rintro ⟨hA, _⟩
    have hcount : teamCount (teams.getD k default) a ≤ 1 :=
      le_trans (teamCount_le_nameCount teams a k hk) hca
    have hcm : 1 ≤ (teamNames (teams.getD k default)).count a :=
      List.count_pos_iff_mem.mpr hmema
    have hlead : ¬((teams.getD k default).leader.name = a) := by
      intro hc
      rw [teamCount, if_pos hc] at hcount
      omega
    rcases (has_name_iff _ _).mp hA with hL | hM
    · exact hlead hL
    · rw [teamNames, List.map_set] at hM
      have hu : ((teams.getD k default).members.map
          (fun m => m.name)).get? aIdx = some a := by
        rw [List.get?_eq_getElem?, List.getElem?_eq_getElem
          (by simpa using haIdx), List.getElem_map,
          ← List.getD_eq_getElem _ _ haIdx, hnamea]
      have hcs := count_set_aux ((teams.getD k default).members.map
          (fun m => m.name)) aIdx a
        (((teams.getD j default).members.getD ji default).name) a hu
      rw [if_pos rfl, if_neg hyname] at hcs
      rw [teamCount, if_neg hlead, teamNames] at hcount
      rw [teamNames] at hcm
      have hpos := List.count_pos_iff_mem.mpr hM
      omega
  · by_cases hkj : k = j
    · subst hkj
      rw [hgj]
      rintro ⟨_, hB⟩
      rcases (has_name_iff _ _).mp hB with hL | hM
      · rw [← Bool.not_eq_true, has_name_iff] at hjb
        exact hjb (Or.inl hL)
      · rw [teamNames, List.map_set] at hM
        rcases List.mem_or_eq_of_mem_set hM with hM | hM
        · rw [← Bool.not_eq_true, has_name_iff] at hjb
          exact hjb (Or.inr hM)
        · rw [hnamea] at hM
          exact hab (hM.symm)
    · rw [hoth k hkta hkj]
      rintro ⟨hA, _⟩
      rw [honly k hk hkta] at hA
      exact absurd hA (by simp)

/-- C3 (amended): what a single invocation of `enforce_exclusion_pairs`
(src/streamlit_app.py lines 542–617) on one pair actually guarantees, for
inputs where each pair member's name occurs at most once across the teams and
the two names differ: afterwards the two are NOT on one team, or the repair
was unsatisfiable — the teams are returned unchanged (best effort, no
exception) and every team not containing one of the pair has no members at
all, so no resolving swap existed.  The claim's full-run version is refuted
separately: `assign_members_to_teams` re-runs the repairs pair by pair, and a
later pair's swap can silently re-violate an earlier pair. -/
theorem C3_exclusion_invariant (teams : List Team) (a b : String)
    (hab : a ≠ b) (hca : nameCount teams a ≤ 1) (hcb : nameCount teams b ≤ 1) :
    SL.sameTeamB (SL.enforce_exclusion_pairs teams [(a, b)]) a b = false ∨
    (SL.enforce_exclusion_pairs teams [(a, b)] = teams ∧
      ∀ k, k < teams.length →
        SL.team_has_name (teams.getD k default) a = false →
        SL.team_has_name (teams.getD k default) b = false →
        (teams.getD k default).members = []) := by
  have hfold : SL.enforce_exclusion_pairs teams [(a, b)]
      = SL.try_resolve_pair teams a b := rfl
  rw [hfold]
  cases hla : SL.locate teams a with
  | none =>
      left
      have hout : SL.try_resolve_pair teams a b = teams := by
        unfold SL.try_resolve_pair
        rw [hla]
      rw [hout]
      apply sameTeamB_false_of
      intro k hk
      rintro ⟨hA, _⟩
      have hmem : teams.getD k default ∈ teams := by
        rw [List.getD_eq_getElem _ _ hk]
        exact List.getElem_mem hk
      rw [locateGo_none_spec a teams 0 hla _ hmem] at hA
      exact absurd hA (by simp)
  | some la =>
    obtain ⟨ta, aLead, aIdx⟩ := la
    cases hlb : SL.locate teams b with
    | none =>
        left
        have hout : SL.try_resolve_pair teams a b = teams := by
          unfold SL.try_resolve_pair
          rw [hla, hlb]
        rw [hout]
        apply sameTeamB_false_of
        intro k hk
        rintro ⟨_, hB⟩
        have hmem : teams.getD k default ∈ teams := by
          rw [List.getD_eq_getElem _ _ hk]
          exact List.getElem_mem hk
        rw [locateGo_none_spec b teams 0 hlb _ hmem] at hB
        exact absurd hB (by simp)
    | some lb =>
      obtain ⟨tb, bLead, bIdx⟩ := lb
      obtain ⟨htaL, hhasA, hALead, hAMem⟩ :=
        locate_some_spec teams a ta aLead aIdx hla
      obtain ⟨htbL, hhasB, hBLead, hBMem⟩ :=
        locate_some_spec teams b tb bLead bIdx hlb
      by_cases htatb : ta = tb
      · subst htatb
        unfold SL.try_resolve_pair
        rw [hla, hlb]
        simp only []
        rw [if_neg (by omega : ¬ta ≠ ta)]
        cases aLead with
        | false =>
            obtain ⟨haIdx, hnamea⟩ := hAMem rfl
            rw [if_neg (by simp : ¬(false = true))]
            cases hf1 : SL.findSameGroup teams ta b
                ((teams.getD ta default).members.getD aIdx default).group with
            | some pji =>
                obtain ⟨p, pi⟩ := pji
                simp only []
                left
                obtain ⟨_, hpl, hpc, hpb, hpi⟩ :=
                  findSameGroupGo_some_spec ta b _ teams 0 p pi hf1
                simp only [Nat.sub_zero] at hpl hpb hpi
                apply sameTeamB_false_of
                have hsep := swap_separates teams a b ta aIdx p pi hab htaL
                  hpl hpc haIdx hnamea hpi hpb hca
                intro k hk
                exact hsep k hk
            | none =>
                simp only []
                cases bLead with
                | false =>
                    obtain ⟨hbIdx, hnameb⟩ := hBMem rfl
                    rw [if_neg (by simp : ¬(false = true))]
                    cases hf2 : SL.findSameGroup teams ta a
                        ((teams.getD ta default).members.getD bIdx
                          default).group with
                    | some pji =>
                        obtain ⟨p, pi⟩ := pji
                        simp only []
                        left
                        obtain ⟨_, hpl, hpc, hpa, hpi⟩ :=
                          findSameGroupGo_some_spec ta a _ teams 0 p pi hf2
                        simp only [Nat.sub_zero] at hpl hpa hpi
                        apply sameTeamB_false_of
                        have hsep := swap_separates teams b a ta bIdx p pi
                          (fun hc => hab hc.symm) htaL hpl hpc hbIdx hnameb
                          hpi hpa hcb
                        intro k hk
                        rintro ⟨h1, h2⟩
                        exact hsep k hk ⟨h2, h1⟩
                    | none =>
                        simp only []
                        cases hf3 : SL.findAnyTeam teams ta b with
                        | some p =>
                            simp only []
                            left
                            obtain ⟨_, hpl, hpc, hpb, hpm⟩ :=
                              findAnyTeamGo_some_spec ta b teams 0 p hf3
                            simp only [Nat.sub_zero] at hpl hpb hpm
                            apply sameTeamB_false_of
                            have hp0 : 0 < (teams.getD p
                                default).members.length :=
                              List.length_pos.mpr hpm
                            have hsep := swap_separates teams a b ta aIdx p 0
                              hab htaL hpl hpc haIdx hnamea hp0 hpb hca
                            intro k hk
                            exact hsep k hk
                        | none =>
                            simp only []
                            cases hf4 : SL.findAnyTeam teams ta a with
                            | some p =>
                                simp only []
                                left
                                obtain ⟨_, hpl, hpc, hpa, hpm⟩ :=
                                  findAnyTeamGo_some_spec ta a teams 0 p hf4
                                simp only [Nat.sub_zero] at hpl hpa hpm
                                apply sameTeamB_false_of
                                have hp0 : 0 < (teams.getD p
                                    default).members.length :=
                                  List.length_pos.mpr hpm
                                have hsep := swap_separates teams b a ta bIdx
                                  p 0 (fun hc => hab hc.symm) htaL hpl hpc
                                  hbIdx hnameb hp0 hpa hcb
                                intro k hk
                                rintro ⟨h1, h2⟩
                                exact hsep k hk ⟨h2, h1⟩
                            | none =>
                                simp only []
                                right
                                refine ⟨rfl, ?_⟩
                                intro k hk hka hkb
                                have hkta : k ≠ ta := by
                                  intro hc; subst hc
                                  rw [hhasB] at hkb
                                  exact absurd hkb (by simp)
                                rcases findAnyTeamGo_none_spec ta b teams 0
                                    hf3 k hk (by omega) with hc | hc
                                · rw [hkb] at hc
                                  exact absurd hc (by simp)
                                · exact hc
                | true =>
                    rw [if_pos rfl]
                    cases hf3 : SL.findAnyTeam teams ta b with
                    | some p =>
                        simp only []
                        left
                        obtain ⟨_, hpl, hpc, hpb, hpm⟩ :=
                          findAnyTeamGo_some_spec ta b teams 0 p hf3
                        simp only [Nat.sub_zero] at hpl hpb hpm
                        apply sameTeamB_false_of
                        have hp0 : 0 < (teams.getD p default).members.length :=
                          List.length_pos.mpr hpm
                        have hsep := swap_separates teams a b ta aIdx p 0
                          hab htaL hpl hpc haIdx hnamea hp0 hpb hca
                        intro k hk
                        exact hsep k hk
                    | none =>
                        simp only []
                        right
                        refine ⟨rfl, ?_⟩
                        intro k hk hka hkb
                        have hkta : k ≠ ta := by
                          intro hc; subst hc
                          rw [hhasB] at hkb
                          exact absurd hkb (by simp)
                        rcases findAnyTeamGo_none_spec ta b teams 0 hf3 k hk
                            (by omega) with hc | hc
                        · rw [hkb] at hc
                          exact absurd hc (by simp)
                        · exact hc
        | true =>
            cases bLead with
            | true =>
                exfalso
                apply hab
                rw [← hALead rfl, hBLead rfl]
            | false =>
                obtain ⟨hbIdx, hnameb⟩ := hBMem rfl
                rw [if_pos rfl]
                rw [if_neg (by simp : ¬(false = true))]
                cases hf2 : SL.findSameGroup teams ta a
                    ((teams.getD ta default).members.getD bIdx
                      default).group with
                | some pji =>
                    obtain ⟨p, pi⟩ := pji
                    simp only []
                    left
                    obtain ⟨_, hpl, hpc, hpa, hpi⟩ :=
                      findSameGroupGo_some_spec ta a _ teams 0 p pi hf2
                    simp only [Nat.sub_zero] at hpl hpa hpi
                    apply sameTeamB_false_of
                    have hsep := swap_separates teams b a ta bIdx p pi
                      (fun hc => hab hc.symm) htaL hpl hpc hbIdx hnameb
                      hpi hpa hcb
                    intro k hk
                    rintro ⟨h1, h2⟩
                    exact hsep k hk ⟨h2, h1⟩
                | none =>
                    simp only []
                    rw [if_pos trivial]
                    cases hf4 : SL.findAnyTeam teams ta a with
                    | some p =>
                        simp only []
                        left
                        obtain ⟨_, hpl, hpc, hpa, hpm⟩ :=
                          findAnyTeamGo_some_spec ta a teams 0 p hf4
                        simp only [Nat.sub_zero] at hpl hpa hpm
                        apply sameTeamB_false_of
                        have hp0 : 0 < (teams.getD p default).members.length :=
                          List.length_pos.mpr hpm
                        have hsep := swap_separates teams b a ta bIdx p 0
                          (fun hc => hab hc.symm) htaL hpl hpc hbIdx hnameb
                          hp0 hpa hcb
                        intro k hk
                        rintro ⟨h1, h2⟩
                        exact hsep k hk ⟨h2, h1⟩
                    | none =>
                        simp only []
                        right
                        refine ⟨rfl, ?_⟩
                        intro k hk hka hkb
                        have hkta : k ≠ ta := by
                          intro hc; subst hc
                          rw [hhasA] at hka
                          exact absurd hka (by simp)
                        rcases findAnyTeamGo_none_spec ta a teams 0 hf4 k hk
                            (by omega) with hc | hc
                        · rw [hka] at hc
                          exact absurd hc (by simp)
                        · exact hc
      · left
        have hout : SL.try_resolve_pair teams a b = teams := by
          unfold SL.try_resolve_pair
          rw [hla, hlb]
          simp only []
          rw [if_pos htatb]
        rw [hout]
        apply sameTeamB_false_of
        have honlyB := only_team teams b tb htbL hhasB hcb
        have honlyA := only_team teams a ta htaL hhasA hca
        intro k hk
        rintro ⟨hA, hB⟩
        by_cases hk1 : k = ta
        · subst hk1
          rw [honlyB k hk htatb] at hB
          exact absurd hB (by simp)
        · rw [honlyA k hk hk1] at hA
          exact absurd hA (by simp)

theorem C3_exclusion_invariant_witness :
    ("x" ≠ "y" ∧ nameCount exTeams "x" ≤ 1 ∧ nameCount exTeams "y" ≤ 1) ∧
    (SL.sameTeamB (SL.enforce_exclusion_pairs exTeams [("x", "y")])
        "x" "y" = false ∨
      (SL.enforce_exclusion_pairs exTeams [("x", "y")] = exTeams ∧
        ∀ k, k < exTeams.length →
          SL.team_has_name (exTeams.getD k default) "x" = false →
          SL.team_has_name (exTeams.getD k default) "y" = false →
          (exTeams.getD k default).members = [])) :=
  ⟨⟨by decide, by decide, by decide⟩,
   C3_exclusion_invariant exTeams "x" "y" (by decide) (by decide) (by decide)⟩

/-- C6 counterexample: a valid input (8 captains 4M/4F, pools of sizes 1/1/1)
containing the constrained name 노시현 for which the final team list of
`assign_members_to_teams` (src/streamlit_app.py) has some team whose member
count differs from the sum of that team's veteran, rookie and girls quotas:
the locked-name bump and drain (lines 287–314) change the desired counts away
from the quotas before the rebuild, so the rebuilt sizes no longer match the
planner's targets. -/
theorem C6_counterexample :
    (SL.assign_members_to_teams exclLeaders [⟨"O0", "ob", "M"⟩]
        [⟨"노시현", "yb", "M"⟩] [⟨"R0", "girls", "F"⟩] 1
        (fun n => n * 5 + 2)).toOption.map
      (fun x => (List.range 8).any (fun i =>
        (x.1.getD i default).members.length ≠
          (SL.compute_balanced_targets exclLeaders 1 1 1
            ⟨fun n => n * 5 + 2, 0⟩).1.1.getD i 0 +
          (SL.compute_balanced_targets exclLeaders 1 1 1
            ⟨fun n => n * 5 + 2, 0⟩).1.2.1.getD i 0 +
          (SL.compute_balanced_targets exclLeaders 1 1 1
            ⟨fun n => n * 5 + 2, 0⟩).1.2.2.getD i 0)) = some true := by
  decide

theorem length_eq_three_counts (l : List Member)
    (h : ∀ m ∈ l, m.group = "ob" ∨ m.group = "yb" ∨ m.group = "girls") :
    l.length = (l.filter (fun m => m.group == "ob")).length
      + (l.filter (fun m => m.group == "yb")).length
      + (l.filter (fun m => m.group == "girls")).length := by
  induction l with
  | nil => simp
  | cons m t ih =>
      have hm := h m (List.mem_cons_self _ _)
      have ht := ih (fun x hx => h x (List.mem_cons_of_mem _ hx))
      simp only [List.filter_cons, List.length_cons]
      rcases hm with hg | hg | hg <;> rw [hg] <;> simp <;> omega

theorem join_map_append_perm {α β : Type} (l : List α) (f g : α → List β) :
    ((l.map (fun x => f x ++ g x)).join).Perm
      ((l.map f).join ++ (l.map g).join) := by
  induction l with
  | nil => simp
  | cons x t ih =>
      simp only [List.map_cons, List.join_cons]
      refine (List.Perm.append_left _ ih).trans ?_
      rw [List.append_assoc, List.append_assoc]
      apply List.Perm.append_left
      rw [← List.append_assoc, ← List.append_assoc]
      exact List.Perm.append_right _ List.perm_append_comm

theorem filter_or_perm (l : List Member) :
    (l.filter (fun m => m.group == "ob" || m.group == "yb")).Perm
      ((l.filter (fun m => m.group == "ob"))
        ++ (l.filter (fun m => m.group == "yb"))) := by
  induction l with
  | nil => simp
  | cons m t ih =>
      simp only [List.filter_cons]
      by_cases h1 : m.group = "ob"
      · rw [h1]
        simp only [show (("ob" : String) == "ob") = true from rfl,
          show (("ob" : String) == "yb") = false from rfl, Bool.true_or,
          if_true, if_false, List.cons_append]
        exact ih.cons m
      · by_cases h2 : m.group = "yb"
        · rw [h2]
          simp only [show (("yb" : String) == "ob") = false from rfl,
            show (("yb" : String) == "yb") = true from rfl, Bool.false_or,
            if_true, if_false]
          exact (ih.cons m).trans List.perm_middle.symm
        · have hb1 : (m.group == "ob") = false := by
            rw [beq_eq_false_iff_ne]; exact h1
          have hb2 : (m.group == "yb") = false := by
            rw [beq_eq_false_iff_ne]; exact h2
          simp only [hb1, hb2, Bool.false_or, if_false]
          exact ih

theorem list_eq_of_getD (l l' : List Nat) (hlen : l.length = l'.length)
    (h : ∀ i, i < l.length → l.getD i 0 = l'.getD i 0) : l = l' := by
  apply List.ext_getElem hlen
  intro i h1 h2
  have := h i h1
  rwa [List.getD_eq_getElem _ _ h1, List.getD_eq_getElem _ _ h2] at this

theorem dealGroup_strong : ∀ (ts : List Team) (tgts : List Nat)
    (pool : List Member), tgts.length = ts.length → tgts.sum = pool.length →
    ∃ out, dealGroup ts tgts pool = Except.ok (out, []) ∧
      out.length = ts.length ∧
      (∀ i, i < ts.length →
        (out.getD i default).leader = (ts.getD i default).leader ∧
        ∃ chunk, (out.getD i default).members
            = (ts.getD i default).members ++ chunk ∧
          chunk.length = tgts.getD i 0 ∧ ∀ m ∈ chunk, m ∈ pool) ∧
      (joinM out).Perm (joinM ts ++ pool) := by
  intro ts
  induction ts with
  | nil =>
      intro tgts pool hlen hsum
      have h1 : tgts = [] := List.length_eq_zero.mp (by simpa using hlen)
      subst h1
      have h2 : pool = [] := List.length_eq_zero.mp (by simpa using hsum.symm)
      subst h2
      exact ⟨[], rfl, rfl, fun i hi => absurd hi (by simp), by simp [joinM]⟩
  | cons t ts ih =>
      intro tgts pool hlen hsum
      cases tgts with
      | nil => simp at hlen
      | cons c rest =>
          have hc : c ≤ pool.length := by
            simp only [List.sum_cons] at hsum
            omega
          have hdrop : rest.sum = (pool.drop c).length := by
            simp only [List.sum_cons] at hsum
            rw [List.length_drop]
            omega
          obtain ⟨out, hout, holen, hper, hjoin⟩ := ih rest (pool.drop c)
            (by simpa using hlen) hdrop
          refine ⟨{ t with members := t.members ++ pool.take c } :: out,
            ?_, ?_, ?_, ?_⟩
          · show (do
              let (got, rest2) ← pop_many pool ((c :: rest).headD 0)
              let (ts2, rest3) ← dealGroup ts (c :: rest).tail rest2
              Except.ok ({ t with members := t.members ++ got } :: ts2,
                rest3)) = Except.ok _
            rw [List.headD_cons, pop_many_ok pool c hc]
            show (do
              let (ts2, rest3) ← dealGroup ts rest (pool.drop c)
              Except.ok ({ t with members := t.members ++ pool.take c }
                :: ts2, rest3)) = Except.ok _
            rw [hout]
            rfl
          · simpa using holen
          · intro i hi
            cases i with
            | zero =>
                refine ⟨rfl, pool.take c, rfl, ?_, ?_⟩
                · simp only [List.length_take, List.getD_cons_zero]
                  omega
                · intro m hm
                  exact List.mem_of_mem_take hm
            | succ i =>
                simp only [List.getD_cons_succ]
                obtain ⟨hl, chunk, hmem, hclen, hcin⟩ :=
                  hper i (by simpa using hi)
                exact ⟨hl, chunk, hmem, hclen,
                  fun m hm => List.mem_of_mem_drop (hcin m hm)⟩
          · show ((t.members ++ pool.take c) :: out.map (fun t => t.members)
              |>.join).Perm _
            show ((t.members ++ pool.take c)
              ++ (out.map (fun t => t.members)).join).Perm
              ((t.members ++ (ts.map (fun t => t.members)).join) ++ pool)
            refine (List.Perm.append_left _ hjoin).trans ?_
            rw [List.append_assoc, List.append_assoc]
            apply List.Perm.append_left
            rw [← List.append_assoc]
            refine (List.Perm.append_right _ List.perm_append_comm).trans ?_
            rw [List.append_assoc, List.take_append_drop]
            exact List.Perm.refl _

theorem mkTeams_map_leader (leaders : List Member) :
    (mkTeams leaders).map (fun t => t.leader) = leaders := by
  unfold mkTeams
  rw [List.map_map]
  apply List.ext_getElem (by simp)
  intro i h1 h2
  simp only [List.getElem_map, List.getElem_range, Function.comp]
  rw [← List.getD_eq_getElem _ _ h2]

theorem mkTeams_getD (leaders : List Member) (i : Nat)
    (h : i < leaders.length) :
    (mkTeams leaders).getD i default
      = ⟨i, leaders.getD i default, []⟩ := by
  unfold mkTeams
  rw [List.getD_eq_getElem _ _ (by simpa using h), List.getElem_map,
    List.getElem_range]

theorem joinM_mkTeams (leaders : List Member) :
    joinM (mkTeams leaders) = [] := by
  unfold joinM mkTeams
  rw [List.map_map]
  apply List.join_eq_nil_iff.mpr
  intro l hl
  rcases List.mem_map.mp hl with ⟨i, _, hi⟩
  exact hi.symm

theorem shuffleTeams_spec : ∀ (ts : List Team) (r : Rng),
    (shuffleTeams ts r).1.length = ts.length ∧
    ∀ i, i < ts.length →
      ((shuffleTeams ts r).1.getD i default).leader
          = (ts.getD i default).leader ∧
      (((shuffleTeams ts r).1.getD i default).members).Perm
        ((ts.getD i default).members) := by
  intro ts
  induction ts with
  | nil => intro r; exact ⟨rfl, fun i hi => absurd hi (by simp)⟩
  | cons t ts ih =>
      intro r
      have hstep : shuffleTeams (t :: ts) r
          = ({ t with members := (r.shuffle t.members).1 }
              :: (shuffleTeams ts (r.shuffle t.members).2).1,
            (shuffleTeams ts (r.shuffle t.members).2).2) := rfl
      rw [hstep]
      obtain ⟨hlen, hper⟩ := ih (r.shuffle t.members).2
      refine ⟨by simpa using hlen, ?_⟩
      intro i hi
      cases i with
      | zero =>
          exact ⟨rfl, shuffle_perm _ _⟩
      | succ i =>
          simp only [List.getD_cons_succ]
          exact hper i (by simpa using hi)

theorem findIdxQ_none_intro {α : Type} [Inhabited α] (p : α → Bool)
    (l : List α) (s : Nat) (h : ∀ x ∈ l, p x = false) :
    List.findIdx? p l s = none := by
  induction l generalizing s with
  | nil => rfl
  | cons x t ih =>
      rw [show List.findIdx? p (x :: t) s
        = if p x then some s else List.findIdx? p t (s + 1) from rfl]
      rw [if_neg (by rw [h x (List.mem_cons_self _ _)]; simp)]
      exact ih (s + 1) (fun y hy => h y (List.mem_cons_of_mem _ hy))

theorem locate_none_intro (teams : List Team) (nm : String)
    (h : ∀ t ∈ teams, SL.team_has_name t nm = false) :
    SL.locate teams nm = none := by
  rw [SL.locate]
  suffices hgen : ∀ (ts : List Team) (i : Nat),
      (∀ t ∈ ts, SL.team_has_name t nm = false) →
      SL.locateGo nm ts i = none by
    exact hgen teams 0 h
  intro ts
  induction ts with
  | nil => intro i _; rfl
  | cons t rest ih =>
      intro i hall
      have ht := hall t (List.mem_cons_self _ _)
      rw [SL.team_has_name, Bool.or_eq_false_iff] at ht
      rw [SL.locateGo, if_neg (by rw [ht.1]; simp)]
      have hf : t.members.findIdx? (fun m => m.name == nm) = none := by
        apply findIdxQ_none_intro
        intro x hx
        have := ht.2
        rw [List.any_eq_false] at this
        have := this x hx
        rwa [Bool.not_eq_true] at this
      rw [hf]
      exact ih (i + 1) (fun u hu => hall u (List.mem_cons_of_mem _ hu))

theorem try_resolve_noop (teams : List Team) (a b : String)
    (ha : SL.locate teams a = none) :
    SL.try_resolve_pair teams a b = teams := by
  unfold SL.try_resolve_pair
  rw [ha]

theorem enforce_exclusion_noop (teams : List Team) (a b : String)
    (ha : SL.locate teams a = none) :
    SL.enforce_exclusion_pairs teams [(a, b)] = teams := by
  show SL.try_resolve_pair teams a b = teams
  exact try_resolve_noop teams a b ha

theorem enforce_inclusion_noop (teams : List Team) (a b : String)
    (ha : SL.locate teams a = none) :
    SL.enforce_inclusion_pair teams a b = teams := by
  unfold SL.enforce_inclusion_pair
  rw [ha]

theorem clean_has_name_false (t : Team) (nm : String)
    (hnm : nm ∈ SL.excludeNames) (hc : cleanTeam t) :
    SL.team_has_name t nm = false := by
  rw [← Bool.not_eq_true, has_name_iff]
  rintro (h | h)
  · exact hc.1 (h ▸ hnm)
  · rw [teamNames, List.mem_map] at h
    obtain ⟨m, hm, hname⟩ := h
    exact (hc.2 m hm).2 (hname ▸ hnm)

theorem getD_map_cast (l : List Nat) (i : Nat) :
    0 ≤ (l.map (fun x : Nat => (x : Int))).getD i 0 := by
  have hlm : (l.map (fun x : Nat => (x : Int))).length = l.length :=
    List.length_map _ _
  by_cases h : i < l.length
  · rw [List.getD_eq_getElem (l.map (fun x : Nat => (x : Int))) 0
      (by rw [hlm]; exact h), List.getElem_map]
    exact Int.ofNat_nonneg _
  · rw [List.getD_eq_getElem?_getD,
      List.getElem?_eq_none (by rw [hlm]; exact Nat.le_of_not_lt h)]
    rfl

theorem getD_map_cast_lt (l : List Nat) (i : Nat) (h : i < l.length) :
    (l.map (fun x : Nat => (x : Int))).getD i 0 = (l.getD i 0 : Int) := by
  have hlm : (l.map (fun x : Nat => (x : Int))).length = l.length :=
    List.length_map _ _
  rw [List.getD_eq_getElem (l.map (fun x : Nat => (x : Int))) 0
    (by rw [hlm]; exact h), List.getElem_map, List.getD_eq_getElem _ _ h]

theorem bumpDesired_noop (locked : List Nat) (n : Nat) (dyb dob : List Int)
    (hl : ∀ i, locked.getD i 0 = 0) (hd : ∀ i, 0 ≤ dyb.getD i 0) :
    SL.bumpDesired locked n dyb dob = (dyb, dob) := by
  unfold SL.bumpDesired
  suffices h : ∀ L : List Nat, L.foldl (SL.bumpStep locked) (dyb, dob)
      = (dyb, dob) from h _
  intro L
  induction L with
  | nil => rfl
  | cons i L ih =>
      rw [List.foldl_cons]
      have hstep : SL.bumpStep locked (dyb, dob) i = (dyb, dob) := by
        unfold SL.bumpStep
        rw [if_neg]
        intro hc
        rw [hl i] at hc
        have := hd i
        simp only [Nat.cast_zero] at hc
        omega
      rw [hstep, ih]

theorem negFix_noop (n : Nat) (dyb dob : List Int)
    (hd : ∀ i, 0 ≤ dob.getD i 0) :
    SL.negFix n dyb dob = (dyb, dob) := by
  unfold SL.negFix
  suffices h : ∀ L : List Nat, L.foldl (SL.negFixStep n) (dyb, dob)
      = (dyb, dob) from h _
  intro L
  induction L with
  | nil => rfl
  | cons i L ih =>
      rw [List.foldl_cons]
      have hstep : SL.negFixStep n (dyb, dob) i = (dyb, dob) := by
        unfold SL.negFixStep
        rw [if_neg]
        intro hc
        have := hd i
        simp only [] at hc
        omega
      rw [hstep, ih]

theorem lockedYb_zero (teams : List Team)
    (hclean : ∀ t ∈ teams, ∀ m ∈ t.members, m.name ∉ SL.excludeNames) :
    ∀ i, (SL.lockedYbByTeam teams).getD i 0 = 0 := by
  intro i
  by_cases h : i < teams.length
  · rw [SL.lockedYbByTeam, map_getD _ _ _ h]
    have hmem : teams.getD i default ∈ teams := by
      rw [List.getD_eq_getElem _ _ h]
      exact List.getElem_mem h
    rw [List.filter_eq_nil.mpr]
    · rfl
    · intro m hm
      have := hclean _ hmem m hm
      simp only [Bool.and_eq_true, decide_eq_true_eq, not_and]
      intro _
      exact this
  · rw [List.getD_eq_getElem?_getD, List.getElem?_eq_none]
    · rfl
    · rw [SL.lockedYbByTeam, List.length_map]
      simpa using Nat.le_of_not_lt h

theorem adjustDesired_noop (teams : List Team) (n : Nat) (ybT obT : List Nat)
    (hclean : ∀ t ∈ teams, ∀ m ∈ t.members, m.name ∉ SL.excludeNames) :
    SL.adjustDesired teams n ybT obT
      = (ybT.map (fun x : Nat => (x : Int)), obT.map (fun x : Nat => (x : Int))) := by
  unfold SL.adjustDesired
  simp only []
  rw [bumpDesired_noop _ _ _ _ (lockedYb_zero teams hclean)
    (fun i => getD_map_cast ybT i)]
  simp only []
  rw [sub_self, if_neg (by omega : ¬((0 : Int) > 0))]
  exact negFix_noop n _ _ (fun i => getD_map_cast obT i)

theorem swapLoop_noop (desired : List Int) (dG rG : List String)
    (n fuel : Nat) (teams : List Team) (cur : List Int)
    (h : ∀ i, i < n → cur.getD i 0 = desired.getD i 0) :
    SL.swapLoop desired dG rG n fuel teams cur = teams := by
  cases fuel with
  | zero => rfl
  | succ f =>
      rw [SL.swapLoop]
      rw [if_pos]
      left
      rw [List.filter_eq_nil]
      intro i hi
      rw [List.mem_range] at hi
      rw [h i hi]
      simp

theorem map_getD_int (f : Team → Int) (teams : List Team) (k : Nat)
    (hk : k < teams.length) :
    (teams.map f).getD k 0 = f (teams.getD k default) := by
  rw [List.getD_eq_getElem _ _ (by simpa using hk),
    List.getD_eq_getElem _ _ hk, List.getElem_map]

theorem girlsFinalPass_noop (girlsT : List Nat) (n : Nat) (teams : List Team)
    (hlen : teams.length = n) (hglen : girlsT.length = n)
    (h : ∀ i, i < n → girlsCount (teams.getD i default) = girlsT.getD i 0) :
    SL.girlsFinalPass girlsT n teams = teams := by
  unfold SL.girlsFinalPass
  simp only []
  have hdon : (List.range n).filter (fun i =>
      decide ((teams.map (fun t => ((t.members.filter
        (fun m => m.group == "girls")).length : Int))).getD i 0 >
        (girlsT.map (fun x : Nat => (x : Int))).getD i 0)) = [] := by
    rw [List.filter_eq_nil]
    intro i hi
    rw [List.mem_range] at hi
    rw [map_getD_int _ _ _ (by omega), getD_map_cast_lt _ _ (by omega)]
    have hgc := h i hi
    rw [girlsCount] at hgc
    rw [hgc]
    simp
  rw [hdon]
  rfl

theorem sumNeeds_succ (d : List Int) (i len : Nat) :
    sumNeeds d i (len + 1) = (d.getD i 0).toNat + sumNeeds d (i + 1) len := by
  unfold sumNeeds
  rw [List.range_succ_eq_map, List.map_cons, List.sum_cons, List.map_map,
    Nat.add_zero]
  have h2 : List.map ((fun k => (d.getD (i + k) 0).toNat) ∘ Nat.succ)
      (List.range len)
      = List.map (fun k => (d.getD ((i + 1) + k) 0).toNat)
        (List.range len) := by
    apply List.map_congr_left
    intro k _
    show (d.getD (i + (k + 1)) 0).toNat = (d.getD ((i + 1) + k) 0).toNat
    have harith : i + (k + 1) = (i + 1) + k := by omega
    rw [harith]
  rw [h2]

theorem rebuildDeal_cons_zero (dyb dob : List Int) (t : Team) (ts : List Team)
    (i : Nat) (ybP obP : List Member)
    (hyb : (t.members.filter (fun m => m.group == "yb")).length = 0)
    (hob : (t.members.filter (fun m => m.group == "ob")).length = 0)
    (hyl : (dyb.getD i 0).toNat ≤ ybP.length)
    (hol : (dob.getD i 0).toNat ≤ obP.length) :
    SL.rebuildDeal dyb dob (t :: ts) i ybP obP
      = ({ t with members := t.members ++ ybP.take (dyb.getD i 0).toNat
            ++ obP.take (dob.getD i 0).toNat }
          :: (SL.rebuildDeal dyb dob ts (i + 1)
              (ybP.drop (dyb.getD i 0).toNat)
              (obP.drop (dob.getD i 0).toNat)).1,
         (SL.rebuildDeal dyb dob ts (i + 1)
              (ybP.drop (dyb.getD i 0).toNat)
              (obP.drop (dob.getD i 0).toNat)).2) := by
  rw [SL.rebuildDeal]
  rw [hyb, hob]
  simp only [Nat.cast_zero, sub_zero]
  rw [min_eq_left hyl, min_eq_left hol]

theorem rebuildDeal_spec (dyb dob : List Int) :
    ∀ (ts : List Team) (i : Nat) (ybP obP : List Member),
    (∀ k, k < ts.length → ybCount (ts.getD k default) = 0 ∧
      obCount (ts.getD k default) = 0) →
    sumNeeds dyb i ts.length = ybP.length →
    sumNeeds dob i ts.length = obP.length →
    ∃ out, SL.rebuildDeal dyb dob ts i ybP obP = (out, [], []) ∧
      out.length = ts.length ∧
      (∀ k, k < ts.length →
        (out.getD k default).leader = (ts.getD k default).leader ∧
        ∃ yc oc, (out.getD k default).members
            = (ts.getD k default).members ++ yc ++ oc ∧
          yc.length = (dyb.getD (i + k) 0).toNat ∧
          oc.length = (dob.getD (i + k) 0).toNat ∧
          (∀ m ∈ yc, m ∈ ybP) ∧ (∀ m ∈ oc, m ∈ obP)) ∧
      (joinM out).Perm (joinM ts ++ ybP ++ obP) := by
  intro ts
  induction ts with
  | nil =>
      intro i ybP obP hcnt hy ho
      have hy0 : ybP = [] := by
        rw [← List.length_eq_zero, ← hy]; rfl
      have ho0 : obP = [] := by
        rw [← List.length_eq_zero, ← ho]; rfl
      subst hy0 ho0
      exact ⟨[], rfl, rfl, fun k hk => absurd hk (by simp),
        by simp [joinM]⟩
  | cons t ts ih =>
      intro i ybP obP hcnt hy ho
      simp only [List.length_cons] at hy ho
      rw [sumNeeds_succ] at hy ho
      have h0 := hcnt 0 (by simp)
      simp only [List.getD_cons_zero] at h0
      rw [ybCount] at h0
      rw [obCount] at h0
      have hyl : (dyb.getD i 0).toNat ≤ ybP.length := by omega
      have hol : (dob.getD i 0).toNat ≤ obP.length := by omega
      obtain ⟨out, hout, holen, hper, hjoin⟩ := ih (i + 1)
        (ybP.drop (dyb.getD i 0).toNat) (obP.drop (dob.getD i 0).toNat)
        (fun k hk => by
          have := hcnt (k + 1) (by simpa using hk)
          simpa using this)
        (by rw [List.length_drop]; omega)
        (by rw [List.length_drop]; omega)
      refine ⟨{ t with
          members := t.members ++ ybP.take (dyb.getD i 0).toNat
            ++ obP.take (dob.getD i 0).toNat } :: out, ?_, ?_, ?_, ?_⟩
      · rw [rebuildDeal_cons_zero dyb dob t ts i ybP obP h0.1 h0.2 hyl hol,
          hout]
      · simpa using holen
      · intro k hk
        cases k with
        | zero =>
            refine ⟨rfl, ybP.take (dyb.getD i 0).toNat,
              obP.take (dob.getD i 0).toNat, ?_, ?_, ?_, ?_, ?_⟩
            · simp only [List.getD_cons_zero]
            · rw [List.length_take, Nat.add_zero, min_eq_left hyl]
            · rw [List.length_take, Nat.add_zero, min_eq_left hol]
            · intro m hm; exact List.mem_of_mem_take hm
            · intro m hm; exact List.mem_of_mem_take hm
        | succ k =>
            simp only [List.getD_cons_succ]
            obtain ⟨hl, yc, oc, hmem, hyc, hoc, hycin, hocin⟩ :=
              hper k (by simpa using hk)
            refine ⟨hl, yc, oc, hmem, ?_, ?_, ?_, ?_⟩
            · have harith : i + (k + 1) = (i + 1) + k := by omega
              rw [harith]
              exact hyc
            · have harith : i + (k + 1) = (i + 1) + k := by omega
              rw [harith]
              exact hoc
            · intro m hm; exact List.mem_of_mem_drop (hycin m hm)
            · intro m hm; exact List.mem_of_mem_drop (hocin m hm)
      · rw [List.perm_iff_count]
        intro a
        have hcnt' := hjoin.count_eq a
        have htdy : ybP.count a
            = (ybP.take (dyb.getD i 0).toNat).count a
              + (ybP.drop (dyb.getD i 0).toNat).count a := by
          rw [← List.count_append, List.take_append_drop]
        have htdo : obP.count a
            = (obP.take (dob.getD i 0).toNat).count a
              + (obP.drop (dob.getD i 0).toNat).count a := by
          rw [← List.count_append, List.take_append_drop]
        show ((t.members ++ ybP.take (dyb.getD i 0).toNat
            ++ obP.take (dob.getD i 0).toNat)
              ++ (out.map (fun t => t.members)).join).count a
          = ((t.members ++ (ts.map (fun t => t.members)).join)
              ++ ybP ++ obP).count a
        simp only [List.count_append] at hcnt' ⊢
        rw [show (joinM out).count a
            = ((out.map (fun t => t.members)).join).count a from rfl] at hcnt'
        rw [show (joinM ts).count a
            = ((ts.map (fun t => t.members)).join).count a from rfl] at hcnt'
        omega

theorem range_map_getD (l : List Nat) :
    (List.range l.length).map (fun k => l.getD k 0) = l := by
  apply List.ext_getElem (by simp)
  intro i h1 h2
  simp only [List.getElem_map, List.getElem_range]
  rw [List.getD_eq_getElem _ _ h2]

theorem sumNeeds_cast (l : List Nat) :
    sumNeeds (l.map (fun x : Nat => (x : Int))) 0 l.length = l.sum := by
  unfold sumNeeds
  rw [show (List.range l.length).map (fun k =>
      ((l.map (fun x : Nat => (x : Int))).getD (0 + k) 0).toNat)
      = (List.range l.length).map (fun k => l.getD k 0) from ?_]
  · rw [range_map_getD]
  · apply List.map_congr_left
    intro k hk
    rw [List.mem_range] at hk
    rw [Nat.zero_add, getD_map_cast_lt _ _ hk, Int.toNat_natCast]

theorem join_perm_pointwise : ∀ (A B : List (List Member)),
    A.length = B.length →
    (∀ i, i < A.length → ((A.getD i []).Perm (B.getD i []))) →
    (A.join).Perm (B.join) := by
  intro A
  induction A with
  | nil =>
      intro B hlen _
      have : B = [] := List.length_eq_zero.mp (by simpa using hlen.symm)
      subst this
      rfl
  | cons x A ih =>
      intro B hlen hall
      cases B with
      | nil => simp at hlen
      | cons y B =>
          show (x ++ A.join).Perm (y ++ B.join)
          have h0 := hall 0 (by simp)
          simp only [List.getD_cons_zero] at h0
          refine List.Perm.append h0 (ih B (by simpa using hlen) ?_)
          intro i hi
          have := hall (i + 1) (by simpa using hi)
          simpa using this

theorem decide_not_locked (locked : List String) (m : Member)
    (hlock : ∀ x ∈ locked, x ∈ SL.excludeNames) (hm : cleanMember m) :
    decide (m.name ∉ locked) = true := by
  rw [decide_eq_true_eq]
  intro hc
  exact hm.2 (hlock _ hc)

theorem filter_keep_eq_girls (locked : List String) (l : List Member)
    (hlock : ∀ x ∈ locked, x ∈ SL.excludeNames)
    (hcl : ∀ m ∈ l, cleanMember m) :
    l.filter (SL.keepMember locked)
      = l.filter (fun m => m.group == "girls") := by
  apply List.filter_congr
  intro m hm
  have hnin := decide_not_locked locked m hlock (hcl m hm)
  rw [SL.keepMember, hnin, Bool.and_true]
  rcases (hcl m hm).1 with hg | hg | hg <;> rw [hg] <;> rfl

theorem filter_pool_grp (locked : List String) (l : List Member) (g : String)
    (hlock : ∀ x ∈ locked, x ∈ SL.excludeNames)
    (hcl : ∀ m ∈ l, cleanMember m) :
    l.filter (fun m => m.group == g && decide (m.name ∉ locked))
      = l.filter (fun m => m.group == g) := by
  apply List.filter_congr
  intro m hm
  rw [decide_not_locked locked m hlock (hcl m hm), Bool.and_true]

theorem filter_notkeep_perm (locked : List String) (l : List Member)
    (hlock : ∀ x ∈ locked, x ∈ SL.excludeNames)
    (hcl : ∀ m ∈ l, cleanMember m) :
    (l.filter (fun m => !SL.keepMember locked m)).Perm
      ((l.filter (fun m => m.group == "ob"))
        ++ (l.filter (fun m => m.group == "yb"))) := by
  rw [show l.filter (fun m => !SL.keepMember locked m)
      = l.filter (fun m => m.group == "ob" || m.group == "yb") from ?_]
  · exact filter_or_perm l
  · apply List.filter_congr
    intro m hm
    have hnin := decide_not_locked locked m hlock (hcl m hm)
    rw [SL.keepMember, hnin, Bool.and_true, Bool.not_not]

theorem filter_of_all_group (l : List Member) (g g' : String)
    (hall : ∀ m ∈ l, m.group = g) (hne : g ≠ g') :
    l.filter (fun m => m.group == g') = [] := by
  rw [List.filter_eq_nil]
  intro m hm
  rw [hall m hm]
  simp only [beq_iff_eq]
  exact hne

theorem filter_of_all_group_self (l : List Member) (g : String)
    (hall : ∀ m ∈ l, m.group = g) :
    l.filter (fun m => m.group == g) = l := by
  rw [List.filter_eq_self]
  intro m hm
  rw [hall m hm]
  simp

theorem fill_leftovers_nil (dyb dob : List Int) (teams : List Team) (r : Rng)
    (n : Nat) : SL.fill_leftovers dyb dob teams [] r n = (teams, r) := by
  unfold SL.fill_leftovers
  rw [if_pos rfl]

theorem map_getD_team (f : Team → Team) (teams : List Team) (k : Nat)
    (hk : k < teams.length) :
    (teams.map f).getD k default = f (teams.getD k default) := by
  rw [List.getD_eq_getElem _ _ (by rw [List.length_map]; exact hk),
    List.getD_eq_getElem _ _ hk, List.getElem_map]

theorem map_getD_list (f : Team → List Member) (teams : List Team) (k : Nat)
    (hk : k < teams.length) :
    (teams.map f).getD k [] = f (teams.getD k default) := by
  rw [List.getD_eq_getElem _ _ (by rw [List.length_map]; exact hk),
    List.getD_eq_getElem _ _ hk, List.getElem_map]

theorem rebuild_spec (teams : List Team) (obT ybT girlsT : List Nat)
    (locked : List String) (r : Rng)
    (hlock : ∀ x ∈ locked, x ∈ SL.excludeNames)
    (hlen : teams.length = 8)
    (hobl : obT.length = 8) (hybl : ybT.length = 8) (hgl : girlsT.length = 8)
    (hok : ∀ i, i < 8 → cleanTeam (teams.getD i default) ∧
      obCount (teams.getD i default) = obT.getD i 0 ∧
      ybCount (teams.getD i default) = ybT.getD i 0 ∧
      girlsCount (teams.getD i default) = girlsT.getD i 0) :
    ∀ res, res = SL.rebuild_ob_yb_exact teams
        (ybT.map (fun x : Nat => (x : Int)))
        (obT.map (fun x : Nat => (x : Int))) locked r 8 →
      res.1.length = 8 ∧
      (∀ i, i < 8 →
        (res.1.getD i default).leader = (teams.getD i default).leader ∧
        cleanTeam (res.1.getD i default) ∧
        obCount (res.1.getD i default) = obT.getD i 0 ∧
        ybCount (res.1.getD i default) = ybT.getD i 0 ∧
        girlsCount (res.1.getD i default) = girlsT.getD i 0) ∧
      (joinM res.1).Perm (joinM teams) := by
  intro res hres
  have hclean_t : ∀ t ∈ teams, ∀ m ∈ t.members, cleanMember m := by
    intro t ht m hm
    obtain ⟨i, hi, hget⟩ := List.mem_iff_getElem.mp ht
    have := (hok i (by omega)).1
    rw [List.getD_eq_getElem _ _ hi, hget] at this
    exact this.2 m hm
  unfold SL.rebuild_ob_yb_exact at hres
  lift_lets at hres
  extract_lets obPool ybPool teamsK ores yres dres fy fo at hres
  have hobPool : obPool = teams.bind (fun t => t.members.filter
    (fun m => m.group == "ob" && decide (m.name ∉ locked))) := rfl
  have hybPool : ybPool = teams.bind (fun t => t.members.filter
    (fun m => m.group == "yb" && decide (m.name ∉ locked))) := rfl
  have hteamsK : teamsK = teams.map (fun t => { t with
    members := t.members.filter (SL.keepMember locked) }) := rfl
  have hores : ores = r.shuffle obPool := rfl
  have hyres : yres = ores.2.shuffle ybPool := rfl
  have hdres : dres = SL.rebuildDeal (ybT.map (fun x : Nat => (x : Int)))
    (obT.map (fun x : Nat => (x : Int))) teamsK 0 yres.1 ores.1 := rfl
  -- pool simplification
  have hob_simp : obPool = teams.bind (fun t => t.members.filter
      (fun m => m.group == "ob")) := by
    rw [hobPool]
    show (teams.map _).join = (teams.map _).join
    apply congrArg List.join
    apply List.map_congr_left
    intro t ht
    exact filter_pool_grp locked t.members "ob" hlock (hclean_t t ht)
  have hyb_simp : ybPool = teams.bind (fun t => t.members.filter
      (fun m => m.group == "yb")) := by
    rw [hybPool]
    show (teams.map _).join = (teams.map _).join
    apply congrArg List.join
    apply List.map_congr_left
    intro t ht
    exact filter_pool_grp locked t.members "yb" hlock (hclean_t t ht)
  -- pool lengths
  have hmap_ob : teams.map (fun t => (t.members.filter
      (fun m => m.group == "ob")).length) = obT := by
    apply list_eq_of_getD _ _ (by rw [List.length_map, hlen, hobl])
    intro i hi
    rw [List.length_map, hlen] at hi
    rw [map_getD _ _ _ (by omega)]
    exact (hok i hi).2.1
  have hmap_yb : teams.map (fun t => (t.members.filter
      (fun m => m.group == "yb")).length) = ybT := by
    apply list_eq_of_getD _ _ (by rw [List.length_map, hlen, hybl])
    intro i hi
    rw [List.length_map, hlen] at hi
    rw [map_getD _ _ _ (by omega)]
    exact (hok i hi).2.2.1
  have hob_len : obPool.length = obT.sum := by
    rw [hob_simp]
    show ((teams.map _).join).length = _
    rw [List.length_join, List.map_map]
    rw [show teams.map (List.length ∘ (fun t => t.members.filter
      (fun m => m.group == "ob"))) = teams.map (fun t =>
        (t.members.filter (fun m => m.group == "ob")).length) from rfl]
    rw [hmap_ob]
  have hyb_len : ybPool.length = ybT.sum := by
    rw [hyb_simp]
    show ((teams.map _).join).length = _
    rw [List.length_join, List.map_map]
    rw [show teams.map (List.length ∘ (fun t => t.members.filter
      (fun m => m.group == "yb"))) = teams.map (fun t =>
        (t.members.filter (fun m => m.group == "yb")).length) from rfl]
    rw [hmap_yb]
  -- teamsK facts
  have hK_len : teamsK.length = 8 := by
    rw [hteamsK, List.length_map, hlen]
  have hK_i : ∀ i, i < 8 → teamsK.getD i default
      = { teams.getD i default with members :=
          (teams.getD i default).members.filter (SL.keepMember locked) } := by
    intro i hi
    rw [hteamsK, map_getD_team _ _ _ (by omega)]
  have hK_girls : ∀ i, i < 8 →
      (teamsK.getD i default).members
        = (teams.getD i default).members.filter
            (fun m => m.group == "girls") := by
    intro i hi
    rw [hK_i i hi]
    show (teams.getD i default).members.filter (SL.keepMember locked) = _
    apply filter_keep_eq_girls locked _ hlock
    intro m hm
    have hmem : teams.getD i default ∈ teams := by
      rw [List.getD_eq_getElem _ _ (by omega)]
      exact List.getElem_mem (by omega)
    exact hclean_t _ hmem m hm
  have hK_cnt : ∀ k, k < teamsK.length →
      ybCount (teamsK.getD k default) = 0 ∧
      obCount (teamsK.getD k default) = 0 := by
    intro k hk
    rw [hK_len] at hk
    have hg : ∀ m ∈ (teamsK.getD k default).members, m.group = "girls" := by
      intro m hm
      rw [hK_girls k hk] at hm
      have := List.of_mem_filter hm
      rwa [beq_iff_eq] at this
    constructor
    · rw [ybCount, filter_of_all_group _ "girls" "yb" hg (by decide)]
      rfl
    · rw [obCount, filter_of_all_group _ "girls" "ob" hg (by decide)]
      rfl
  -- the re-deal
  obtain ⟨out, hdeal, holen, hper, hjoin⟩ := rebuildDeal_spec
    (ybT.map (fun x : Nat => (x : Int)))
    (obT.map (fun x : Nat => (x : Int))) teamsK 0 yres.1 ores.1 hK_cnt
    (by rw [hK_len, ← hybl, sumNeeds_cast, hyres, shuffle_length, hyb_len])
    (by rw [hK_len, ← hobl, sumNeeds_cast, hores, shuffle_length, hob_len])
  have hdres2 : dres = (out, [], []) := by rw [hdres, hdeal]
  have hd1 : dres.1 = out := by rw [hdres2]
  have hd21 : dres.2.1 = [] := by rw [hdres2]
  have hd22 : dres.2.2 = [] := by rw [hdres2]
  have hfy : fy = (out, yres.2) := by
    show SL.fill_leftovers _ _ dres.1 dres.2.1 yres.2 8 = _
    rw [hd1, hd21]
    exact fill_leftovers_nil _ _ _ _ _
  have hfo : fo = (out, yres.2) := by
    show SL.fill_leftovers _ _ fy.1 dres.2.2 fy.2 8 = _
    rw [hfy, hd22]
    exact fill_leftovers_nil _ _ _ _ _
  have hres1 : res.1 = out := by
    rw [hres, hfo]
  -- membership facts for pool members
  have hyb_mem : ∀ m ∈ yres.1, m.group = "yb" ∧ cleanMember m := by
    intro m hm
    rw [hyres] at hm
    rw [shuffle_mem] at hm
    rw [hyb_simp] at hm
    rw [List.mem_bind] at hm
    obtain ⟨t, ht, hmf⟩ := hm
    have h1 := List.of_mem_filter hmf
    rw [beq_iff_eq] at h1
    exact ⟨h1, hclean_t t ht m (List.mem_of_mem_filter hmf)⟩
  have hob_mem : ∀ m ∈ ores.1, m.group = "ob" ∧ cleanMember m := by
    intro m hm
    rw [hores] at hm
    rw [shuffle_mem] at hm
    rw [hob_simp] at hm
    rw [List.mem_bind] at hm
    obtain ⟨t, ht, hmf⟩ := hm
    have h1 := List.of_mem_filter hmf
    rw [beq_iff_eq] at h1
    exact ⟨h1, hclean_t t ht m (List.mem_of_mem_filter hmf)⟩
  refine ⟨by rw [hres1, holen, hK_len], ?_, ?_⟩
  · intro i hi
    obtain ⟨hl, yc, oc, hmem, hyc, hoc, hycin, hocin⟩ :=
      hper i (by rw [hK_len]; exact hi)
    have hycg : ∀ m ∈ yc, m.group = "yb" ∧ cleanMember m :=
      fun m hm => hyb_mem m (hycin m hm)
    have hocg : ∀ m ∈ oc, m.group = "ob" ∧ cleanMember m :=
      fun m hm => hob_mem m (hocin m hm)
    have hyc_len : yc.length = ybT.getD i 0 := by
      rw [hyc, Nat.zero_add, getD_map_cast_lt _ _ (by omega),
        Int.toNat_natCast]
    have hoc_len : oc.length = obT.getD i 0 := by
      rw [hoc, Nat.zero_add, getD_map_cast_lt _ _ (by omega),
        Int.toNat_natCast]
    have hgmem : ∀ m ∈ (teamsK.getD i default).members,
        m.group = "girls" := by
      intro m hm
      rw [hK_girls i hi] at hm
      have := List.of_mem_filter hm
      rwa [beq_iff_eq] at this
    rw [hres1]
    refine ⟨?_, ?_, ?_, ?_, ?_⟩
    · rw [hl, hK_i i hi]
    · constructor
      · rw [hl, hK_i i hi]
        exact (hok i hi).1.1
      · intro m hm
        rw [hmem] at hm
        rcases List.mem_append.mp hm with hm | hm
        · rcases List.mem_append.mp hm with hm | hm
          · have hmem2 : teams.getD i default ∈ teams := by
              rw [List.getD_eq_getElem _ _ (by omega)]
              exact List.getElem_mem (by omega)
            exact hclean_t _ hmem2 m (by
              rw [hK_girls i hi] at hm
              exact List.mem_of_mem_filter hm)
          · exact (hycg m hm).2
        · exact (hocg m hm).2
    · rw [obCount, hmem, List.filter_append, List.filter_append,
        List.length_append, List.length_append,
        filter_of_all_group _ "girls" "ob" hgmem (by decide),
        filter_of_all_group _ "yb" "ob" (fun m hm => (hycg m hm).1)
          (by decide),
        filter_of_all_group_self _ "ob" (fun m hm => (hocg m hm).1)]
      simp only [List.length_nil]
      omega
    · rw [ybCount, hmem, List.filter_append, List.filter_append,
        List.length_append, List.length_append,
        filter_of_all_group _ "girls" "yb" hgmem (by decide),
        filter_of_all_group_self _ "yb" (fun m hm => (hycg m hm).1),
        filter_of_all_group _ "ob" "yb" (fun m hm => (hocg m hm).1)
          (by decide)]
      simp only [List.length_nil]
      omega
    · rw [girlsCount, hmem, List.filter_append, List.filter_append,
        List.length_append, List.length_append,
        filter_of_all_group _ "yb" "girls" (fun m hm => (hycg m hm).1)
          (by decide),
        filter_of_all_group _ "ob" "girls" (fun m hm => (hocg m hm).1)
          (by decide)]
      have := (hok i hi).2.2.2
      rw [girlsCount] at this
      rw [show ((teamsK.getD i default).members.filter
          (fun m => m.group == "girls"))
          = (teamsK.getD i default).members from
        filter_of_all_group_self _ "girls" hgmem]
      rw [hK_girls i hi]
      simp only [List.length_nil]
      omega
  · -- permutation of all members
    rw [hres1, List.perm_iff_count]
    intro a
    have h1 := hjoin.count_eq a
    -- joinM teams ~ joinM teamsK ++ (obPool ++ ybPool)
    have hsplit : (joinM teams).Perm
        ((teams.map (fun t => t.members.filter (SL.keepMember locked))).join
          ++ (teams.map (fun t => t.members.filter
              (fun m => !SL.keepMember locked m))).join) := by
      refine List.Perm.trans ?_ (join_map_append_perm teams _ _)
      apply join_perm_pointwise
      · rw [List.length_map, List.length_map]
      · intro i hi
        rw [List.length_map] at hi
        rw [map_getD_list _ _ _ hi, map_getD_list _ _ _ hi]
        exact (List.filter_append_perm _ _).symm
    have hnot : ((teams.map (fun t => t.members.filter
        (fun m => !SL.keepMember locked m))).join).Perm
        ((teams.map (fun t => t.members.filter
            (fun m => m.group == "ob"))).join
          ++ (teams.map (fun t => t.members.filter
              (fun m => m.group == "yb"))).join) := by
      refine List.Perm.trans ?_ (join_map_append_perm teams _ _)
      apply join_perm_pointwise
      · rw [List.length_map, List.length_map]
      · intro i hi
        rw [List.length_map] at hi
        rw [map_getD_list _ _ _ hi, map_getD_list _ _ _ hi]
        apply filter_notkeep_perm locked _ hlock
        intro m hm
        have hmem2 : teams.getD i default ∈ teams := by
          rw [List.getD_eq_getElem _ _ hi]
          exact List.getElem_mem hi
        exact hclean_t _ hmem2 m hm
    have h2 := hsplit.count_eq a
    have h3 := hnot.count_eq a
    have h4 := (shuffle_perm ores.2 ybPool).count_eq a
    have h5 := (shuffle_perm r obPool).count_eq a
    rw [show (Rng.shuffle ores.2 ybPool).1 = yres.1 from by rw [hyres]] at h4
    rw [show (Rng.shuffle r obPool).1 = ores.1 from by rw [hores]] at h5
    rw [hob_simp] at h5
    rw [hyb_simp] at h4
    simp only [List.count_append] at h1 h2 h3 ⊢
    rw [show (joinM teamsK).count a = ((teams.map (fun t =>
      t.members.filter (SL.keepMember locked))).join).count a from by
        rw [joinM, hteamsK, List.map_map]; rfl] at h1
    rw [show (teams.bind (fun t => t.members.filter
      (fun m => m.group == "yb"))) = (teams.map (fun t =>
        t.members.filter (fun m => m.group == "yb"))).join from rfl] at h4
    rw [show (teams.bind (fun t => t.members.filter
      (fun m => m.group == "ob"))) = (teams.map (fun t =>
        t.members.filter (fun m => m.group == "ob"))).join from rfl] at h5
    omega

theorem clean_teams_exclusion_noop (ts : List Team) (hlen : ts.length = 8)
    (hclean : ∀ i, i < 8 → cleanTeam (ts.getD i default)) (a b : String)
    (ha : a ∈ SL.excludeNames) :
    SL.enforce_exclusion_pairs ts [(a, b)] = ts := by
  apply enforce_exclusion_noop
  apply locate_none_intro
  intro t ht
  obtain ⟨i, hi, hget⟩ := List.mem_iff_getElem.mp ht
  apply clean_has_name_false _ _ ha
  have := hclean i (by omega)
  rwa [List.getD_eq_getElem _ _ hi, hget] at this

theorem clean_teams_inclusion_noop (ts : List Team) (hlen : ts.length = 8)
    (hclean : ∀ i, i < 8 → cleanTeam (ts.getD i default)) (a b : String)
    (ha : a ∈ SL.excludeNames) :
    SL.enforce_inclusion_pair ts a b = ts := by
  apply enforce_inclusion_noop
  apply locate_none_intro
  intro t ht
  obtain ⟨i, hi, hget⟩ := List.mem_iff_getElem.mp ht
  apply clean_has_name_false _ _ ha
  have := hclean i (by omega)
  rwa [List.getD_eq_getElem _ _ hi, hget] at this

theorem rebalance_spec (teams : List Team) (obT ybT girlsT : List Nat)
    (incl : Bool) (r : Rng)
    (hlen : teams.length = 8)
    (hobl : obT.length = 8) (hybl : ybT.length = 8) (hgl : girlsT.length = 8)
    (hok : ∀ i, i < 8 → cleanTeam (teams.getD i default) ∧
      obCount (teams.getD i default) = obT.getD i 0 ∧
      ybCount (teams.getD i default) = ybT.getD i 0 ∧
      girlsCount (teams.getD i default) = girlsT.getD i 0) :
    ∀ res, res = SL.rebalance teams obT ybT girlsT incl r 8 →
      res.1.length = 8 ∧
      (∀ i, i < 8 →
        (res.1.getD i default).leader = (teams.getD i default).leader ∧
        cleanTeam (res.1.getD i default) ∧
        obCount (res.1.getD i default) = obT.getD i 0 ∧
        ybCount (res.1.getD i default) = ybT.getD i 0 ∧
        girlsCount (res.1.getD i default) = girlsT.getD i 0) ∧
      (joinM res.1).Perm (joinM teams) := by
  intro res hres
  have hclean_t : ∀ t ∈ teams, ∀ m ∈ t.members, cleanMember m := by
    intro t ht m hm
    obtain ⟨i, hi, hget⟩ := List.mem_iff_getElem.mp ht
    have := (hok i (by omega)).1
    rw [List.getD_eq_getElem _ _ hi, hget] at this
    exact this.2 m hm
  unfold SL.rebalance at hres
  lift_lets at hres
  extract_lets desiredGirls ad dyb dob cur0 teamsB curYb teamsC curOb teamsD
    rb1 teamsF teamsG teamsH teamsI lockedFinal at hres
  have hdG : desiredGirls = girlsT.map (fun x : Nat => (x : Int)) := rfl
  have had : ad = SL.adjustDesired teams 8 ybT obT := rfl
  have hadv : ad = (ybT.map (fun x : Nat => (x : Int)),
      obT.map (fun x : Nat => (x : Int))) := by
    rw [had]
    exact adjustDesired_noop teams 8 ybT obT
      (fun t ht m hm => (hclean_t t ht m hm).2)
  have hdyb : dyb = ybT.map (fun x : Nat => (x : Int)) := by
    show ad.1 = _
    rw [hadv]
  have hdob : dob = obT.map (fun x : Nat => (x : Int)) := by
    show ad.2 = _
    rw [hadv]
  have hcur0 : cur0 = teams.map (fun t => ((t.members.filter
    (fun m => m.group == "girls")).length : Int)) := rfl
  have hB : teamsB = teams := by
    show SL.swapLoop desiredGirls ["girls"] ["ob", "yb"] 8 64 teams cur0
      = teams
    apply swapLoop_noop
    intro i hi
    rw [hcur0, map_getD_int _ _ _ (by omega), hdG,
      getD_map_cast_lt _ _ (by omega)]
    have := (hok i hi).2.2.2
    rw [girlsCount] at this
    rw [this]
  have hcurYb : curYb = teamsB.map (fun t => ((t.members.filter
    (fun m => m.group == "yb")).length : Int)) := rfl
  have hC : teamsC = teamsB := by
    show SL.swapLoop dyb ["yb"] ["ob"] 8 64 teamsB curYb = teamsB
    apply swapLoop_noop
    intro i hi
    rw [hcurYb, hB, map_getD_int _ _ _ (by omega), hdyb,
      getD_map_cast_lt _ _ (by omega)]
    have := (hok i hi).2.2.1
    rw [ybCount] at this
    rw [this]
  have hcurOb : curOb = teamsC.map (fun t => ((t.members.filter
    (fun m => m.group == "ob")).length : Int)) := rfl
  have hD : teamsD = teamsC := by
    show SL.swapLoop dob ["ob"] ["yb"] 8 64 teamsC curOb = teamsC
    apply swapLoop_noop
    intro i hi
    rw [hcurOb, hC, hB, map_getD_int _ _ _ (by omega), hdob,
      getD_map_cast_lt _ _ (by omega)]
    have := (hok i hi).2.1
    rw [obCount] at this
    rw [this]
  have hrb1 : rb1 = SL.rebuild_ob_yb_exact teamsD dyb dob SL.excludeNames
    r 8 := rfl
  obtain ⟨hr1len, hr1i, hr1join⟩ := rebuild_spec teams obT ybT girlsT
    SL.excludeNames r (fun x hx => hx) hlen hobl hybl hgl hok rb1
    (by rw [hrb1, hD, hC, hB, hdyb, hdob])
  have hF : teamsF = rb1.1 := by
    show SL.enforce_exclusion_pairs rb1.1 [("노시현", "배연경")] = rb1.1
    exact clean_teams_exclusion_noop rb1.1 hr1len
      (fun i hi => (hr1i i hi).2.1) _ _ (by decide)
  have hG : teamsG = rb1.1 := by
    show SL.enforce_exclusion_pairs teamsF [("노시현", "이진원")] = rb1.1
    rw [hF]
    exact clean_teams_exclusion_noop rb1.1 hr1len
      (fun i hi => (hr1i i hi).2.1) _ _ (by decide)
  have hH : teamsH = rb1.1 := by
    show (if incl then SL.enforce_inclusion_pair teamsG "이진원" "배연경"
      else teamsG) = rb1.1
    cases incl
    · rw [if_neg (by simp)]
      exact hG
    · rw [if_pos rfl, hG]
      exact clean_teams_inclusion_noop rb1.1 hr1len
        (fun i hi => (hr1i i hi).2.1) _ _ (by decide)
  have hI : teamsI = rb1.1 := by
    show SL.girlsFinalPass girlsT 8 teamsH = rb1.1
    rw [hH]
    apply girlsFinalPass_noop girlsT 8 rb1.1 hr1len hgl
    intro i hi
    exact (hr1i i hi).2.2.2.2
  have hlf : ∀ x ∈ lockedFinal, x ∈ SL.excludeNames := by
    show ∀ x ∈ ((if incl then ["이진원", "배연경"] else []) ++ ["노시현"]
      ++ SL.excludeNames), x ∈ SL.excludeNames
    cases incl
    · rw [if_neg (by simp)]
      decide
    · rw [if_pos rfl]
      decide
  obtain ⟨hflen, hfi, hfjoin⟩ := rebuild_spec rb1.1 obT ybT girlsT
    lockedFinal rb1.2 hlf hr1len hobl hybl hgl
    (fun i hi => ⟨(hr1i i hi).2.1, (hr1i i hi).2.2.1, (hr1i i hi).2.2.2.1,
      (hr1i i hi).2.2.2.2⟩)
    res (by rw [hres, hI, hdyb, hdob])
  refine ⟨hflen, ?_, hfjoin.trans hr1join⟩
  intro i hi
  obtain ⟨hfl, hfc, hfo2, hfy2, hfg⟩ := hfi i hi
  refine ⟨?_, hfc, hfo2, hfy2, hfg⟩
  rw [hfl]
  exact (hr1i i hi).1

theorem stage2_spec (obT ybT girlsT : List Nat) (out3 : List Team)
    (r : Rng) (incl : Bool) (leaders : List Member)
    (hobl : obT.length = 8) (hybl : ybT.length = 8) (hgl : girlsT.length = 8)
    (hlen3 : out3.length = 8)
    (hlead3 : ∀ i, i < 8 →
      (out3.getD i default).leader = leaders.getD i default)
    (hok3 : ∀ i, i < 8 → cleanTeam (out3.getD i default) ∧
      obCount (out3.getD i default) = obT.getD i 0 ∧
      ybCount (out3.getD i default) = ybT.getD i 0 ∧
      girlsCount (out3.getD i default) = girlsT.getD i 0) :
    ∀ res, res = SL.rebalance
        (if incl then SL.enforce_inclusion_pair
            (SL.enforce_exclusion_pairs (SL.enforce_exclusion_pairs
              (shuffleTeams out3 r).1 [("노시현", "배연경")])
              [("노시현", "이진원")]) "이진원" "배연경"
          else SL.enforce_exclusion_pairs (SL.enforce_exclusion_pairs
              (shuffleTeams out3 r).1 [("노시현", "배연경")])
              [("노시현", "이진원")])
        obT ybT girlsT incl (shuffleTeams out3 r).2 8 →
      res.1.length = 8 ∧
      (∀ i, i < 8 →
        (res.1.getD i default).leader = leaders.getD i default ∧
        cleanTeam (res.1.getD i default) ∧
        obCount (res.1.getD i default) = obT.getD i 0 ∧
        ybCount (res.1.getD i default) = ybT.getD i 0 ∧
        girlsCount (res.1.getD i default) = girlsT.getD i 0) ∧
      (joinM res.1).Perm (joinM out3) := by
  intro res hres
  obtain ⟨hshlen, hshi⟩ := shuffleTeams_spec out3 r
  have hXlen : (shuffleTeams out3 r).1.length = 8 := by
    rw [hshlen, hlen3]
  have hXok : ∀ i, i < 8 →
      cleanTeam ((shuffleTeams out3 r).1.getD i default) ∧
      obCount ((shuffleTeams out3 r).1.getD i default) = obT.getD i 0 ∧
      ybCount ((shuffleTeams out3 r).1.getD i default) = ybT.getD i 0 ∧
      girlsCount ((shuffleTeams out3 r).1.getD i default)
        = girlsT.getD i 0 := by
    intro i hi
    obtain ⟨hl, hp⟩ := hshi i (by omega)
    obtain ⟨hc3, hob3, hyb3, hg3⟩ := hok3 i hi
    refine ⟨⟨by rw [hl]; exact hc3.1, ?_⟩, ?_, ?_, ?_⟩
    · intro m hm
      exact hc3.2 m (hp.mem_iff.mp hm)
    · rw [obCount, (hp.filter _).length_eq]
      exact hob3
    · rw [ybCount, (hp.filter _).length_eq]
      exact hyb3
    · rw [girlsCount, (hp.filter _).length_eq]
      exact hg3
  have h5 : SL.enforce_exclusion_pairs (shuffleTeams out3 r).1
      [("노시현", "배연경")] = (shuffleTeams out3 r).1 :=
    clean_teams_exclusion_noop _ hXlen (fun i hi => (hXok i hi).1) _ _
      (by decide)
  have h6 : SL.enforce_exclusion_pairs (shuffleTeams out3 r).1
      [("노시현", "이진원")] = (shuffleTeams out3 r).1 :=
    clean_teams_exclusion_noop _ hXlen (fun i hi => (hXok i hi).1) _ _
      (by decide)
  have h7 : (if incl then SL.enforce_inclusion_pair
      (SL.enforce_exclusion_pairs (SL.enforce_exclusion_pairs
        (shuffleTeams out3 r).1 [("노시현", "배연경")])
        [("노시현", "이진원")]) "이진원" "배연경"
    else SL.enforce_exclusion_pairs (SL.enforce_exclusion_pairs
        (shuffleTeams out3 r).1 [("노시현", "배연경")])
        [("노시현", "이진원")]) = (shuffleTeams out3 r).1 := by
    rw [h5, h6]
    cases incl
    · rw [if_neg (by simp)]
    · rw [if_pos rfl]
      exact clean_teams_inclusion_noop _ hXlen
        (fun i hi => (hXok i hi).1) _ _ (by decide)
  rw [h7] at hres
  obtain ⟨hrlen, hri, hrjoin⟩ := rebalance_spec (shuffleTeams out3 r).1
    obT ybT girlsT incl (shuffleTeams out3 r).2 hXlen hobl hybl hgl hXok
    res hres
  have hXjoin : (joinM (shuffleTeams out3 r).1).Perm (joinM out3) := by
    apply join_perm_pointwise
    · rw [List.length_map, List.length_map, hshlen]
    · intro i hi
      rw [List.length_map] at hi
      rw [map_getD_list _ _ _ hi, map_getD_list _ _ _ (by
        rw [← hshlen]; exact hi)]
      exact (hshi i (by rw [← hshlen]; exact hi)).2
  refine ⟨hrlen, ?_, hrjoin.trans hXjoin⟩
  intro i hi
  obtain ⟨hl2, hc2, ho2, hy2, hg2⟩ := hri i hi
  refine ⟨?_, hc2, ho2, hy2, hg2⟩
  rw [hl2, (hshi i (by omega)).1]
  exact hlead3 i hi

/-- C6 (amended): roster completeness holds on the clean fragment.  For every
valid input (8 captains, 4M/4F) whose pool members carry their pool's group
tag, and in which NONE of the three constrained names (이진원, 배연경, 노시현)
occurs — so the special-rule machinery has nothing to act on — and for every
seed and draw tape, `assign_members_to_teams` (src/streamlit_app.py) succeeds
and returns teams where: the i-th team keeps the i-th captain, each team's
member count equals the sum of its veteran, rookie and girls quotas from
`compute_balanced_targets`, and the members of all teams together are a
permutation of the three input pools (nobody dropped, nobody duplicated).
When a constrained name IS present the size half of the claim fails — see the
separate counterexample. -/
theorem C6_roster_completeness (leaders obL ybL girlsL : List Member)
    (seed : Int) (tape : Nat → Nat)
    (h8 : leaders.length = 8)
    (hM : (leaders.filter (fun m => m.gender == "M")).length = 4)
    (hF : (leaders.filter (fun m => m.gender == "F")).length = 4)
    (hgOb : ∀ m ∈ obL, m.group = "ob")
    (hgYb : ∀ m ∈ ybL, m.group = "yb")
    (hgG : ∀ m ∈ girlsL, m.group = "girls")
    (hnames : ∀ m ∈ leaders ++ obL ++ ybL ++ girlsL,
      m.name ∉ SL.excludeNames) :
    ∃ ts, SL.assign_members_to_teams leaders obL ybL girlsL seed tape
        = Except.ok (ts, [], [], []) ∧
      ts.length = 8 ∧
      (∀ i, i < 8 →
        (ts.getD i default).leader = leaders.getD i default ∧
        (ts.getD i default).members.length
          = (SL.compute_balanced_targets leaders obL.length ybL.length
              girlsL.length ⟨tape, 0⟩).1.1.getD i 0
            + (SL.compute_balanced_targets leaders obL.length ybL.length
                girlsL.length ⟨tape, 0⟩).1.2.1.getD i 0
            + (SL.compute_balanced_targets leaders obL.length ybL.length
                girlsL.length ⟨tape, 0⟩).1.2.2.getD i 0) ∧
      (joinM ts).Perm (obL ++ ybL ++ girlsL) := by
  have hobS : ∀ m ∈ ((SL.compute_balanced_targets leaders obL.length
      ybL.length girlsL.length ⟨tape, 0⟩).2.shuffle obL).1,
      m.group = "ob" ∧ m.name ∉ SL.excludeNames := by
    intro m hm
    rw [shuffle_mem] at hm
    exact ⟨hgOb m hm, hnames m (List.mem_append_left girlsL
      (List.mem_append_left ybL (List.mem_append_right leaders hm)))⟩
  have hybS : ∀ m ∈ ((((SL.compute_balanced_targets leaders obL.length
      ybL.length girlsL.length ⟨tape, 0⟩).2.shuffle obL).2).shuffle ybL).1,
      m.group = "yb" ∧ m.name ∉ SL.excludeNames := by
    intro m hm
    rw [shuffle_mem] at hm
    exact ⟨hgYb m hm, hnames m (List.mem_append_left girlsL
      (List.mem_append_right (leaders ++ obL) hm))⟩
  have hgS : ∀ m ∈ ((((((SL.compute_balanced_targets leaders obL.length
      ybL.length girlsL.length ⟨tape, 0⟩).2.shuffle obL).2).shuffle
        ybL).2).shuffle girlsL).1,
      m.group = "girls" ∧ m.name ∉ SL.excludeNames := by
    intro m hm
    rw [shuffle_mem] at hm
    exact ⟨hgG m hm,
      hnames m (List.mem_append_right (leaders ++ obL ++ ybL) hm)⟩
  obtain ⟨s1, s2, s3, s4, s5, s6⟩ := SL.compute_balanced_targets_sums leaders
    obL.length ybL.length girlsL.length ⟨tape, 0⟩ (by omega)
  unfold SL.assign_members_to_teams SL.assignCore
  rw [if_neg (by omega), if_neg (by push_neg; exact ⟨hM, hF⟩)]
  simp only []
  obtain ⟨out1, hdeal1, hlen1, hper1, hjoin1⟩ := dealGroup_strong
    (mkTeams leaders)
    (SL.compute_balanced_targets leaders obL.length ybL.length girlsL.length
      ⟨tape, 0⟩).1.1
    ((SL.compute_balanced_targets leaders obL.length ybL.length girlsL.length
      ⟨tape, 0⟩).2.shuffle obL).1
    (by rw [mkTeams_length, s4])
    (by rw [shuffle_length]; exact s1)
  rw [hdeal1]
  simp only []
  obtain ⟨out2, hdeal2, hlen2, hper2, hjoin2⟩ := dealGroup_strong out1
    (SL.compute_balanced_targets leaders obL.length ybL.length girlsL.length
      ⟨tape, 0⟩).1.2.1
    ((((SL.compute_balanced_targets leaders obL.length ybL.length
      girlsL.length ⟨tape, 0⟩).2.shuffle obL).2).shuffle ybL).1
    (by rw [hlen1, mkTeams_length, s5])
    (by rw [shuffle_length]; exact s2)
  rw [hdeal2]
  simp only []
  obtain ⟨out3, hdeal3, hlen3, hper3, hjoin3⟩ := dealGroup_strong out2
    (SL.compute_balanced_targets leaders obL.length ybL.length girlsL.length
      ⟨tape, 0⟩).1.2.2
    ((((((SL.compute_balanced_targets leaders obL.length ybL.length
      girlsL.length ⟨tape, 0⟩).2.shuffle obL).2).shuffle
        ybL).2).shuffle girlsL).1
    (by rw [hlen2, hlen1, mkTeams_length, s6])
    (by rw [shuffle_length]; exact s3)
  rw [hdeal3]
  simp only []
  rw [h8]
  -- facts about out3
  have hL1 : out1.length = 8 := by rw [hlen1, mkTeams_length, h8]
  have hL2 : out2.length = 8 := by rw [hlen2, hL1]
  have hL3 : out3.length = 8 := by rw [hlen3, hL2]
  have hlead3 : ∀ i, i < 8 →
      (out3.getD i default).leader = leaders.getD i default := by
    intro i hi
    rw [(hper3 i (by omega)).1, (hper2 i (by omega)).1,
      (hper1 i (by omega)).1, mkTeams_getD leaders i (by omega)]
  have hok3 : ∀ i, i < 8 → cleanTeam (out3.getD i default) ∧
      obCount (out3.getD i default)
        = (SL.compute_balanced_targets leaders obL.length ybL.length
            girlsL.length ⟨tape, 0⟩).1.1.getD i 0 ∧
      ybCount (out3.getD i default)
        = (SL.compute_balanced_targets leaders obL.length ybL.length
            girlsL.length ⟨tape, 0⟩).1.2.1.getD i 0 ∧
      girlsCount (out3.getD i default)
        = (SL.compute_balanced_targets leaders obL.length ybL.length
            girlsL.length ⟨tape, 0⟩).1.2.2.getD i 0 := by
    intro i hi
    obtain ⟨_, c1, hm1, hc1len, hc1in⟩ := hper1 i (by omega)
    obtain ⟨_, c2, hm2, hc2len, hc2in⟩ := hper2 i (by omega)
    obtain ⟨_, c3, hm3, hc3len, hc3in⟩ := hper3 i (by omega)
    rw [mkTeams_getD leaders i (by omega)] at hm1
    simp only [List.nil_append] at hm1
    rw [hm2, hm1] at hm3
    have hc1p : ∀ m ∈ c1, m.group = "ob" ∧ m.name ∉ SL.excludeNames :=
      fun m hm => hobS m (hc1in m hm)
    have hc2p : ∀ m ∈ c2, m.group = "yb" ∧ m.name ∉ SL.excludeNames :=
      fun m hm => hybS m (hc2in m hm)
    have hc3p : ∀ m ∈ c3, m.group = "girls" ∧ m.name ∉ SL.excludeNames :=
      fun m hm => hgS m (hc3in m hm)
    refine ⟨⟨?_, ?_⟩, ?_, ?_, ?_⟩
    · rw [hlead3 i hi]
      have hmem : leaders.getD i default ∈ leaders := by
        rw [List.getD_eq_getElem _ _ (by omega)]
        exact List.getElem_mem (by omega)
      exact hnames _ (List.mem_append_left girlsL (List.mem_append_left ybL
        (List.mem_append_left obL hmem)))
    · intro m hm
      rw [hm3] at hm
      rcases List.mem_append.mp hm with hm | hm
      · rcases List.mem_append.mp hm with hm | hm
        · exact ⟨Or.inl (hc1p m hm).1, (hc1p m hm).2⟩
        · exact ⟨Or.inr (Or.inl (hc2p m hm).1), (hc2p m hm).2⟩
      · exact ⟨Or.inr (Or.inr (hc3p m hm).1), (hc3p m hm).2⟩
    · rw [obCount, hm3, List.filter_append, List.filter_append,
        List.length_append, List.length_append,
        filter_of_all_group_self _ "ob" (fun m hm => (hc1p m hm).1),
        filter_of_all_group _ "yb" "ob" (fun m hm => (hc2p m hm).1)
          (by decide),
        filter_of_all_group _ "girls" "ob" (fun m hm => (hc3p m hm).1)
          (by decide)]
      simp only [List.length_nil]
      omega
    · rw [ybCount, hm3, List.filter_append, List.filter_append,
        List.length_append, List.length_append,
        filter_of_all_group _ "ob" "yb" (fun m hm => (hc1p m hm).1)
          (by decide),
        filter_of_all_group_self _ "yb" (fun m hm => (hc2p m hm).1),
        filter_of_all_group _ "girls" "yb" (fun m hm => (hc3p m hm).1)
          (by decide)]
      simp only [List.length_nil]
      omega
    · rw [girlsCount, hm3, List.filter_append, List.filter_append,
        List.length_append, List.length_append,
        filter_of_all_group _ "ob" "girls" (fun m hm => (hc1p m hm).1)
          (by decide),
        filter_of_all_group _ "yb" "girls" (fun m hm => (hc2p m hm).1)
          (by decide),
        filter_of_all_group_self _ "girls" (fun m hm => (hc3p m hm).1)]
      simp only [List.length_nil]
      omega
  obtain ⟨hrlen, hri, hrjoin⟩ := stage2_spec
    (SL.compute_balanced_targets leaders obL.length ybL.length girlsL.length
      ⟨tape, 0⟩).1.1
    (SL.compute_balanced_targets leaders obL.length ybL.length girlsL.length
      ⟨tape, 0⟩).1.2.1
    (SL.compute_balanced_targets leaders obL.length ybL.length girlsL.length
      ⟨tape, 0⟩).1.2.2
    out3
    ((((((SL.compute_balanced_targets leaders obL.length ybL.length
      girlsL.length ⟨tape, 0⟩).2.shuffle obL).2).shuffle
        ybL).2).shuffle girlsL).2
    (seed % 3 == 0) leaders (by rw [s4, h8]) (by rw [s5, h8])
    (by rw [s6, h8]) hL3 hlead3 hok3 _ rfl
  refine ⟨_, rfl, hrlen, ?_, ?_⟩
  · intro i hi
    obtain ⟨hl, hc, ho, hy, hg⟩ := hri i hi
    refine ⟨hl, ?_⟩
    rw [length_eq_three_counts _ (fun m hm => (hc.2 m hm).1), ← obCount,
      ← ybCount, ← girlsCount, ho, hy, hg]
  · rw [List.perm_iff_count]
    intro a
    have hc0 := hrjoin.count_eq a
    have hcj3 := hjoin3.count_eq a
    have hcj2 := hjoin2.count_eq a
    have hcj1 := hjoin1.count_eq a
    rw [joinM_mkTeams] at hcj1
    have hs1 := ((shuffle_perm (SL.compute_balanced_targets leaders
      obL.length ybL.length girlsL.length ⟨tape, 0⟩).2 obL)).count_eq a
    have hs2 := ((shuffle_perm (((SL.compute_balanced_targets leaders
      obL.length ybL.length girlsL.length ⟨tape, 0⟩).2.shuffle obL).2)
      ybL)).count_eq a
    have hs3 := ((shuffle_perm (((((SL.compute_balanced_targets leaders
      obL.length ybL.length girlsL.length ⟨tape, 0⟩).2.shuffle obL).2).shuffle
        ybL).2) girlsL)).count_eq a
    simp only [List.count_append, List.count_nil] at hc0 hcj1 hcj2 hcj3 ⊢
    omega

theorem C6_roster_completeness_witness :
    (sampleLeaders.length = 8 ∧
      (sampleLeaders.filter (fun m => m.gender == "M")).length = 4 ∧
      (sampleLeaders.filter (fun m => m.gender == "F")).length = 4 ∧
      (∀ m ∈ [(⟨"O0", "ob", "M"⟩ : Member)], m.group = "ob") ∧
      (∀ m ∈ [(⟨"Y0", "yb", "M"⟩ : Member)], m.group = "yb") ∧
      (∀ m ∈ [(⟨"G0", "girls", "F"⟩ : Member)], m.group = "girls") ∧
      (∀ m ∈ sampleLeaders ++ [(⟨"O0", "ob", "M"⟩ : Member)]
          ++ [(⟨"Y0", "yb", "M"⟩ : Member)]
          ++ [(⟨"G0", "girls", "F"⟩ : Member)],
        m.name ∉ SL.excludeNames)) ∧
    (∃ ts, SL.assign_members_to_teams sampleLeaders
        [(⟨"O0", "ob", "M"⟩ : Member)] [(⟨"Y0", "yb", "M"⟩ : Member)]
        [(⟨"G0", "girls", "F"⟩ : Member)] 1 (fun _ => 0)
        = Except.ok (ts, [], [], []) ∧
      ts.length = 8 ∧
      (∀ i, i < 8 →
        (ts.getD i default).leader = sampleLeaders.getD i default ∧
        (ts.getD i default).members.length
          = (SL.compute_balanced_targets sampleLeaders
              [(⟨"O0", "ob", "M"⟩ : Member)].length
              [(⟨"Y0", "yb", "M"⟩ : Member)].length
              [(⟨"G0", "girls", "F"⟩ : Member)].length
              ⟨fun _ => 0, 0⟩).1.1.getD i 0
            + (SL.compute_balanced_targets sampleLeaders
                [(⟨"O0", "ob", "M"⟩ : Member)].length
                [(⟨"Y0", "yb", "M"⟩ : Member)].length
                [(⟨"G0", "girls", "F"⟩ : Member)].length
                ⟨fun _ => 0, 0⟩).1.2.1.getD i 0
            + (SL.compute_balanced_targets sampleLeaders
                [(⟨"O0", "ob", "M"⟩ : Member)].length
                [(⟨"Y0", "yb", "M"⟩ : Member)].length
                [(⟨"G0", "girls", "F"⟩ : Member)].length
                ⟨fun _ => 0, 0⟩).1.2.2.getD i 0) ∧
      (joinM ts).Perm ([(⟨"O0", "ob", "M"⟩ : Member)]
        ++ [(⟨"Y0", "yb", "M"⟩ : Member)]
        ++ [(⟨"G0", "girls", "F"⟩ : Member)])) :=
  ⟨⟨by decide, by decide, by decide, by decide, by decide, by decide,
    by decide⟩,
   C6_roster_completeness sampleLeaders [(⟨"O0", "ob", "M"⟩ : Member)]
    [(⟨"Y0", "yb", "M"⟩ : Member)] [(⟨"G0", "girls", "F"⟩ : Member)]
    1 (fun _ => 0) (by decide) (by decide) (by decide) (by decide)
    (by decide) (by decide) (by decide)⟩

end TeamDrawer
